import Mathlib

/-!
# Verification of the qatgo streaming compression adapter layer

A shallow embedding of the `qatzip` Go package's Stream Writer
(`compress.go`) and Stream Reader (`reader` source file), together with
proofs about the buffering/retry protocol they implement around the
external QATzip engine.

Conventions of the embedding:

* Go byte slices become `List Nat` (content is opaque to the adapter
  layer, so plain naturals suffice).
* Go `error` values become `Option QErr` (`none` = `nil`).
* The external collaborators (the engine binding's C side, the
  downstream `io.Writer` sink, the upstream `io.Reader` source) are
  parameters: a `WEnv`/`REnv` record of state-transition functions over
  caller-chosen state types.  Concrete instances used in theorems are
  either script-driven oracles (an arbitrary pre-decided list of
  responses, with the engine contract `consumed ≤ len(input)`,
  `produced ≤ len(output)` enforced by clamping) or a deterministic
  engine built from an abstract codec (`EngineSpec`).
* The unbounded `for` loops of the source become fuel-indexed
  recursions returning `Option`; `none` models a loop that has not
  finished within the given fuel.
* Wall-clock performance counters (`ReadTimeNS` etc.) cannot be
  modelled; the `Perf` record keeps the fields but only the byte
  counters (`BytesIn`, `BytesOut`) are updated by the model.  The
  `perf` pointer of the Go structs is `Option Perf`; `none` models the
  nil pointer, and dereferencing it (as `GetPerf` does) is modelled by
  returning `none`.
* The `QATGO_ALGORITHM` / `QATGO_COMPRESSION_LEVEL` environment
  variables are modelled as unset, so `applyEnvOptions` is the
  identity.
-/

namespace QatGo

/-- Bytes are opaque to the adapter layer. -/
abbrev Byte := Nat

/-- The error values of `errors.go` that the Writer/Reader logic can
observe or produce, plus `eof` for `io.EOF`, `shortWrite` for
`io.ErrShortWrite` and `assertFail` for the Reader's internal assert.
`other n` stands for any further distinct error value. -/
inductive QErr where
  | buffer              -- ErrBuffer (QZ_BUF_ERROR, retryable)
  | writerClosed        -- ErrWriterClosed
  | emptyBuffer         -- ErrEmptyBuffer
  | shortWrite          -- io.ErrShortWrite
  | unsupportedFmt      -- ErrUnsupportedFmt
  | fail                -- ErrFail
  | dataCorrupt         -- ErrData
  | deviceUninit        -- ErrNone ("device uninitialized")
  | eof                 -- io.EOF
  | assertFail          -- Reader.Read internal assert error
  | other (n : Nat)
  deriving DecidableEq, Repr

/-- A Go `error` value: `none` is `nil`. -/
abbrev GoErr := Option QErr

/-- `Algorithm` (params.go): DEFLATE = 0, LZ4 = 1, ZSTD = 2. -/
inductive Alg where
  | deflate | lz4 | zstd
  deriving DecidableEq, Repr

/-- `InputBufferMode` (params.go): Reserve = 0 (zero value, hence the
default), Bounce, Last, NoLast. -/
inductive IBMode where
  | reserve | bounce | last | noLast
  deriving DecidableEq, Repr

/-- The fields of `params` (params.go) that the Writer/Reader logic
reads.  The remaining fields are consumed only by the engine binding at
session start. -/
structure Params where
  outputBufLength : Nat
  inputBufLength : Nat
  bufferGrowth : Nat
  level : Nat
  algorithm : Alg
  bounceBufferLength : Nat
  inputBufferMode : IBMode
  deriving DecidableEq, Repr

/-- `defaultParams()` (params.go).  `InputBufferMode` is left at its Go
zero value, `Reserve`. -/
def defaultParams : Params where
  outputBufLength := 128 * 1024 * 1024
  inputBufLength := 128 * 1024 * 1024
  bufferGrowth := 1024 * 1024
  level := 1
  algorithm := .deflate
  bounceBufferLength := 512
  inputBufferMode := .reserve

/-- Performance counters (`Perf` in compress.go).  Only the byte
counters are updated by the model; the time counters stay untouched
(wall-clock time is outside the embedding). -/
structure Perf where
  readTimeNS : Nat
  writeTimeNS : Nat
  bytesIn : Nat
  bytesOut : Nat
  engineTimeNS : Nat
  copyTimeNS : Nat
  deriving DecidableEq, Repr

/-- `new(Perf)`: all fields zero. -/
def zeroPerf : Perf := ⟨0, 0, 0, 0, 0, 0⟩

/-- Add `i` to `BytesIn` and `o` to `BytesOut` of an (allocated)
counter set.  In every reachable call site the Go pointer is non-nil
(the session has been started), so the `Option.map` never silently
skips in a reachable state. -/
def bumpBytes (i o : Nat) (p : Option Perf) : Option Perf :=
  p.map fun pf => { pf with bytesIn := pf.bytesIn + i, bytesOut := pf.bytesOut + o }

/-! ## External collaborators of the Writer

`σ` is the state of the engine binding's external side (the C library
behind `QzBinding`), `τ` the state of the downstream `io.Writer` sink.
`compress` receives the binding's `last` flag, the unconsumed input
slice and the length of the output buffer, and reports
`(consumed, produced bytes, error)`; `swrite` is `w.Write`; `qclose`
is `QzBinding.Close`'s external side. -/
structure WEnv (σ τ : Type) where
  compress : σ → Bool → List Byte → Nat → σ × Nat × List Byte × GoErr
  swrite : τ → List Byte → τ × Nat × GoErr
  qclose : σ → σ × GoErr

/-- `QzBinding.Compress` (bindings.go): a zero-length input is refused
with `ErrEmptyBuffer` before reaching the engine. -/
def qzCompress (E : WEnv σ τ) (s : σ) (last : Bool) (inp : List Byte) (outCap : Nat) :
    σ × Nat × List Byte × GoErr :=
  if inp.length = 0 then (s, 0, [], some .emptyBuffer) else E.compress s last inp outCap

/-! ## The Stream Writer (compress.go) -/

/-- The `Writer` struct.  `q` is the engine-binding state (`z.q`'s
external side; `hasSession = false` models `z.q == nil`), `lastFlag`
the binding's `state.last` flag (set through `SetLast`, zero on a fresh
binding), `outLen` the length of `z.outputBuf`'s backing array (its
contents only flow from the engine to the sink, so the model hands the
produced bytes directly to `swrite`), `w` the sink state. -/
structure Writer (σ τ : Type) where
  closed : Bool
  wroteHeader : Bool
  hasSession : Bool
  lastFlag : Bool
  err : GoErr
  bounceBuf : List Byte
  outLen : Nat
  growth : Nat
  p : Params
  perf : Option Perf
  q : σ
  w : τ

/-- `NewWriter` (compress.go): constructed closed, default parameters,
no session, no performance counters.  The environment-variable options
are modelled as unset, so `applyEnvOptions` leaves `err = nil` and the
parameters untouched.  `q0` is the (not yet used) engine-world state,
threaded so that oracle scripts persist across `Reset`. -/
def newWriter (q0 : σ) (w0 : τ) : Writer σ τ where
  closed := true
  wroteHeader := false
  hasSession := false
  lastFlag := false
  err := none
  bounceBuf := []
  outLen := 0
  growth := 0
  p := defaultParams
  perf := none
  q := q0
  w := w0

/-- `Writer.GetPerf` (compress.go) dereferences `z.perf`; `none` models
the nil-pointer panic on a Writer whose counters were never allocated. -/
def Writer.getPerf (z : Writer σ τ) : Option Perf := z.perf

/-- The retry loop of `Writer.compressWrite` (compress.go lines
324-378), one fuel unit per iteration of the `for remainder > 0` loop.
`consumed` is the loop's consumed counter; `remainder` is always
`p.length - consumed` (both are updated in lockstep by the source).
On success the result is `(state, consumed, none)`; the caller stores a
non-nil error into `z.err`. -/
def cwLoop (E : WEnv σ τ) (pArr : List Byte) :
    Nat → Writer σ τ → Nat → Option (Writer σ τ × Nat × GoErr)
  | 0, _, _ => none
  | fuel + 1, z, consumed =>
    if pArr.length - consumed = 0 then some (z, consumed, none)
    else
      -- if z.p.InputBufferMode == Last { z.q.SetLast(true) }
      let z := if z.p.inputBufferMode = .last then { z with lastFlag := true } else z
      -- in, out, err := z.q.Compress(p[consumed:], z.outputBuf.Bytes())
      let r := qzCompress E z.q z.lastFlag (pArr.drop consumed) z.outLen
      let z := { z with q := r.1 }
      let inN := r.2.1
      let outB := r.2.2.1
      match r.2.2.2 with
      | some .buffer =>
        -- expand output buffer: growth *= 2; new size = remainder + growth
        let g := z.growth * 2
        cwLoop E pArr fuel
          { z with growth := g, outLen := (pArr.length - consumed) + g } consumed
      | some e => some (z, consumed, some e)
      | none =>
        let z := { z with wroteHeader := true, perf := bumpBytes inN outB.length z.perf }
        let consumed := consumed + inN
        if 0 < outB.length then
          -- nw, err := z.w.Write(z.outputBuf.Bytes()[:produced])
          let s := E.swrite z.w outB
          let z := { z with w := s.1 }
          match s.2.2 with
          | some e => some (z, consumed, some e)
          | none => cwLoop E pArr fuel z consumed
        else cwLoop E pArr fuel z consumed

/-- `Writer.compressWrite` (compress.go): the sticky-error guard plus
the retry loop; a non-nil loop error is stored in `z.err`. -/
def Writer.compressWrite (E : WEnv σ τ) (fuel : Nat) (z : Writer σ τ) (pArr : List Byte) :
    Option (Writer σ τ × Nat × GoErr) :=
  if z.err ≠ none then some (z, 0, z.err)
  else
    match cwLoop E pArr fuel z 0 with
    | none => none
    | some (z', n, e) => some (if e = none then z' else { z' with err := e }, n, e)

/-- `Writer.flushBounceBuffer` (compress.go): compress any pending
bounced bytes, report `io.ErrShortWrite` if not all were consumed, and
truncate the bounce buffer to length zero. -/
def Writer.flushBounceBuffer (E : WEnv σ τ) (fuel : Nat) (z : Writer σ τ) :
    Option (Writer σ τ × GoErr) :=
  if 0 < z.bounceBuf.length then
    match Writer.compressWrite E fuel z z.bounceBuf with
    | none => none
    | some (z', nw, e) =>
      if e ≠ none then some (z', e)
      else if nw < z.bounceBuf.length then
        some ({ z' with err := some .shortWrite }, some .shortWrite)
      else some ({ z' with bounceBuf := [] }, none)
  else some ({ z with bounceBuf := [] }, none)

/-- The bytes emitted by `Writer.writeEmptyBuffer` (compress.go):
the fixed gzip header/empty-deflate/footer bytes for DEFLATE, the fixed
lz4 frame for LZ4.  For ZSTD the source calls `zstd.Compress(buf, buf)`
on the nil `buf` but discards the result, so `buf` stays empty and
zero bytes are written (the external libzstd call succeeds on empty
input, so its error path is not taken). -/
def emptyBufferBytes (a : Alg) (level : Nat) : List Byte :=
  match a with
  | .deflate =>
    -- hdr{gzipID1, gzipID2, gzipDeflate, 0*5, Level, osType} ++
    -- magic{deflateMagic1, 0, 0, deflateMagic2, deflateMagic2} ++ ftr{0*8}
    [0x1f, 0x8b, 0x08, 0, 0, 0, 0, 0, level % 256, 255] ++
      [0x01, 0, 0, 0xff, 0xff] ++ [0, 0, 0, 0, 0, 0, 0, 0]
  | .lz4 =>
    -- hdr = LittleEndian(lz4ID) ++ frm{lz4FLG, lz4BD, lz4HC} ++ end{0*4}
    -- ++ magic{lz4Magic1..4}
    [0x04, 0x22, 0x4d, 0x18] ++ [0x64, 0x40, 0xa7] ++ [0, 0, 0, 0] ++
      [0x05, 0x5d, 0xcc, 0x02]
  | .zstd => []

/-- `Writer.writeEmptyBuffer` (compress.go): write the placeholder to
the sink; `wroteHeader` is set even if the sink write fails. -/
def Writer.writeEmptyBuffer (E : WEnv σ τ) (z : Writer σ τ) : Writer σ τ × GoErr :=
  let buf := emptyBufferBytes z.p.algorithm z.p.level
  let s := E.swrite z.w buf
  ({ z with w := s.1, wroteHeader := true }, s.2.2)

/-- `z.perf.BytesIn` as read by `Writer.Close`; the pointer is non-nil
whenever this line is reached (a session is active). -/
def Writer.perfBytesIn (z : Writer σ τ) : Nat := (z.perf.getD zeroPerf).bytesIn

/-- The tail of `Writer.Close` from the `z.closed = true` assignment
onward: mark closed, `SetLast(true)`, flush the bounce buffer, then
`z.err = z.q.Close()`.  On a flush failure the binding is closed and
`z.err` (stored by the flush) is returned. -/
def Writer.closeFinish (E : WEnv σ τ) (fuel : Nat) (z : Writer σ τ) :
    Option (Writer σ τ × GoErr) :=
  let z := { z with closed := true, lastFlag := true }
  match Writer.flushBounceBuffer E fuel z with
  | none => none
  | some (z', fe) =>
    if fe ≠ none then
      -- z.q.Close(); return z.err (set by the flush)
      let c := E.qclose z'.q
      some ({ z' with q := c.1 }, z'.err)
    else
      -- z.err = z.q.Close()
      let c := E.qclose z'.q
      some ({ z' with q := c.1, err := c.2 }, c.2)

/-- `Writer.Close` (compress.go lines 154-198).  Note that the
already-closed branch stores `ErrWriterClosed` into `z.err` but falls
through the bare `return`, so the *returned* error is `nil`. -/
def Writer.close (E : WEnv σ τ) (fuel : Nat) (z : Writer σ τ) :
    Option (Writer σ τ × GoErr) :=
  if z.closed then some ({ z with err := some .writerClosed }, none)
  else if z.err ≠ none then some (z, z.err)
  else
    -- empty-payload placeholder
    let z :=
      if ¬z.wroteHeader ∧ z.perfBytesIn = 0 ∧ z.bounceBuf.length = 0 then
        let r := Writer.writeEmptyBuffer E z
        { r.1 with err := r.2 }
      else z
    if z.err ≠ none then some (z, z.err)
    else Writer.closeFinish E fuel z

/-- `Writer.Reset` (compress.go lines 201-231): close (discarding the
result), recreate the binding and session (modelled as succeeding; the
engine-world state `q` persists so that oracle scripts continue), and
reinitialise buffers, flags and counters.  A fresh binding has
`state.last = 0` (`qatzip_init` uses `calloc`).  The Go `z.w = w`
installs the caller's sink object; since `τ` is the sink's *state*,
the model takes a state transformer `wf`: `id` models handing back the
same object (as `Write`'s lazy `z.Reset(z.w)` does), `fun _ => w0`
models a fresh object. -/
def Writer.reset (E : WEnv σ τ) (fuel : Nat) (z : Writer σ τ) (wf : τ → τ) :
    Option (Writer σ τ × GoErr) :=
  match Writer.close E fuel z with
  | none => none
  | some (z1, _) =>
    some ({ z1 with
      outLen := z1.p.outputBufLength
      w := wf z1.w
      closed := false
      err := none
      wroteHeader := false
      growth := z1.p.bufferGrowth
      bounceBuf := []
      perf := some zeroPerf
      hasSession := true
      lastFlag := false }, none)

/-- `Writer.Write` (compress.go lines 234-293): sticky-error guard,
lazy session start, flush of previously bounced bytes, then the
input-buffer-mode policy: the bounce path (`Bounce`, or any mode other
than `NoLast` with input no longer than the bounce length) holds the
whole input; `Reserve` holds the tail of length `BounceBufferLength`
and compresses the prefix; otherwise the whole input is compressed. -/
def Writer.write (E : WEnv σ τ) (fuel : Nat) (z : Writer σ τ) (pIn : List Byte) :
    Option (Writer σ τ × Nat × GoErr) :=
  if z.err ≠ none then some (z, 0, z.err)
  else
    match (if z.hasSession then some (z, (none : GoErr)) else Writer.reset E fuel z id) with
    | none => none
    | some (z0, re) =>
      if re ≠ none then some ({ z0 with err := re }, 0, re)
      else
        match Writer.flushBounceBuffer E fuel z0 with
        | none => none
        | some (z1, fe) =>
          if fe ≠ none then some ({ z1 with err := fe }, 0, fe)
          else
            if z1.p.inputBufferMode ≠ .noLast ∧
                (z1.p.inputBufferMode = .bounce ∨ pIn.length ≤ z1.p.bounceBufferLength) then
              -- copy the whole input into the bounce buffer; n = len(p)
              some ({ z1 with bounceBuf := pIn }, pIn.length, none)
            else
              -- Reserve: hold the tail, compress the prefix
              let useReserve := z1.p.inputBufferMode = .reserve
              let ibl := pIn.length - z1.p.bounceBufferLength
              let b := if useReserve then pIn.take ibl else pIn
              let nb := if useReserve then (pIn.drop ibl).length else 0
              let z2 := if useReserve then { z1 with bounceBuf := pIn.drop ibl } else z1
              match Writer.compressWrite E fuel z2 b with
              | none => none
              | some (z3, nw, e) => some (z3, nw + nb, e)

/-! ## External collaborators of the Reader -/

/-- `σ` is the engine-binding state, `τ` the upstream `io.Reader`
state.  `decompress` receives the unconsumed input slice and the output
buffer length; `uread` receives the free space `len(inputBuf) -
inputBufRead` and returns the bytes placed there. -/
structure REnv (σ τ : Type) where
  decompress : σ → List Byte → Nat → σ × Nat × List Byte × GoErr
  uread : τ → Nat → τ × List Byte × GoErr
  qclose : σ → σ × GoErr

/-- `QzBinding.Decompress` (bindings.go): zero-length input is refused
with `ErrEmptyBuffer` before reaching the engine. -/
def qzDecompress (E : REnv σ τ) (s : σ) (inp : List Byte) (outCap : Nat) :
    σ × Nat × List Byte × GoErr :=
  if inp.length = 0 then (s, 0, [], some .emptyBuffer) else E.decompress s inp outCap

/-! ## The Stream Reader -/

/-- The `Reader` struct.  `inputData` is the first `inputRead` bytes of
`z.inputBuf` (the only part ever read: decompression consumes
`inputBuf[inputBufOffset:inputBufRead]` and upstream reads append at
`inputBufRead`); `inputLen` is `len(z.inputBuf)`.  `window` is the
prefix of `z.outputBuf` produced by the last successful decompression
(`outputBuf[0:out]`); the drain only reads
`outputBuf[outOfs : outOfs+outLeft]`, which lies inside it; `outLen` is
`len(z.outputBuf)`. -/
structure Reader (σ τ : Type) where
  closed : Bool
  streamDone : Bool
  hasSession : Bool
  err : GoErr
  inputLen : Nat
  inputOfs : Nat
  inputRead : Nat
  inputData : List Byte
  outLen : Nat
  outOfs : Nat
  outLeft : Nat
  window : List Byte
  growth : Nat
  p : Params
  perf : Option Perf
  q : σ
  r : τ

/-- `NewReader`: constructed closed with default parameters; no
session, no counters. -/
def newReader (q0 : σ) (r0 : τ) : Reader σ τ where
  closed := true
  streamDone := false
  hasSession := false
  err := none
  inputLen := 0
  inputOfs := 0
  inputRead := 0
  inputData := []
  outLen := 0
  outOfs := 0
  outLeft := 0
  window := []
  growth := 0
  p := defaultParams
  perf := none
  q := q0
  r := r0

/-- `Reader.GetPerf` dereferences `z.perf`; `none` models the
nil-pointer panic. -/
def Reader.getPerf (z : Reader σ τ) : Option Perf := z.perf

/-- `Reader.Close`: a closed Reader returns the stored error; a
never-started one stores and returns `ErrNone` ("device
uninitialized"); otherwise the binding is closed and its error
stored. -/
def Reader.close (E : REnv σ τ) (z : Reader σ τ) : Reader σ τ × GoErr :=
  if z.closed then (z, z.err)
  else if z.err ≠ none then (z, z.err)
  else
    let z := { z with closed := true }
    if ¬z.hasSession then
      ({ z with err := some .deviceUninit }, some .deviceUninit)
    else
      let c := E.qclose z.q
      ({ z with q := c.1, err := c.2 }, c.2)

/-- `Reader.Reset`: close first (propagating a close failure), then
recreate binding and session (modelled as succeeding, with the
engine-world state persisting) and reinitialise all stream state. -/
def Reader.reset (E : REnv σ τ) (z : Reader σ τ) (r0 : τ) : Reader σ τ × GoErr :=
  let c := Reader.close E z
  let z1 := { c.1 with err := c.2 }
  if c.2 ≠ none then (z1, c.2)
  else
    ({ z1 with
      streamDone := false
      inputRead := 0
      growth := z1.p.bufferGrowth
      r := r0
      inputLen := z1.p.inputBufLength
      outLen := z1.p.outputBufLength
      inputData := []
      inputOfs := 0
      outOfs := 0
      outLeft := 0
      window := []
      closed := false
      perf := some zeroPerf
      hasSession := true
      err := none }, none)

/-- The input-buffer growth step inside `Reader.Read`'s transfer loop:
`if inputBufRead >= len(inputBuf) { inputBuf = append(inputBuf,
make([]byte, inputBufRead*2)...) }`, so the new length is the old
length plus twice `inputBufRead`. -/
def pullGrow (z : Reader σ τ) : Reader σ τ :=
  if z.inputLen ≤ z.inputRead then
    { z with inputLen := z.inputLen + 2 * z.inputRead }
  else z

/-- The `for !z.streamDone` transfer loop of `Reader.Read` (one fuel
unit per iteration): read from upstream into the free space, grow the
input buffer when it fills, stop on `io.EOF` (setting `streamDone`) or
abort on any other upstream error. -/
def pullLoop (E : REnv σ τ) : Nat → Reader σ τ → Option (Reader σ τ × GoErr)
  | 0, _ => none
  | fuel + 1, z =>
    if z.streamDone then some (z, none)
    else
      let u := E.uread z.r (z.inputLen - z.inputRead)
      let chunk := u.2.1
      let z := pullGrow { z with
        r := u.1
        inputData := z.inputData ++ chunk
        inputRead := z.inputRead + chunk.length }
      match u.2.2 with
      | some e => if e = .eof then pullLoop E fuel { z with streamDone := true }
                  else some (z, some e)
      | none => pullLoop E fuel z

/-- Outcome of one iteration of `Reader.Read`'s main loop: either the
call returns (`done`: final reader, `n`, bytes delivered, error) or the
loop continues with a new intermediate state. -/
inductive RStep (σ τ : Type) where
  | done (z : Reader σ τ) (n : Nat) (acc : List Byte) (e : GoErr)
  | next (z : Reader σ τ) (produced : Nat) (acc : List Byte)

/-- One iteration of the `for remainder > 0` loop of `Reader.Read`
(source lines 128-216).  `pLen` is `len(p)`, `produced` the bytes
already copied into `p`, `acc` those bytes themselves (`p[0:produced]`),
`pf` the fuel for the inner transfer loop.  `none` models a transfer
loop that does not finish. -/
def readIter (E : REnv σ τ) (pf pLen : Nat) (z : Reader σ τ) (produced : Nat)
    (acc : List Byte) : Option (RStep σ τ) :=
  if pLen - produced = 0 then some (.done z produced acc none)
  else if 0 < z.outLeft then
    -- drain output window into p
    let np := min (pLen - produced) z.outLeft
    some (.next { z with outOfs := z.outOfs + np, outLeft := z.outLeft - np }
      (produced + np) (acc ++ ((z.window.drop z.outOfs).take np)))
  else if z.inputRead < z.inputOfs then
    -- internal assert (never fires: offsets are Nats ordered by the invariant)
    some (.done { z with err := some .assertFail } 0 acc (some .assertFail))
  else
    let afterPull : Option (Reader σ τ × GoErr) :=
      if z.inputRead - z.inputOfs = 0 then
        if z.streamDone then none  -- handled below as EOF return
        else pullLoop E pf z
      else some (z, none)
    if z.inputRead - z.inputOfs = 0 ∧ z.streamDone then
      some (.done z produced acc (some .eof))
    else
      match afterPull with
      | none => none
      | some (z1, some e) => some (.done { z1 with err := some e } 0 acc (some e))
      | some (z1, none) =>
        -- in, out, err := z.q.Decompress(inputBuf[ofs:read], outputBuf)
        let d := qzDecompress E z1.q (z1.inputData.drop z1.inputOfs) z1.outLen
        let z1 := { z1 with q := d.1 }
        let inN := d.2.1
        let outB := d.2.2.1
        match d.2.2.2 with
        | some .buffer =>
          -- expand output buffer: growth *= 2; size = remainder + growth
          -- (a fresh zeroed buffer; offsets are left untouched)
          let g := z1.growth * 2
          some (.next { z1 with growth := g, outLen := (pLen - produced) + g, window := [] }
            produced acc)
        | some e => some (.done { z1 with err := some e } produced acc (some e))
        | none =>
          some (.next { z1 with
            perf := bumpBytes inN outB.length z1.perf
            inputOfs := z1.inputOfs + inN
            outOfs := 0
            outLeft := outB.length
            window := outB } produced acc)

/-- The main loop of `Reader.Read`, one fuel unit per iteration. -/
def readLoop (E : REnv σ τ) (pf : Nat) (pLen : Nat) :
    Nat → Reader σ τ → Nat → List Byte → Option (Reader σ τ × Nat × List Byte × GoErr)
  | 0, _, _, _ => none
  | fuel + 1, z, produced, acc =>
    match readIter E pf pLen z produced acc with
    | none => none
    | some (.done z' n acc' e) => some (z', n, acc', e)
    | some (.next z' produced' acc') => readLoop E pf pLen fuel z' produced' acc'

/-- `Reader.Read` (source lines 110-219): sticky-error guard, lazy
session start, then the main loop.  The result's third component is
`p[0:n]`, the bytes delivered to the caller. -/
def Reader.read (E : REnv σ τ) (fuel pf : Nat) (z : Reader σ τ) (pLen : Nat) :
    Option (Reader σ τ × Nat × List Byte × GoErr) :=
  if z.err ≠ none then some (z, 0, [], z.err)
  else
    let rr := if z.hasSession then (z, (none : GoErr)) else Reader.reset E z z.r
    if rr.2 ≠ none then some ({ rr.1 with err := rr.2 }, 0, [], rr.2)
    else readLoop E pf pLen fuel rr.1 0 []

/-! ## Script-driven oracle collaborators

The engine and the I/O peers are external; an oracle instance lets the
theorems quantify over *every* sequence of engine responses.  The
engine contract of §6 — consumed is at most the submitted input length,
produced at most the output buffer length — is enforced by clamping. -/

/-- One scripted engine response for a compress or decompress call:
success with requested consumed/produced sizes, the insufficient-buffer
signal, or another error. -/
inductive EResp where
  | ok (inN outN : Nat)
  | buf
  | err (e : QErr)
  deriving DecidableEq, Repr

/-- An engine-call log entry: the submitted input slice, the consumed
count reported back (0 for non-success responses), and the returned
error. -/
structure CallRec where
  input : List Byte
  advance : Nat
  res : GoErr
  deriving DecidableEq, Repr

/-- Oracle engine-binding state: the not-yet-consumed response script
plus a log of every call made to the engine. -/
structure OEngine where
  script : List EResp
  log : List CallRec
  deriving DecidableEq, Repr

/-- Pop the next scripted response for an engine call on input `inp`
with output capacity `outCap`.  An exhausted script answers `ErrFail`.
Success responses are clamped to the engine contract: consumed ≤
`inp.length`, produced ≤ `outCap` (the produced bytes are zeros — their
content never matters to the adapter layer's control flow). -/
def oracleCall (s : OEngine) (inp : List Byte) (outCap : Nat) :
    OEngine × Nat × List Byte × GoErr :=
  match s.script with
  | [] => ({ s with log := s.log ++ [⟨inp, 0, some .fail⟩] }, 0, [], some .fail)
  | r :: rs =>
    match r with
    | .ok inN outN =>
      let c := min inN inp.length
      ({ script := rs, log := s.log ++ [⟨inp, c, none⟩] }, c,
        List.replicate (min outN outCap) 0, none)
    | .buf => ({ script := rs, log := s.log ++ [⟨inp, 0, some .buffer⟩] }, 0, [], some .buffer)
    | .err e => ({ script := rs, log := s.log ++ [⟨inp, 0, some e⟩] }, 0, [], some e)

/-- A scripted downstream sink: each write pops one entry (`none` =
accept, `some e` = fail with `e`); an exhausted script accepts.
Accepted bytes are appended to `data`. -/
structure OSink where
  script : List GoErr
  data : List Byte
  deriving DecidableEq, Repr

def oracleSwrite (s : OSink) (b : List Byte) : OSink × Nat × GoErr :=
  match s.script with
  | [] => ({ s with data := s.data ++ b }, b.length, none)
  | none :: rs => ({ script := rs, data := s.data ++ b }, b.length, none)
  | some e :: rs => ({ script := rs, data := s.data }, 0, some e)

/-- The fully scripted Writer environment. -/
def oracleWEnv : WEnv OEngine OSink where
  compress := fun s _last inp outCap => oracleCall s inp outCap
  swrite := oracleSwrite
  qclose := fun s => (s, none)

/-- One scripted upstream response: a chunk of bytes (clamped to the
free space offered, per the `io.Reader` contract) or an error.  An
exhausted script answers `io.EOF` (like a drained `bytes.Buffer`). -/
inductive UResp where
  | chunk (bs : List Byte)
  | uerr (e : QErr)
  deriving DecidableEq, Repr

structure OUp where
  script : List UResp
  deriving DecidableEq, Repr

def oracleURead (s : OUp) (space : Nat) : OUp × List Byte × GoErr :=
  match s.script with
  | [] => (s, [], some .eof)
  | .chunk bs :: rs => (⟨rs⟩, bs.take space, none)
  | .uerr e :: rs => (⟨rs⟩, [], some e)

/-- The fully scripted Reader environment. -/
def oracleREnv : REnv OEngine OUp where
  decompress := fun s inp outCap => oracleCall s inp outCap
  uread := oracleURead
  qclose := fun s => (s, none)

/-! ## A deterministic engine class, modelled from the spec

Modelled from the spec: the engine itself (§6, "Engine Binding
contract", and §1/§6's description of DEFLATE/LZ4/ZSTD sessions) is an
external collaborator whose code is not part of this repository.  An
`EngineSpec` is a codec abstracting one engine session: `enc c l` is
the compressed frame the engine emits for an input chunk `c` submitted
with last-flag `l` (QATzip emits self-contained members, cf. the
README's "QAT produces multisession files"), `need c` the output-buffer
size below which the engine answers `InsufficientBuffer` for `c`, and
`dec` parses the first frame of a compressed byte stream, returning the
decoded chunk and the frame's length.  The two laws say that decoding
inverts encoding frame by frame and that a nonempty chunk has a
nonempty frame. -/
structure EngineSpec where
  need : List Byte → Nat
  enc : List Byte → Bool → List Byte
  dec : List Byte → Option (List Byte × Nat)
  enc_ne : ∀ c l, c ≠ [] → enc c l ≠ []
  dec_enc : ∀ c l rest, c ≠ [] → dec (enc c l ++ rest) = some (c, (enc c l).length)

/-- Writer environment for an `EngineSpec` engine with a `bytes.Buffer`
sink (never fails, accumulates everything). -/
def specWEnv (G : EngineSpec) : WEnv Unit (List Byte) where
  compress := fun u last inp outCap =>
    if outCap < G.need inp then (u, 0, [], some .buffer)
    else (u, inp.length, G.enc inp last, none)
  swrite := fun t b => (t ++ b, b.length, none)
  qclose := fun u => (u, none)

/-- Reader environment for an `EngineSpec` engine with a `bytes.Buffer`
upstream holding the compressed bytes: a read returns the requested
prefix, or `(0, io.EOF)` once empty.  Decompression refuses with
`InsufficientBuffer` while the output buffer is smaller than the
decoded chunk, and fails with `ErrData` on an unparsable stream. -/
def specREnv (G : EngineSpec) : REnv Unit (List Byte) where
  decompress := fun u inp outCap =>
    match G.dec inp with
    | some (c, k) =>
      if outCap < c.length then (u, 0, [], some .buffer) else (u, k, c, none)
    | none => (u, 0, [], some .dataCorrupt)
  uread := fun t space =>
    if t.length = 0 then (t, [], some .eof)
    else (t.drop space, t.take space, none)
  qclose := fun u => (u, none)

def c7zr : Reader OEngine OUp :=
  newReader ⟨[.err .dataCorrupt], []⟩ ⟨[.chunk (List.replicate 134217728 7)]⟩

def c7z0 : Reader OEngine OUp :=
  { closed := false, streamDone := false, hasSession := true, err := none,
    inputLen := 134217728, inputOfs := 0, inputRead := 0, inputData := [],
    outLen := 134217728, outOfs := 0, outLeft := 0, window := [],
    growth := 1048576, p := defaultParams, perf := some zeroPerf,
    q := ⟨[.err .dataCorrupt], []⟩, r := ⟨[.chunk (List.replicate 134217728 7)]⟩ }

def c7z1 : Reader OEngine OUp :=
  { c7z0 with
    inputLen := 402653184
    inputRead := 134217728
    inputData := List.replicate 134217728 7
    r := ⟨[]⟩ }

def c7z2 : Reader OEngine OUp := { c7z1 with streamDone := true }

def c7z3 : Reader OEngine OUp :=
  { c7z2 with
    q := ⟨[], [⟨List.replicate 134217728 7, 0, some QErr.dataCorrupt⟩]⟩
    err := some QErr.dataCorrupt }

def c7zMid : Reader OEngine OUp :=
  { c7z0 with
    r := ⟨[]⟩
    inputData := List.replicate 134217728 7
    inputRead := 134217728 }

def c7w : Reader OEngine OUp :=
  { closed := false, streamDone := false, hasSession := true, err := none,
    inputLen := 2, inputOfs := 0, inputRead := 0, inputData := [],
    outLen := 4, outOfs := 0, outLeft := 0, window := [],
    growth := 1, p := defaultParams, perf := some zeroPerf,
    q := ⟨[], []⟩, r := ⟨[.chunk [5, 5]]⟩ }

def c9zr : Reader OEngine OUp :=
  newReader ⟨[.ok 2 2097154, .buf], []⟩ ⟨[.chunk [7, 7, 7, 7]]⟩

def c9z0 : Reader OEngine OUp :=
  { closed := false, streamDone := false, hasSession := true, err := none,
    inputLen := 134217728, inputOfs := 0, inputRead := 0, inputData := [],
    outLen := 134217728, outOfs := 0, outLeft := 0, window := [],
    growth := 1048576, p := defaultParams, perf := some zeroPerf,
    q := ⟨[.ok 2 2097154, .buf], []⟩, r := ⟨[.chunk [7, 7, 7, 7]]⟩ }

def c9zA : Reader OEngine OUp :=
  { c9z0 with
    r := ⟨[]⟩
    inputData := [7, 7, 7, 7]
    inputRead := 4 }

def c9zB : Reader OEngine OUp := { c9zA with streamDone := true }

def c9z1 : Reader OEngine OUp :=
  { c9zB with
    q := ⟨[.buf], [⟨[7, 7, 7, 7], 2, none⟩]⟩
    perf := bumpBytes 2 2097154 c9zB.perf
    inputOfs := 2
    outOfs := 0
    outLeft := 2097154
    window := List.replicate 2097154 0 }

def c9z2 : Reader OEngine OUp := { c9z1 with outOfs := 2097154, outLeft := 0 }

def c9z3 : Reader OEngine OUp :=
  { c9z2 with
    q := ⟨[], [⟨[7, 7, 7, 7], 2, none⟩, ⟨[7, 7], 0, some QErr.buffer⟩]⟩
    growth := 2097152
    outLen := 2097153
    window := [] }

def c9z4 : Reader OEngine OUp :=
  { c9z3 with
    q := ⟨[], [⟨[7, 7, 7, 7], 2, none⟩, ⟨[7, 7], 0, some QErr.buffer⟩,
      ⟨[7, 7], 0, some QErr.fail⟩]⟩
    err := some QErr.fail }

/-- The output-window invariant: while undelivered decompressed bytes
remain, the window `[outOfs, outOfs+outLeft)` lies inside the output
buffer and inside the bytes actually produced. -/
def WinInv {σ τ : Type} (z : Reader σ τ) : Prop :=
  0 < z.outLeft →
    z.outOfs + z.outLeft ≤ z.outLen ∧ z.outOfs + z.outLeft ≤ z.window.length

def c9w : Reader OEngine OUp :=
  { closed := false, streamDone := false, hasSession := true, err := none,
    inputLen := 4, inputOfs := 0, inputRead := 0, inputData := [],
    outLen := 2, outOfs := 0, outLeft := 1, window := [9], growth := 1,
    p := defaultParams, perf := some zeroPerf, q := ⟨[], []⟩, r := ⟨[]⟩ }

/-- Parameters with a chosen algorithm and input-buffer mode, all else
default. -/
def pOf (a : Alg) (m : IBMode) : Params :=
  { defaultParams with algorithm := a, inputBufferMode := m }

/-- A fresh `NewWriter` over the spec engine with an empty
`bytes.Buffer` sink, configured for algorithm `a` and mode `m`. -/
def wInit (a : Alg) (m : IBMode) : Writer Unit (List Byte) :=
  { newWriter () [] with p := pOf a m }

/-- The writer after the lazy `Reset` performed by the first `Write`. -/
def wStart (a : Alg) (m : IBMode) : Writer Unit (List Byte) :=
  { wInit a m with
    outLen := (pOf a m).outputBufLength
    closed := false
    err := none
    wroteHeader := false
    growth := (pOf a m).bufferGrowth
    bounceBuf := []
    perf := some zeroPerf
    hasSession := true
    lastFlag := false }

/-- The byte stream of a list of frames: each chunk encoded with its
last-flag, concatenated. -/
def frameBytes (G : EngineSpec) : List (List Byte × Bool) → List Byte
  | [] => []
  | (c, l) :: fr => G.enc c l ++ frameBytes G fr

/-- The payload of a list of frames. -/
def chunksBytes : List (List Byte × Bool) → List Byte
  | [] => []
  | (c, _) :: fr => c ++ chunksBytes fr

/-- A fresh `NewReader` over the spec engine with the compressed stream
as a `bytes.Buffer` upstream, configured for algorithm `a`, mode `m`. -/
def rInit (a : Alg) (m : IBMode) (cs : List Byte) : Reader Unit (List Byte) :=
  { (newReader () cs : Reader Unit (List Byte)) with p := pOf a m }

/-- The reader after the lazy `Reset` performed by the first `Read`. -/
def rStart (a : Alg) (m : IBMode) (cs : List Byte) : Reader Unit (List Byte) :=
  { rInit a m cs with
    closed := false
    streamDone := false
    hasSession := true
    err := none
    inputLen := (pOf a m).inputBufLength
    inputOfs := 0
    inputRead := 0
    inputData := []
    outLen := (pOf a m).outputBufLength
    outOfs := 0
    outLeft := 0
    window := []
    growth := (pOf a m).bufferGrowth
    perf := some zeroPerf }

/-- A concrete witness codec: each frame is `1,b` pairs for the chunk's
bytes, terminated by `0`; self-delimiting, so frames concatenate. -/
def uEnc : List Byte → List Byte
  | [] => [0]
  | b :: c => 1 :: b :: uEnc c

def uDec : List Byte → Option (List Byte × Nat)
  | [] => none
  | h :: t =>
    if h = 0 then some ([], 1)
    else if h = 1 then
      match t with
      | [] => none
      | b :: t' =>
        match uDec t' with
        | some (c, k) => some (b :: c, k + 2)
        | none => none
    else none

/-- The witness engine: each frame is `1,b` pairs for the chunk's
bytes, terminated by `0`; self-delimiting, so frames concatenate and
the decoder inverts the encoder. -/
def uCodec : EngineSpec where
  need := fun _ => 0
  enc := fun c _ => uEnc c
  dec := uDec
  enc_ne := fun c _ _ => by cases c <;> simp [uEnc]
  dec_enc := fun c _ rest hcne => by
    clear hcne
    show uDec (uEnc c ++ rest) = some (c, (uEnc c).length)
    induction c generalizing rest with
    | nil =>
      rw [show uEnc [] ++ rest = 0 :: rest from by simp [uEnc]]
      rw [uDec.eq_def]
      dsimp only
      rw [if_pos (show (0 : Nat) = 0 from rfl)]
      rfl
    | cons b c ih =>
      rw [show uEnc (b :: c) ++ rest = 1 :: b :: (uEnc c ++ rest) from by simp [uEnc]]
      rw [uDec.eq_def]
      dsimp only
      rw [if_neg (show ¬ ((1 : Nat) = 0) from by decide),
        if_pos (show (1 : Nat) = 1 from rfl)]
      rw [ih rest]
      rw [show (uEnc (b :: c)).length = (uEnc c).length + 2 from by simp [uEnc]]

/-! ## Theorems -/

/-- A concrete fresh Writer over the scripted environment: one `ok`
response queued, clean sink. -/
def wFresh : Writer OEngine OSink := newWriter ⟨[.ok 3 5], []⟩ ⟨[], []⟩

/-- The Writer after its first `Write([1,2,3])` (bounce path: the input
is held, the session is started lazily). -/
def wAfterWrite : Writer OEngine OSink :=
  ((Writer.write oracleWEnv 20 wFresh [1, 2, 3]).getD (wFresh, 0, none)).1

/-- The Writer after its first (successful) `Close`. -/
def wClosedOnce : Writer OEngine OSink :=
  ((Writer.close oracleWEnv 20 wAfterWrite).getD (wAfterWrite, none)).1

/-- A Writer carrying a sticky error. -/
def wSticky : Writer OEngine OSink := { wFresh with err := some .fail }

/-- A Reader carrying a sticky error. -/
def rSticky : Reader OEngine OUp :=
  { (newReader ⟨[], []⟩ ⟨[]⟩ : Reader OEngine OUp) with err := some .dataCorrupt }

/-- A Writer with visibly non-zero counters in an open session, to
reset. -/
def wBusy : Writer OEngine OSink :=
  { wFresh with
    hasSession := true
    closed := false
    perf := some ⟨3, 4, 5, 6, 7, 8⟩ }

/-- A Reader with visibly non-zero counters in an open session, to
reset. -/
def rBusy : Reader OEngine OUp :=
  { (newReader ⟨[], []⟩ ⟨[]⟩ : Reader OEngine OUp) with
    hasSession := true
    closed := false
    perf := some ⟨3, 4, 5, 6, 7, 8⟩ }

/-- An open (post-`Reset`) Writer over the scripted environment. -/
def wOpen : Writer OEngine OSink :=
  ((Writer.reset oracleWEnv 5 wFresh id).getD (wFresh, none)).1


/-- Total of the consumed counts reported in an engine-call log. -/
def sumAdv (l : List CallRec) : Nat := (l.map CallRec.advance).sum

/-- An open Writer whose engine script answers one insufficient-buffer
signal, then consumes 2 bytes, then 1 byte. -/
def wC2 : Writer OEngine OSink :=
  { wOpen with q := ⟨[.buf, .ok 2 9, .ok 1 0], []⟩ }

/-- The result of `compressWrite([5,6,7])` against that script. -/
def c2run : Writer OEngine OSink × Nat × GoErr :=
  (Writer.compressWrite oracleWEnv 10 wC2 [5, 6, 7]).getD (wC2, 0, none)

/-- Invariant of a scripted sink: no scripted response is the
engine-internal `ErrBuffer` (an `io.Writer` never produces it). -/
def SinkOK (t : OSink) : Prop := ∀ x ∈ t.script, x ≠ some QErr.buffer

/-- Invariant of a scripted upstream source: no scripted error is
`ErrBuffer`. -/
def UpOK (u : OUp) : Prop := ∀ x ∈ u.script, ∀ e, x = UResp.uerr e → e ≠ QErr.buffer

/-- An open Writer whose engine script starts with an
insufficient-buffer response. -/
def c5zw : Writer OEngine OSink :=
  { wOpen with q := ⟨[.buf, .ok 600 50, .ok 600 0], []⟩ }

/-- A 513-byte `Write` against that script (the default `Reserve`
mode compresses the 1-byte prefix, retrying once). -/
def c5wrun : Writer OEngine OSink × Nat × GoErr :=
  (Writer.write oracleWEnv 10 c5zw (List.replicate 513 7)).getD (c5zw, 0, none)

/-- An open Writer with one pending bounced byte and a script that
forces a retry during the `Close` flush. -/
def c5zc : Writer OEngine OSink :=
  { wOpen with bounceBuf := [9], q := ⟨[.buf, .ok 1 3], []⟩ }

/-- The result of closing it. -/
def c5crun : Writer OEngine OSink × GoErr :=
  (Writer.close oracleWEnv 10 c5zc).getD (c5zc, none)

/-- A fresh Reader whose engine script starts with an
insufficient-buffer response. -/
def c5zr : Reader OEngine OUp := newReader ⟨[.buf, .ok 2 2], []⟩ ⟨[.chunk [3, 4]]⟩

/-- The result of reading 3 bytes through it. -/
def c5rrun : Reader OEngine OUp × Nat × List Byte × GoErr :=
  (Reader.read oracleREnv 10 10 c5zr 3).getD (c5zr, 0, [], none)

/-- C3 (counterexample).  Calling `Close` a second time does *not*
return `ErrWriterClosed`: the already-closed branch assigns
`z.err = ErrWriterClosed` but falls through the bare `return`, so the
call returns `nil`.  The engine log is untouched (no engine call). -/
theorem C3_close_twice_counterexample :
    ∃ r, Writer.close oracleWEnv 20 wClosedOnce = some r ∧
      r.2 = none ∧ r.2 ≠ some QErr.writerClosed ∧
      r.1.err = some QErr.writerClosed ∧ r.1.q.log = wClosedOnce.q.log := by
  refine ⟨({ wClosedOnce with err := some .writerClosed }, none), ?_, rfl, by simp, rfl, rfl⟩
  have hc : wClosedOnce.closed = true := by decide
  simp [Writer.close, hc]

/-- C3 (amended).  Calling `Close` on an already-closed Stream Writer
(in particular a second `Close`) returns `nil` while *storing*
`ErrWriterClosed` as the sticky stream error, so subsequent calls see
`AlreadyClosed`; it performs no engine call (the binding state is
untouched) and does not panic (the model is total on this branch for
any fuel). -/
theorem C3_close_twice_amended {σ τ : Type} (E : WEnv σ τ) (fuel : Nat)
    (z : Writer σ τ) (h : z.closed = true) :
    Writer.close E fuel z = some ({ z with err := some .writerClosed }, none) := by
  simp [Writer.close, h]

/-- C3 witness: the amended theorem applied to the concrete
twice-closed Writer. -/
theorem C3_close_twice_amended_witness :
    Writer.close oracleWEnv 20 wClosedOnce =
      some ({ wClosedOnce with err := some .writerClosed }, none) :=
  C3_close_twice_amended oracleWEnv 20 wClosedOnce (by decide)

/-- C4.  Sticky errors: once a non-nil error is stored on a Writer
(resp. Reader), every `Write` (resp. `Read`) returns that same error
with `n = 0`, delivers no bytes, and leaves the stream object — hence
the engine and sink/upstream state it owns — completely unchanged,
until `Reset`; and a successful `Reset` clears the stored error. -/
theorem C4_sticky_errors {σ τ σ' τ' : Type} (EW : WEnv σ τ) (ER : REnv σ' τ')
    (fuel pf pLen : Nat) (zw : Writer σ τ) (zr : Reader σ' τ') (e e' : QErr)
    (hw : zw.err = some e) (hr : zr.err = some e') (pIn : List Byte) :
    Writer.write EW fuel zw pIn = some (zw, 0, some e) ∧
    Reader.read ER fuel pf zr pLen = some (zr, 0, [], some e') ∧
    (∀ z' re wf, Writer.reset EW fuel zw wf = some (z', re) → re = none ∧ z'.err = none) ∧
    (∀ r0, (Reader.reset ER zr r0).2 = none → ((Reader.reset ER zr r0).1).err = none) := by
  refine ⟨by simp [Writer.write, hw], by simp [Reader.read, hr], ?_, ?_⟩
  · intro z' re wf h
    unfold Writer.reset at h
    cases hc : Writer.close EW fuel zw with
    | none => rw [hc] at h; exact absurd h (by simp)
    | some r =>
      rw [hc] at h
      simp only [Option.some.injEq, Prod.mk.injEq] at h
      obtain ⟨h1, h2⟩ := h
      subst h2
      exact ⟨rfl, by rw [← h1]⟩
  · intro r0 h
    unfold Reader.reset at h ⊢
    by_cases hc2 : (Reader.close ER zr).2 = none
    · simp [hc2]
    · simp [hc2] at h

/-- C4 witness: the sticky-error theorem applied to concrete errored
stream objects. -/
theorem C4_sticky_errors_witness :
    Writer.write oracleWEnv 9 wSticky [4, 5] = some (wSticky, 0, some .fail) ∧
    Reader.read oracleREnv 9 9 rSticky 3 = some (rSticky, 0, [], some .dataCorrupt) ∧
    (∀ z' re wf, Writer.reset oracleWEnv 9 wSticky wf = some (z', re) →
      re = none ∧ z'.err = none) ∧
    (∀ r0, (Reader.reset oracleREnv rSticky r0).2 = none →
      ((Reader.reset oracleREnv rSticky r0).1).err = none) :=
  C4_sticky_errors oracleWEnv oracleREnv 9 9 3 wSticky rSticky .fail .dataCorrupt
    rfl rfl [4, 5]

/-- C8.  After every successful `Reset` on a Writer or a Reader,
`GetPerf()` returns the all-zero counter tuple, whatever the counters
held before: `Reset` installs `new(Perf)` unconditionally. -/
theorem C8_reset_zeroes_counters {σ τ σ' τ' : Type} (EW : WEnv σ τ) (ER : REnv σ' τ')
    (fuel : Nat) (zw : Writer σ τ) (zr : Reader σ' τ') (wf : τ → τ) (r0 : τ') :
    (∀ z' re, Writer.reset EW fuel zw wf = some (z', re) → re = none →
      Writer.getPerf z' = some zeroPerf) ∧
    ((Reader.reset ER zr r0).2 = none →
      Reader.getPerf (Reader.reset ER zr r0).1 = some zeroPerf) := by
  constructor
  · intro z' re h _
    unfold Writer.reset at h
    cases hc : Writer.close EW fuel zw with
    | none => rw [hc] at h; exact absurd h (by simp)
    | some r =>
      rw [hc] at h
      simp only [Option.some.injEq, Prod.mk.injEq] at h
      obtain ⟨h1, _⟩ := h
      rw [← h1]; rfl
  · intro h
    unfold Reader.reset at h ⊢
    by_cases hc2 : (Reader.close ER zr).2 = none
    · simp [hc2, Reader.getPerf]
    · simp [hc2] at h

/-- C8 witness: resetting concrete stream objects whose previous
session accumulated non-zero counters yields all-zero `GetPerf`. -/
theorem C8_reset_zeroes_counters_witness :
    (∀ z' re, Writer.reset oracleWEnv 9 wBusy (fun _ => ⟨[], []⟩) = some (z', re) → re = none →
      Writer.getPerf z' = some zeroPerf) ∧
    ((Reader.reset oracleREnv rBusy ⟨[]⟩).2 = none →
      Reader.getPerf (Reader.reset oracleREnv rBusy ⟨[]⟩).1 = some zeroPerf) :=
  C8_reset_zeroes_counters oracleWEnv oracleREnv 9 wBusy rBusy (fun _ => ⟨[], []⟩) ⟨[]⟩

/-- Fields of the Writer that `compressWrite`'s retry loop never
touches: the parameters, the sticky error, the bounce buffer and the
lifecycle flags. -/
theorem cwLoop_fields {σ τ : Type} (E : WEnv σ τ) (pArr : List Byte) :
    ∀ (fuel : Nat) (z : Writer σ τ) (c : Nat) (r : Writer σ τ × Nat × GoErr),
      cwLoop E pArr fuel z c = some r →
      r.1.p = z.p ∧ r.1.err = z.err ∧ r.1.bounceBuf = z.bounceBuf ∧
      r.1.closed = z.closed ∧ r.1.hasSession = z.hasSession := by
  intro fuel
  induction fuel with
  | zero => intro z c r h; simp [cwLoop] at h
  | succ n ih =>
    intro z c r h
    by_cases hm : z.p.inputBufferMode = IBMode.last <;>
      simp only [cwLoop, hm, if_true, if_false, reduceIte] at h <;>
      split at h <;>
      first
      | (cases h; exact ⟨rfl, rfl, rfl, rfl, rfl⟩)
      | (split at h <;>
          first
          | (cases h; exact ⟨rfl, rfl, rfl, rfl, rfl⟩)
          | (have H := ih _ _ _ h; simpa using H)
          | (split at h <;>
              first
              | (cases h; exact ⟨rfl, rfl, rfl, rfl, rfl⟩)
              | (have H := ih _ _ _ h; simpa using H)
              | (split at h <;>
                  first
                  | (cases h; exact ⟨rfl, rfl, rfl, rfl, rfl⟩)
                  | (have H := ih _ _ _ h; simpa using H))))

/-- The retry loop never hands `ErrBuffer` back to its caller: the
`ErrBuffer` arm of the engine-response match grows the output buffer
and retries.  `P` is an invariant of the sink's state under which sink
writes do not produce `ErrBuffer` (an `io.Writer` does not emit the
engine's retry signal). -/
theorem cwLoop_no_buffer {σ τ : Type} (E : WEnv σ τ) (pArr : List Byte) (P : τ → Prop)
    (hP : ∀ t b, P t → P (E.swrite t b).1 ∧ (E.swrite t b).2.2 ≠ some QErr.buffer) :
    ∀ (fuel : Nat) (z : Writer σ τ) (c : Nat) (r : Writer σ τ × Nat × GoErr),
      cwLoop E pArr fuel z c = some r → P z.w → r.2.2 ≠ some QErr.buffer := by
  intro fuel
  induction fuel with
  | zero => intro z c r h; simp [cwLoop] at h
  | succ n ih =>
    intro z c r h hw
    by_cases hm : z.p.inputBufferMode = IBMode.last <;>
      simp only [cwLoop, hm, if_true, if_false, reduceIte] at h <;>
      split at h <;>
      first
      | (cases h; simp)
      | (split at h <;>
          first
          | (exact ih _ _ _ h hw)
          | (rename_i e heq hne; cases h; simpa using heq)
          | (split at h <;>
              first
              | (exact ih _ _ _ h hw)
              | (split at h <;>
                  first
                  | (exact ih _ _ _ h (hP _ _ hw).1)
                  | (rename_i hlen e heq; cases h
                     intro hcon
                     simp only [Option.some.injEq] at hcon
                     subst hcon
                     exact (hP _ _ hw).2 heq))))

/-- `Writer.compressWrite` preserves the parameters, bounce buffer and
lifecycle flags, and leaves the sticky error alone on success. -/
theorem compressWrite_fields {σ τ : Type} (E : WEnv σ τ) (fuel : Nat)
    (z : Writer σ τ) (pArr : List Byte) (r : Writer σ τ × Nat × GoErr)
    (h : Writer.compressWrite E fuel z pArr = some r) :
    r.1.p = z.p ∧ r.1.bounceBuf = z.bounceBuf ∧ r.1.closed = z.closed ∧
    r.1.hasSession = z.hasSession ∧ (r.2.2 = none → r.1.err = z.err) := by
  unfold Writer.compressWrite at h
  split at h
  · cases h
    rename_i hz
    refine ⟨rfl, rfl, rfl, rfl, fun hc => ?_⟩
    simp at hz
    simp [hz] at hc
  · cases hc : cwLoop E pArr fuel z 0 with
    | none => rw [hc] at h; exact absurd h (by simp)
    | some v =>
      rw [hc] at h
      obtain ⟨z', n, e⟩ := v
      have H := cwLoop_fields E pArr fuel z 0 (z', n, e) hc
      simp only [Option.some.injEq] at h
      subst h
      by_cases he : e = none
      · subst he
        simp only [if_pos rfl]
        exact ⟨H.1, H.2.2.1, H.2.2.2.1, H.2.2.2.2, fun _ => H.2.1⟩
      · simp only [if_neg he]
        exact ⟨H.1, H.2.2.1, H.2.2.2.1, H.2.2.2.2, fun hc2 => absurd hc2 he⟩

/-- A non-nil error result of `Writer.compressWrite` is also what it
stored into `z.err` (the sticky-error write on the failure paths). -/
theorem compressWrite_err_eq {σ τ : Type} (E : WEnv σ τ) (fuel : Nat)
    (z : Writer σ τ) (pArr : List Byte) (r : Writer σ τ × Nat × GoErr)
    (h : Writer.compressWrite E fuel z pArr = some r) (hne : r.2.2 ≠ none) :
    r.1.err = r.2.2 := by
  unfold Writer.compressWrite at h
  split at h
  · cases h; rfl
  · cases hc : cwLoop E pArr fuel z 0 with
    | none => rw [hc] at h; exact absurd h (by simp)
    | some v =>
      rw [hc] at h
      obtain ⟨z', n, e⟩ := v
      simp only [Option.some.injEq] at h
      subst h
      by_cases he : e = none
      · subst he; simp at hne
      · simp only [if_neg he]

/-- `Writer.compressWrite` never returns `ErrBuffer` (given a sink that
never produces it). -/
theorem compressWrite_no_buffer {σ τ : Type} (E : WEnv σ τ) (fuel : Nat)
    (z : Writer σ τ) (pArr : List Byte) (r : Writer σ τ × Nat × GoErr)
    (P : τ → Prop)
    (hP : ∀ t b, P t → P (E.swrite t b).1 ∧ (E.swrite t b).2.2 ≠ some QErr.buffer)
    (hz : z.err ≠ some QErr.buffer) (hw : P z.w)
    (h : Writer.compressWrite E fuel z pArr = some r) :
    r.2.2 ≠ some QErr.buffer := by
  unfold Writer.compressWrite at h
  split at h
  · cases h; exact hz
  · cases hc : cwLoop E pArr fuel z 0 with
    | none => rw [hc] at h; exact absurd h (by simp)
    | some v =>
      rw [hc] at h
      obtain ⟨z', n, e⟩ := v
      have H := cwLoop_no_buffer E pArr P hP fuel z 0 (z', n, e) hc hw
      simp only [Option.some.injEq] at h
      subst h
      simpa using H

/-- The sink state of a `compressWrite` result stays inside a sink
invariant that is preserved by sink writes. -/
theorem cwLoop_sinkP {σ τ : Type} (E : WEnv σ τ) (pArr : List Byte) (P : τ → Prop)
    (hP : ∀ t b, P t → P (E.swrite t b).1 ∧ (E.swrite t b).2.2 ≠ some QErr.buffer) :
    ∀ (fuel : Nat) (z : Writer σ τ) (c : Nat) (r : Writer σ τ × Nat × GoErr),
      cwLoop E pArr fuel z c = some r → P z.w → P r.1.w := by
  intro fuel
  induction fuel with
  | zero => intro z c r h; simp [cwLoop] at h
  | succ n ih =>
    intro z c r h hw
    by_cases hm : z.p.inputBufferMode = IBMode.last <;>
      simp only [cwLoop, hm, if_true, if_false, reduceIte] at h <;>
      split at h <;>
      first
      | (cases h; exact hw)
      | (split at h <;>
          first
          | (exact ih _ _ _ h hw)
          | (cases h; exact hw)
          | (split at h <;>
              first
              | (exact ih _ _ _ h hw)
              | (cases h; exact hw)
              | (split at h <;>
                  first
                  | (exact ih _ _ _ h (hP _ _ hw).1)
                  | (cases h; exact (hP _ _ hw).1))))

theorem compressWrite_sinkP {σ τ : Type} (E : WEnv σ τ) (fuel : Nat)
    (z : Writer σ τ) (pArr : List Byte) (r : Writer σ τ × Nat × GoErr)
    (P : τ → Prop)
    (hP : ∀ t b, P t → P (E.swrite t b).1 ∧ (E.swrite t b).2.2 ≠ some QErr.buffer)
    (hw : P z.w) (h : Writer.compressWrite E fuel z pArr = some r) : P r.1.w := by
  unfold Writer.compressWrite at h
  split at h
  · cases h; exact hw
  · cases hc : cwLoop E pArr fuel z 0 with
    | none => rw [hc] at h; exact absurd h (by simp)
    | some v =>
      rw [hc] at h
      obtain ⟨z', n, e⟩ := v
      have H := cwLoop_sinkP E pArr P hP fuel z 0 (z', n, e) hc hw
      simp only [Option.some.injEq] at h
      subst h
      by_cases he : e = none
      · subst he; simpa using H
      · simp only [if_neg he]; exact H

/-- `Writer.flushBounceBuffer` preserves parameters and lifecycle, and
on success leaves the error unchanged and the bounce buffer empty. -/
theorem flush_fields {σ τ : Type} (E : WEnv σ τ) (fuel : Nat)
    (z : Writer σ τ) (r : Writer σ τ × GoErr)
    (h : Writer.flushBounceBuffer E fuel z = some r) :
    r.1.p = z.p ∧ r.1.closed = z.closed ∧ r.1.hasSession = z.hasSession ∧
    (r.2 = none → r.1.err = z.err ∧ r.1.bounceBuf = []) := by
  unfold Writer.flushBounceBuffer at h
  split at h
  · cases hc : Writer.compressWrite E fuel z z.bounceBuf with
    | none => rw [hc] at h; exact absurd h (by simp)
    | some v =>
      obtain ⟨z', nw, e⟩ := v
      rw [hc] at h
      dsimp only at h
      have H := compressWrite_fields E fuel z z.bounceBuf (z', nw, e) hc
      by_cases he : e = none
      · subst he
        rw [if_neg (by simp)] at h
        by_cases hnw : nw < z.bounceBuf.length
        · rw [if_pos hnw] at h
          injection h with h; subst h
          exact ⟨H.1, H.2.2.1, H.2.2.2.1, fun hc2 => by simp at hc2⟩
        · rw [if_neg hnw] at h
          injection h with h; subst h
          exact ⟨H.1, H.2.2.1, H.2.2.2.1, fun _ => ⟨H.2.2.2.2 rfl, rfl⟩⟩
      · rw [if_pos (by simpa using he)] at h
        injection h with h; subst h
        exact ⟨H.1, H.2.2.1, H.2.2.2.1, fun hc2 => absurd hc2 he⟩
  · injection h with h; subst h
    exact ⟨rfl, rfl, rfl, fun _ => ⟨rfl, rfl⟩⟩

/-- A non-nil `flushBounceBuffer` error was stored as the sticky
error. -/
theorem flush_err_eq {σ τ : Type} (E : WEnv σ τ) (fuel : Nat)
    (z : Writer σ τ) (r : Writer σ τ × GoErr)
    (h : Writer.flushBounceBuffer E fuel z = some r) (hne : r.2 ≠ none) :
    r.1.err = r.2 := by
  unfold Writer.flushBounceBuffer at h
  split at h
  · cases hc : Writer.compressWrite E fuel z z.bounceBuf with
    | none => rw [hc] at h; exact absurd h (by simp)
    | some v =>
      obtain ⟨z', nw, e⟩ := v
      rw [hc] at h
      dsimp only at h
      by_cases he : e = none
      · subst he
        rw [if_neg (by simp)] at h
        by_cases hnw : nw < z.bounceBuf.length
        · rw [if_pos hnw] at h
          injection h with h; subst h; rfl
        · rw [if_neg hnw] at h
          injection h with h; subst h
          simp at hne
      · rw [if_pos (by simpa using he)] at h
        injection h with h; subst h
        exact compressWrite_err_eq E fuel z z.bounceBuf (z', nw, e) hc (by simpa using he)
  · injection h with h; subst h
    simp at hne

/-- `Writer.flushBounceBuffer` never returns `ErrBuffer`. -/
theorem flush_no_buffer {σ τ : Type} (E : WEnv σ τ) (fuel : Nat)
    (z : Writer σ τ) (r : Writer σ τ × GoErr)
    (P : τ → Prop)
    (hP : ∀ t b, P t → P (E.swrite t b).1 ∧ (E.swrite t b).2.2 ≠ some QErr.buffer)
    (hz : z.err ≠ some QErr.buffer) (hw : P z.w)
    (h : Writer.flushBounceBuffer E fuel z = some r) :
    r.2 ≠ some QErr.buffer := by
  unfold Writer.flushBounceBuffer at h
  split at h
  · cases hc : Writer.compressWrite E fuel z z.bounceBuf with
    | none => rw [hc] at h; exact absurd h (by simp)
    | some v =>
      obtain ⟨z', nw, e⟩ := v
      rw [hc] at h
      dsimp only at h
      have H := compressWrite_no_buffer E fuel z z.bounceBuf (z', nw, e) P hP hz hw hc
      by_cases he : e = none
      · subst he
        rw [if_neg (by simp)] at h
        by_cases hnw : nw < z.bounceBuf.length
        · rw [if_pos hnw] at h
          injection h with h; subst h; simp
        · rw [if_neg hnw] at h
          injection h with h; subst h; simp
      · rw [if_pos (by simpa using he)] at h
        injection h with h; subst h
        simpa using H
  · injection h with h; subst h
    simp

theorem flush_sinkP {σ τ : Type} (E : WEnv σ τ) (fuel : Nat)
    (z : Writer σ τ) (r : Writer σ τ × GoErr)
    (P : τ → Prop)
    (hP : ∀ t b, P t → P (E.swrite t b).1 ∧ (E.swrite t b).2.2 ≠ some QErr.buffer)
    (hw : P z.w) (h : Writer.flushBounceBuffer E fuel z = some r) : P r.1.w := by
  unfold Writer.flushBounceBuffer at h
  split at h
  · cases hc : Writer.compressWrite E fuel z z.bounceBuf with
    | none => rw [hc] at h; exact absurd h (by simp)
    | some v =>
      obtain ⟨z', nw, e⟩ := v
      rw [hc] at h
      dsimp only at h
      have H := compressWrite_sinkP E fuel z z.bounceBuf (z', nw, e) P hP hw hc
      by_cases he : e = none
      · subst he
        rw [if_neg (by simp)] at h
        by_cases hnw : nw < z.bounceBuf.length
        · rw [if_pos hnw] at h
          injection h with h; subst h; exact H
        · rw [if_neg hnw] at h
          injection h with h; subst h; exact H
      · rw [if_pos (by simpa using he)] at h
        injection h with h; subst h; exact H
  · injection h with h; subst h
    exact hw

/-- `Writer.closeFinish` preserves the parameter set. -/
theorem closeFinish_p_eq {σ τ : Type} (E : WEnv σ τ) (fuel : Nat)
    (z : Writer σ τ) (r : Writer σ τ × GoErr)
    (h : Writer.closeFinish E fuel z = some r) : r.1.p = z.p := by
  unfold Writer.closeFinish at h
  dsimp only at h
  cases hf : Writer.flushBounceBuffer E fuel { z with closed := true, lastFlag := true } with
  | none => rw [hf] at h; exact absurd h (by simp)
  | some v =>
    obtain ⟨z', fe⟩ := v
    rw [hf] at h
    dsimp only at h
    have HF := flush_fields E fuel _ _ hf
    by_cases he : fe = none
    · rw [if_neg (by simp [he])] at h
      injection h with h; subst h
      simpa using HF.1
    · rw [if_pos (by simpa using he)] at h
      injection h with h; subst h
      simpa using HF.1

/-- `Writer.close` preserves the parameter set. -/
theorem close_p_eq {σ τ : Type} (E : WEnv σ τ) (fuel : Nat)
    (z : Writer σ τ) (r : Writer σ τ × GoErr)
    (h : Writer.close E fuel z = some r) : r.1.p = z.p := by
  unfold Writer.close at h
  split at h
  · injection h with h; subst h; rfl
  · split at h
    · injection h with h; subst h; rfl
    · by_cases hcnd : (¬z.wroteHeader ∧ z.perfBytesIn = 0 ∧ z.bounceBuf.length = 0)
      · rw [if_pos hcnd] at h
        dsimp only at h
        split at h
        · injection h with h; subst h; rfl
        · have H := closeFinish_p_eq E fuel _ _ h
          simpa [Writer.writeEmptyBuffer] using H
      · rw [if_neg hcnd] at h
        dsimp only at h
        split at h
        · injection h with h; subst h; rfl
        · exact closeFinish_p_eq E fuel _ _ h

/-- A returned `Writer.reset` result always carries a nil error, a nil
sticky error, an empty bounce buffer, fresh zeroed counters and the
caller's parameter set (the binding re-creation is modelled as
succeeding). -/
theorem reset_spec {σ τ : Type} (E : WEnv σ τ) (fuel : Nat)
    (z : Writer σ τ) (wf : τ → τ) (r : Writer σ τ × GoErr)
    (h : Writer.reset E fuel z wf = some r) :
    r.2 = none ∧ r.1.err = none ∧ r.1.p = z.p ∧ r.1.bounceBuf = [] ∧
    r.1.hasSession = true ∧ r.1.perf = some zeroPerf := by
  unfold Writer.reset at h
  cases hc : Writer.close E fuel z with
  | none => rw [hc] at h; exact absurd h (by simp)
  | some v =>
    obtain ⟨z1, e1⟩ := v
    rw [hc] at h
    dsimp only at h
    injection h with h; subst h
    exact ⟨rfl, rfl, close_p_eq E fuel z (z1, e1) hc, rfl, rfl, rfl⟩

/-- C6.  On the bounce path — mode `Bounce`, or any mode other than
`NoLast` with `len(p)` at most the configured bounce length — `Write(p)`
first flushes previously bounced bytes (hypothesis `hflush`, trivially
satisfied when the bounce buffer is empty) and then copies all of `p`
into the bounce buffer and returns `n = len(p)` with a nil error.  The
resulting Writer is exactly the post-flush state with only `bounceBuf`
replaced: in particular its engine-binding state is the post-flush one,
so no engine compress call is made for `p`'s bytes in this invocation —
they are compressed only by a later `Write`'s flush or by `Close`. -/
theorem C6_bounce_path {σ τ : Type} (E : WEnv σ τ) (fuel : Nat)
    (z z2 : Writer σ τ) (pIn : List Byte)
    (hz : z.err = none) (hs : z.hasSession = true)
    (hflush : Writer.flushBounceBuffer E fuel z = some (z2, none))
    (hmode : z.p.inputBufferMode ≠ IBMode.noLast)
    (hcond : z.p.inputBufferMode = IBMode.bounce ∨ pIn.length ≤ z.p.bounceBufferLength) :
    Writer.write E fuel z pIn = some ({ z2 with bounceBuf := pIn }, pIn.length, none) := by
  have HF := flush_fields E fuel z (z2, none) hflush
  have hp2 : z2.p = z.p := HF.1
  unfold Writer.write
  rw [hz, hs]
  simp only [reduceIte, ne_eq, not_true_eq_false, not_false_eq_true, if_true, if_false]
  rw [hflush]
  dsimp only
  rw [if_neg (by simp)]
  rw [if_pos (by rw [hp2]; exact ⟨hmode, hcond⟩)]

/-- C6 witness: writing two bytes (≤ bounce length 512, default
`Reserve` mode) to an open Writer holds them in the bounce buffer and
reports success. -/
theorem C6_bounce_path_witness :
    Writer.write oracleWEnv 5 wOpen [1, 2] =
      some ({ { wOpen with bounceBuf := [] } with bounceBuf := [1, 2] }, 2, none) :=
  C6_bounce_path oracleWEnv 5 wOpen { wOpen with bounceBuf := [] } [1, 2]
    rfl rfl rfl (by decide) (Or.inr (by decide))

theorem sumAdv_nil : sumAdv [] = 0 := rfl

theorem sumAdv_cons (x : CallRec) (l : List CallRec) :
    sumAdv (x :: l) = x.advance + sumAdv l := by
  simp [sumAdv]

theorem cwLoop_log (p : List Byte) :
    ∀ (fuel : Nat) (z : Writer OEngine OSink) (c : Nat)
      (r : Writer OEngine OSink × Nat × GoErr),
      cwLoop oracleWEnv p fuel z c = some r → c ≤ p.length →
      ∃ L, r.1.q.log = z.q.log ++ L ∧
        (∀ (k : Nat) (hk : k < L.length),
          (L.get ⟨k, hk⟩).input = p.drop (c + sumAdv (L.take k))) ∧
        (r.2.2 = none → c + sumAdv L = p.length ∧ r.2.1 = p.length) := by
  intro fuel
  induction fuel with
  | zero => intro z c r h; simp [cwLoop] at h
  | succ n ih =>
    intro z c r h hc
    by_cases h0 : p.length - c = 0
    · rw [cwLoop, if_pos h0] at h
      injection h with h; subst h
      refine ⟨[], by simp, by simp, fun _ => ⟨?_, ?_⟩⟩
      · rw [sumAdv_nil]; omega
      · show c = p.length; omega
    · have hdrop : ¬(List.drop c p).length = 0 := by
        simp only [List.length_drop]; omega
      have hqz : ∀ lf, qzCompress oracleWEnv z.q lf (List.drop c p) z.outLen =
          oracleCall z.q (List.drop c p) z.outLen := by
        intro lf; unfold qzCompress; rw [if_neg hdrop]; rfl
      have step : ∀ (rec : CallRec) (Z1 : Writer OEngine OSink) (c' : Nat)
          (r' : Writer OEngine OSink × Nat × GoErr),
          cwLoop oracleWEnv p n Z1 c' = some r' →
          Z1.q.log = z.q.log ++ [rec] → rec.input = List.drop c p →
          c' = c + rec.advance → c' ≤ p.length →
          ∃ L, r'.1.q.log = z.q.log ++ L ∧
            (∀ (k : Nat) (hk : k < L.length),
              (L.get ⟨k, hk⟩).input = p.drop (c + sumAdv (L.take k))) ∧
            (r'.2.2 = none → c + sumAdv L = p.length ∧ r'.2.1 = p.length) := by
        intro rec Z1 c' r' h' h1 h2 h3 hc'
        obtain ⟨L', hlog, hidx, hdone⟩ := ih Z1 c' r' h' hc'
        refine ⟨rec :: L', ?_, ?_, ?_⟩
        · rw [hlog, h1, List.append_assoc]; rfl
        · intro k hk
          match k, hk with
          | 0, _ => simpa [sumAdv] using h2
          | (k + 1), hk =>
            have hk' : k < L'.length := by simpa using hk
            have H := hidx k hk'
            simp only [List.get_cons_succ, List.take_succ_cons, sumAdv_cons]
            rw [H, h3, Nat.add_assoc]
        · intro he
          obtain ⟨hA, hB⟩ := hdone he
          refine ⟨?_, hB⟩
          rw [sumAdv_cons, ← Nat.add_assoc, ← h3]; exact hA
      by_cases hm : z.p.inputBufferMode = IBMode.last <;>
        simp only [cwLoop, hm, if_true, if_false, reduceIte, if_neg h0, hqz] at h <;>
        rcases hsc : z.q.script with _ | ⟨resp, rs⟩
      case pos.nil =>
        simp only [oracleCall, hsc] at h
        injection h with h; subst h
        refine ⟨_, rfl, ?_, by simp⟩
        intro k hk
        simp only [List.length_singleton] at hk
        have hk0 : k = 0 := by omega
        subst hk0
        simp [sumAdv]
      case neg.nil =>
        simp only [oracleCall, hsc] at h
        injection h with h; subst h
        refine ⟨_, rfl, ?_, by simp⟩
        intro k hk
        simp only [List.length_singleton] at hk
        have hk0 : k = 0 := by omega
        subst hk0
        simp [sumAdv]
      all_goals (
        rcases resp with ⟨inN, outN⟩ | _ | e
        · simp only [oracleCall, hsc, show oracleWEnv.swrite = oracleSwrite from rfl] at h
          by_cases hprod : 0 < min outN z.outLen <;>
            simp only [List.length_replicate, hprod, if_true, if_false, reduceIte] at h
          · cases hsw : (oracleSwrite z.w (List.replicate (min outN z.outLen) 0)).2.2 with
            | none =>
              rw [hsw] at h
              dsimp only at h
              refine step _ _ _ _ h rfl rfl rfl ?_
              simp only [List.length_drop]
              omega
            | some e2 =>
              rw [hsw] at h
              dsimp only at h
              injection h with h; subst h
              refine ⟨_, rfl, ?_, by simp⟩
              intro k hk
              simp only [List.length_singleton] at hk
              have hk0 : k = 0 := by omega
              subst hk0
              simp [sumAdv]
          · refine step _ _ _ _ h rfl rfl rfl ?_
            simp only [List.length_drop]
            omega
        · simp only [oracleCall, hsc] at h
          refine step _ _ _ _ h rfl rfl rfl ?_
          simpa using hc
        · cases e <;>
            simp only [oracleCall, hsc] at h <;>
            first
            | (refine step _ _ _ _ h rfl rfl rfl ?_
               simpa using hc)
            | (injection h with h; subst h
               refine ⟨_, rfl, ?_, by simp⟩
               intro k hk
               simp only [List.length_singleton] at hk
               have hk0 : k = 0 := by omega
               subst hk0
               simp [sumAdv]))

/-- C2.  The `compressWrite` retry loop, run against an arbitrary
scripted engine (the oracle records every engine call in a log): every
call — including each retry after an insufficient-buffer response —
submits exactly the unconsumed suffix `p[consumed:]`, where `consumed`
is the sum of the consumed counts reported by the preceding calls
(non-success calls report 0, so the counter advances only on success);
and when the loop finishes successfully the per-call consumed counts
sum to `len(p)` and the returned `n` equals `len(p)`. -/
theorem C2_compressWrite_consumed (z : Writer OEngine OSink) (pArr : List Byte)
    (fuel : Nat) (r : Writer OEngine OSink × Nat × GoErr)
    (hz : z.err = none)
    (h : Writer.compressWrite oracleWEnv fuel z pArr = some r) :
    ∃ L, r.1.q.log = z.q.log ++ L ∧
      (∀ (k : Nat) (hk : k < L.length),
        (L.get ⟨k, hk⟩).input = pArr.drop (sumAdv (L.take k))) ∧
      (r.2.2 = none → sumAdv L = pArr.length ∧ r.2.1 = pArr.length) := by
  unfold Writer.compressWrite at h
  rw [if_neg (by simp [hz])] at h
  cases hcw : cwLoop oracleWEnv pArr fuel z 0 with
  | none => rw [hcw] at h; exact absurd h (by simp)
  | some v =>
    obtain ⟨z', n, e⟩ := v
    rw [hcw] at h
    dsimp only at h
    obtain ⟨L, hlog, hidx, hdone⟩ := cwLoop_log pArr fuel z 0 (z', n, e) hcw (Nat.zero_le _)
    by_cases he : e = none
    · subst he
      rw [if_pos rfl] at h
      injection h with h; subst h
      exact ⟨L, hlog, fun k hk => by simpa using hidx k hk,
        fun _ => by simpa using hdone rfl⟩
    · rw [if_neg he] at h
      injection h with h; subst h
      exact ⟨L, hlog, fun k hk => by simpa using hidx k hk,
        fun hcon => absurd hcon he⟩

/-- C2 witness: a concrete run whose script forces one retry and two
partial consumes of the three input bytes. -/
theorem C2_compressWrite_consumed_witness :
    ∃ L, c2run.1.q.log = wC2.q.log ++ L ∧
      (∀ (k : Nat) (hk : k < L.length),
        (L.get ⟨k, hk⟩).input = List.drop (sumAdv (L.take k)) [5, 6, 7]) ∧
      (c2run.2.2 = none → sumAdv L = 3 ∧ c2run.2.1 = 3) :=
  C2_compressWrite_consumed wC2 [5, 6, 7] 10 c2run rfl rfl

/-- C10.  A Writer or Reader that has been constructed but has never
done I/O nor been `Reset` has a nil `perf` pointer — the counters
object is allocated only inside `Reset` — so `GetPerf()` dereferences
nil and panics (modelled as the `none` result); after the first
`Reset` the pointer is allocated. -/
theorem C10_getperf_before_reset_panics :
    Writer.getPerf (newWriter (⟨[], []⟩ : OEngine) (⟨[], []⟩ : OSink)) = none ∧
    Reader.getPerf (newReader (⟨[], []⟩ : OEngine) (⟨[]⟩ : OUp)) = none ∧
    (Writer.reset oracleWEnv 1 (newWriter ⟨[], []⟩ ⟨[], []⟩) id).map
      (fun r => Writer.getPerf r.1) = some (some zeroPerf) ∧
    Reader.getPerf (Reader.reset oracleREnv (newReader ⟨[], []⟩ ⟨[]⟩) ⟨[]⟩).1 =
      some zeroPerf := by
  refine ⟨rfl, rfl, rfl, rfl⟩



theorem pullGrow_r {σ τ : Type} (z : Reader σ τ) : (pullGrow z).r = z.r := by
  unfold pullGrow; split <;> rfl

theorem pullLoop_nb {σ τ : Type} (E : REnv σ τ) (Q : τ → Prop)
    (hQ : ∀ t n, Q t → Q (E.uread t n).1 ∧ (E.uread t n).2.2 ≠ some QErr.buffer) :
    ∀ (fuel : Nat) (z : Reader σ τ) (r : Reader σ τ × GoErr),
      pullLoop E fuel z = some r → Q z.r → r.2 ≠ some QErr.buffer ∧ Q r.1.r := by
  intro fuel
  induction fuel with
  | zero => intro z r h; simp [pullLoop] at h
  | succ n ih =>
    intro z r h hq
    rw [pullLoop] at h
    split at h
    · injection h with h; subst h; exact ⟨by simp, hq⟩
    · dsimp only at h
      split at h
      · -- upstream error
        split at h
        · -- io.EOF: continue with streamDone
          exact ih _ _ h (by rw [pullGrow_r]; exact (hQ _ _ hq).1)
        · -- other upstream error: returned
          injection h with h; subst h
          rename_i e heq hne
          refine ⟨?_, by rw [pullGrow_r]; exact (hQ _ _ hq).1⟩
          intro hcon
          simp only [Option.some.injEq] at hcon
          subst hcon
          exact absurd heq (by simpa using (hQ _ _ hq).2)
      · exact ih _ _ h (by rw [pullGrow_r]; exact (hQ _ _ hq).1)



theorem readIter_nb {σ τ : Type} (E : REnv σ τ) (Q : τ → Prop)
    (hQ : ∀ t n, Q t → Q (E.uread t n).1 ∧ (E.uread t n).2.2 ≠ some QErr.buffer)
    (pf pLen produced : Nat) (z : Reader σ τ) (acc : List Byte) (st : RStep σ τ)
    (h : readIter E pf pLen z produced acc = some st) (hq : Q z.r) :
    (∀ z' n acc' e, st = RStep.done z' n acc' e → e ≠ some QErr.buffer) ∧
    (∀ z' p' a', st = RStep.next z' p' a' → Q z'.r) := by
  unfold readIter at h
  split at h
  · injection h with h; subst h
    exact ⟨(fun z' n acc' e he => by cases he; simp), (fun z' p' a' he => by cases he)⟩
  · split at h
    · injection h with h; subst h
      exact ⟨(fun z' n acc' e he => by cases he), (fun z' p' a' he => by cases he; exact hq)⟩
    · split at h
      · injection h with h; subst h
        exact ⟨(fun z' n acc' e he => by cases he; simp), (fun z' p' a' he => by cases he)⟩
      · dsimp only at h
        split at h
        · injection h with h; subst h
          exact ⟨(fun z' n acc' e he => by cases he; simp), (fun z' p' a' he => by cases he)⟩
        · split at h
          · exact absurd h (by simp)
          · -- afterPull = some (z1, some e): upstream abort
            rename_i z1 e heq
            injection h with h; subst h
            have hQe : e ≠ QErr.buffer ∧ Q z1.r := by
              by_cases hgap : z.inputRead - z.inputOfs = 0
              · rw [if_pos hgap] at heq
                by_cases hsd : z.streamDone = true
                · rw [if_pos hsd] at heq; exact absurd heq (by simp)
                · rw [if_neg hsd] at heq
                  have := pullLoop_nb E Q hQ pf z (z1, some e) heq hq
                  exact ⟨by simpa using this.1, this.2⟩
              · rw [if_neg hgap] at heq
                simp at heq
            exact ⟨(fun z' n acc' e' he => by
                cases he
                intro hcon
                simp only [Option.some.injEq] at hcon
                exact hQe.1 hcon),
              (fun z' p' a' he => by cases he)⟩
          · -- afterPull = some (z1, none): proceed to decompress
            rename_i z1 heq
            have hq1 : Q z1.r := by
              by_cases hgap : z.inputRead - z.inputOfs = 0
              · rw [if_pos hgap] at heq
                by_cases hsd : z.streamDone = true
                · rw [if_pos hsd] at heq; exact absurd heq (by simp)
                · rw [if_neg hsd] at heq
                  exact (pullLoop_nb E Q hQ pf z (z1, none) heq hq).2
              · rw [if_neg hgap] at heq
                simp only [Option.some.injEq, Prod.mk.injEq] at heq
                obtain ⟨heq1, -⟩ := heq
                subst heq1; exact hq
            split at h
            · -- ErrBuffer: grow and retry
              injection h with h; subst h
              exact ⟨(fun z' n acc' e he => by cases he), (fun z' p' a' he => by cases he; exact hq1)⟩
            · -- other decompress error
              rename_i e heqd hne
              injection h with h; subst h
              exact ⟨(fun z' n acc' e' he => by
                  cases he
                  intro hcon
                  simp only [Option.some.injEq] at hcon
                  subst hcon
                  exact heqd rfl),
                (fun z' p' a' he => by cases he)⟩
            · -- success
              injection h with h; subst h
              exact ⟨(fun z' n acc' e he => by cases he), (fun z' p' a' he => by cases he; exact hq1)⟩



theorem readLoop_nb {σ τ : Type} (E : REnv σ τ) (Q : τ → Prop)
    (hQ : ∀ t n, Q t → Q (E.uread t n).1 ∧ (E.uread t n).2.2 ≠ some QErr.buffer)
    (pf pLen : Nat) :
    ∀ (fuel : Nat) (z : Reader σ τ) (produced : Nat) (acc : List Byte)
      (r : Reader σ τ × Nat × List Byte × GoErr),
      readLoop E pf pLen fuel z produced acc = some r → Q z.r →
      r.2.2.2 ≠ some QErr.buffer := by
  intro fuel
  induction fuel with
  | zero => intro z produced acc r h; simp [readLoop] at h
  | succ n ih =>
    intro z produced acc r h hq
    rw [readLoop] at h
    cases hit : readIter E pf pLen z produced acc with
    | none => rw [hit] at h; exact absurd h (by simp)
    | some st =>
      rw [hit] at h
      have HS := readIter_nb E Q hQ pf pLen produced z acc st hit hq
      cases st with
      | done z' n' acc' e =>
        dsimp only at h
        injection h with h; subst h
        exact HS.1 _ _ _ _ rfl
      | next z' p' a' =>
        dsimp only at h
        exact ih z' p' a' r h (HS.2 _ _ _ rfl)

theorem reader_close_nb {σ τ : Type} (E : REnv σ τ) (z : Reader σ τ)
    (hqc : ∀ s, (E.qclose s).2 ≠ some QErr.buffer)
    (hz : z.err ≠ some QErr.buffer) :
    (Reader.close E z).2 ≠ some QErr.buffer := by
  unfold Reader.close
  split
  · exact hz
  · split
    · exact hz
    · dsimp only
      split
      · simp
      · exact hqc _

theorem reader_reset_nb {σ τ : Type} (E : REnv σ τ) (z : Reader σ τ) (r0 : τ)
    (hqc : ∀ s, (E.qclose s).2 ≠ some QErr.buffer)
    (hz : z.err ≠ some QErr.buffer) :
    (Reader.reset E z r0).2 ≠ some QErr.buffer := by
  unfold Reader.reset
  dsimp only
  split
  · exact reader_close_nb E z hqc hz
  · simp

theorem reader_reset_fields {σ τ : Type} (E : REnv σ τ) (z : Reader σ τ) (r0 : τ)
    (h : (Reader.reset E z r0).2 = none) :
    (Reader.reset E z r0).1.err = none ∧ (Reader.reset E z r0).1.r = r0 ∧
    (Reader.reset E z r0).1.perf = some zeroPerf := by
  unfold Reader.reset at h ⊢
  by_cases hc : (Reader.close E z).2 = none
  · simp [hc]
  · simp [hc] at h

theorem read_nb {σ τ : Type} (E : REnv σ τ) (Q : τ → Prop)
    (hQ : ∀ t n, Q t → Q (E.uread t n).1 ∧ (E.uread t n).2.2 ≠ some QErr.buffer)
    (hqc : ∀ s, (E.qclose s).2 ≠ some QErr.buffer)
    (fuel pf pLen : Nat) (z : Reader σ τ) (r : Reader σ τ × Nat × List Byte × GoErr)
    (hz : z.err ≠ some QErr.buffer) (hq : Q z.r)
    (h : Reader.read E fuel pf z pLen = some r) :
    r.2.2.2 ≠ some QErr.buffer := by
  unfold Reader.read at h
  split at h
  · injection h with h; subst h; exact hz
  · dsimp only at h
    by_cases hs : z.hasSession = true <;>
      simp only [hs, if_true, if_false, reduceIte, Bool.false_eq_true] at h
    · rw [if_neg (by simp)] at h
      exact readLoop_nb E Q hQ pf pLen fuel z 0 [] r h hq
    · by_cases hre : (Reader.reset E z z.r).2 = none
      · rw [if_neg (by simp [hre])] at h
        have HF := reader_reset_fields E z z.r hre
        refine readLoop_nb E Q hQ pf pLen fuel _ 0 [] r h ?_
        rw [HF.2.1]; exact hq
      · rw [if_pos (by simpa using hre)] at h
        injection h with h; subst h
        simpa using reader_reset_nb E z z.r hqc hz



theorem closeFinish_nb {σ τ : Type} (E : WEnv σ τ) (fuel : Nat)
    (z : Writer σ τ) (r : Writer σ τ × GoErr) (P : τ → Prop)
    (hP : ∀ t b, P t → P (E.swrite t b).1 ∧ (E.swrite t b).2.2 ≠ some QErr.buffer)
    (hqc : ∀ s, (E.qclose s).2 ≠ some QErr.buffer)
    (hz : z.err ≠ some QErr.buffer) (hw : P z.w)
    (h : Writer.closeFinish E fuel z = some r) :
    r.2 ≠ some QErr.buffer := by
  unfold Writer.closeFinish at h
  dsimp only at h
  cases hf : Writer.flushBounceBuffer E fuel { z with closed := true, lastFlag := true } with
  | none => rw [hf] at h; exact absurd h (by simp)
  | some v =>
    obtain ⟨z', fe⟩ := v
    rw [hf] at h
    dsimp only at h
    have HNB := flush_no_buffer E fuel { z with closed := true, lastFlag := true }
      (z', fe) P hP (by simpa using hz) hw hf
    by_cases he : fe = none
    · rw [if_neg (by simp [he])] at h
      injection h with h; subst h
      exact hqc _
    · rw [if_pos (by simpa using he)] at h
      injection h with h; subst h
      have HE := flush_err_eq E fuel { z with closed := true, lastFlag := true }
        (z', fe) hf (by simpa using he)
      simp only at HE ⊢
      rw [HE]
      simpa using HNB

theorem close_nb {σ τ : Type} (E : WEnv σ τ) (fuel : Nat)
    (z : Writer σ τ) (r : Writer σ τ × GoErr) (P : τ → Prop)
    (hP : ∀ t b, P t → P (E.swrite t b).1 ∧ (E.swrite t b).2.2 ≠ some QErr.buffer)
    (hqc : ∀ s, (E.qclose s).2 ≠ some QErr.buffer)
    (hz : z.err ≠ some QErr.buffer) (hw : P z.w)
    (h : Writer.close E fuel z = some r) :
    r.2 ≠ some QErr.buffer := by
  unfold Writer.close at h
  split at h
  · injection h with h; subst h; simp
  · split at h
    · injection h with h; subst h; exact hz
    · by_cases hcnd : (¬z.wroteHeader ∧ z.perfBytesIn = 0 ∧ z.bounceBuf.length = 0)
      · rw [if_pos hcnd] at h
        dsimp only at h
        split at h
        · injection h with h; subst h
          exact (hP _ _ hw).2
        · rename_i hple
          have hz2 : (Writer.writeEmptyBuffer E z).2 = none := by simpa using hple
          refine closeFinish_nb E fuel _ _ P hP hqc (by simp [hz2]) ?_ h
          exact (hP _ _ hw).1
      · rw [if_neg hcnd] at h
        dsimp only at h
        split at h
        · injection h with h; subst h
          exact hz
        · rename_i hple
          have hz2 : z.err = none := by simpa using hple
          exact closeFinish_nb E fuel _ _ P hP hqc (by simp [hz2]) hw h

theorem reset_nb_w {σ τ : Type} (E : WEnv σ τ) (fuel : Nat)
    (z : Writer σ τ) (wf : τ → τ) (r : Writer σ τ × GoErr) (P : τ → Prop)
    (hP : ∀ t b, P t → P (E.swrite t b).1 ∧ (E.swrite t b).2.2 ≠ some QErr.buffer)
    (hwf : ∀ t, P t → P (wf t)) (hw : P z.w)
    (h : Writer.reset E fuel z wf = some r) : P r.1.w := by
  unfold Writer.reset at h
  cases hc : Writer.close E fuel z with
  | none => rw [hc] at h; exact absurd h (by simp)
  | some v =>
    obtain ⟨z1, e1⟩ := v
    rw [hc] at h
    dsimp only at h
    injection h with h; subst h
    refine hwf _ ?_
    -- P is preserved through close
    unfold Writer.close at hc
    split at hc
    · injection hc with hcA; injection hcA with hc1 hc2; subst hc1; exact hw
    · split at hc
      · injection hc with hcA; injection hcA with hc1 hc2; subst hc1; exact hw
      · by_cases hcnd : (¬z.wroteHeader ∧ z.perfBytesIn = 0 ∧ z.bounceBuf.length = 0)
        · rw [if_pos hcnd] at hc
          dsimp only at hc
          split at hc
          · injection hc with hcA; injection hcA with hc1 hc2; subst hc1
            exact (hP _ _ hw).1
          · -- closeFinish sink preservation
            unfold Writer.closeFinish at hc
            dsimp only at hc
            cases hf : Writer.flushBounceBuffer E fuel _ with
            | none => rw [hf] at hc; exact absurd hc (by simp)
            | some v2 =>
              obtain ⟨z2, fe⟩ := v2
              rw [hf] at hc
              dsimp only at hc
              have HP : P z2.w := by
                refine (flush_sinkP E fuel _ (z2, fe) P hP ?_ hf : P (z2, fe).1.w)
                exact (hP _ _ hw).1
              split at hc <;>
                (injection hc with hcA; injection hcA with hc1 hc2; subst hc1; exact HP)
        · rw [if_neg hcnd] at hc
          dsimp only at hc
          split at hc
          · injection hc with hcA; injection hcA with hc1 hc2; subst hc1; exact hw
          · unfold Writer.closeFinish at hc
            dsimp only at hc
            cases hf : Writer.flushBounceBuffer E fuel _ with
            | none => rw [hf] at hc; exact absurd hc (by simp)
            | some v2 =>
              obtain ⟨z2, fe⟩ := v2
              rw [hf] at hc
              dsimp only at hc
              have HP : P z2.w := by
                refine (flush_sinkP E fuel _ (z2, fe) P hP ?_ hf : P (z2, fe).1.w)
                exact hw
              split at hc <;>
                (injection hc with hcA; injection hcA with hc1 hc2; subst hc1; exact HP)

theorem write_nb {σ τ : Type} (E : WEnv σ τ) (fuel : Nat)
    (z : Writer σ τ) (pIn : List Byte) (r : Writer σ τ × Nat × GoErr) (P : τ → Prop)
    (hP : ∀ t b, P t → P (E.swrite t b).1 ∧ (E.swrite t b).2.2 ≠ some QErr.buffer)
    (hz : z.err ≠ some QErr.buffer) (hw : P z.w)
    (h : Writer.write E fuel z pIn = some r) :
    r.2.2 ≠ some QErr.buffer := by
  unfold Writer.write at h
  split at h
  · injection h with h; subst h; exact hz
  · by_cases hs : z.hasSession = true <;>
      simp only [hs, if_true, if_false, reduceIte, Bool.false_eq_true] at h
    · -- session already started
      rw [if_neg (by simp)] at h
      cases hf : Writer.flushBounceBuffer E fuel z with
      | none => rw [hf] at h; exact absurd h (by simp)
      | some v =>
        obtain ⟨z1, fe⟩ := v
        rw [hf] at h
        dsimp only at h
        have HNB := flush_no_buffer E fuel z (z1, fe) P hP hz hw hf
        have HSP := flush_sinkP E fuel z (z1, fe) P hP hw hf
        have HFF := flush_fields E fuel z (z1, fe) hf
        by_cases hfe : fe = none
        · rw [if_neg (by simp [hfe])] at h
          split at h
          · injection h with h; subst h; simp
          · cases hcw : Writer.compressWrite E fuel
                (if z1.p.inputBufferMode = IBMode.reserve then
                  { z1 with bounceBuf := List.drop (pIn.length - z1.p.bounceBufferLength) pIn }
                else z1)
                (if z1.p.inputBufferMode = IBMode.reserve then
                  List.take (pIn.length - z1.p.bounceBufferLength) pIn
                else pIn) with
            | none => rw [hcw] at h; exact absurd h (by simp)
            | some v2 =>
              obtain ⟨z3, nw, e⟩ := v2
              rw [hcw] at h
              dsimp only at h
              injection h with h; subst h
              have hz1e : z1.err ≠ some QErr.buffer := by
                have := HFF.2.2.2 (by simpa using hfe)
                simp only at this
                rw [this.1]
                simpa [hfe] using hz
              refine compressWrite_no_buffer E fuel _ _ (z3, nw, e) P hP ?_ ?_ hcw
              · split <;> simpa using hz1e
              · split <;> simpa using HSP
        · rw [if_pos (by simpa using hfe)] at h
          injection h with h; subst h
          simpa using HNB
    · -- lazy session start via Reset
      cases hre : Writer.reset E fuel z id with
      | none => rw [hre] at h; exact absurd h (by simp)
      | some v =>
        obtain ⟨z0, re⟩ := v
        rw [hre] at h
        dsimp only at h
        have HRS := reset_spec E fuel z id (z0, re) hre
        have hre0 : re = none := by simpa using HRS.1
        have hz0e : z0.err = none := by simpa using HRS.2.1
        have HRP : P z0.w := reset_nb_w E fuel z id (z0, re) P hP (fun t ht => ht) hw hre
        rw [if_neg (by simp [hre0])] at h
        cases hf : Writer.flushBounceBuffer E fuel z0 with
        | none => rw [hf] at h; exact absurd h (by simp)
        | some v2 =>
          obtain ⟨z1, fe⟩ := v2
          rw [hf] at h
          dsimp only at h
          have hz0 : z0.err ≠ some QErr.buffer := by simp [hz0e]
          have HNB := flush_no_buffer E fuel z0 (z1, fe) P hP hz0 HRP hf
          have HSP := flush_sinkP E fuel z0 (z1, fe) P hP HRP hf
          have HFF := flush_fields E fuel z0 (z1, fe) hf
          by_cases hfe : fe = none
          · rw [if_neg (by simp [hfe])] at h
            split at h
            · injection h with h; subst h; simp
            · cases hcw : Writer.compressWrite E fuel
                  (if z1.p.inputBufferMode = IBMode.reserve then
                    { z1 with bounceBuf := List.drop (pIn.length - z1.p.bounceBufferLength) pIn }
                  else z1)
                  (if z1.p.inputBufferMode = IBMode.reserve then
                    List.take (pIn.length - z1.p.bounceBufferLength) pIn
                  else pIn) with
              | none => rw [hcw] at h; exact absurd h (by simp)
              | some v3 =>
                obtain ⟨z3, nw, e⟩ := v3
                rw [hcw] at h
                dsimp only at h
                injection h with h; subst h
                have hz1e : z1.err ≠ some QErr.buffer := by
                  have := HFF.2.2.2 (by simpa using hfe)
                  simp only at this
                  rw [this.1]
                  exact hz0
                refine compressWrite_no_buffer E fuel _ _ (z3, nw, e) P hP ?_ ?_ hcw
                · split <;> simpa using hz1e
                · split <;> simpa using HSP
          · rw [if_pos (by simpa using hfe)] at h
            injection h with h; subst h
            simpa using HNB



theorem oracleSink_hP : ∀ t b, SinkOK t →
    SinkOK (oracleSwrite t b).1 ∧ (oracleSwrite t b).2.2 ≠ some QErr.buffer := by
  intro t b ht
  unfold oracleSwrite
  cases hs : t.script with
  | nil => exact ⟨by intro x hx; exact ht x (by simpa [hs] using hx), by simp⟩
  | cons x0 rs =>
    cases x0 with
    | none =>
      refine ⟨?_, by simp⟩
      intro x hx
      exact ht x (by simp only [hs]; exact List.mem_cons_of_mem _ (by simpa using hx))
    | some e =>
      refine ⟨?_, ?_⟩
      · intro x hx
        exact ht x (by simp only [hs]; exact List.mem_cons_of_mem _ (by simpa using hx))
      · have := ht (some e) (by simp [hs])
        simpa using this

theorem oracleUp_hQ : ∀ u n, UpOK u →
    UpOK (oracleURead u n).1 ∧ (oracleURead u n).2.2 ≠ some QErr.buffer := by
  intro u n hu
  unfold oracleURead
  cases hs : u.script with
  | nil => exact ⟨by intro x hx; exact hu x (by simpa [hs] using hx), by simp⟩
  | cons x0 rs =>
    cases x0 with
    | chunk bs =>
      refine ⟨?_, by simp⟩
      intro x hx
      exact hu x (by simp only [hs]; exact List.mem_cons_of_mem _ (by simpa using hx))
    | uerr e =>
      refine ⟨?_, ?_⟩
      · intro x hx
        exact hu x (by simp only [hs]; exact List.mem_cons_of_mem _ (by simpa using hx))
      · have := hu (UResp.uerr e) (by simp [hs]) e rfl
        simpa using this

/-- C5.  The insufficient-buffer signal `ErrBuffer` is never returned
to the caller of `Writer.Write`, `Writer.Close` or `Reader.Read`: the
engine-response match sends every `ErrBuffer` into the grow-and-retry
branch (see `cwLoop` and `readIter`), for any number of consecutive
insufficient-buffer responses and any engine behaviour; the theorem
quantifies over arbitrary environments whose sink/upstream/binding-close
peers never produce the engine-internal `ErrBuffer` value themselves
(`P`/`Q` are invariants of those peers, instantiated by `SinkOK`/`UpOK`
for the scripted oracles). -/
theorem C5_errbuffer_never_returned {σ τ σ' τ' : Type} (EW : WEnv σ τ) (ER : REnv σ' τ')
    (P : τ → Prop) (Q : τ' → Prop)
    (hP : ∀ t b, P t → P (EW.swrite t b).1 ∧ (EW.swrite t b).2.2 ≠ some QErr.buffer)
    (hqcW : ∀ s, (EW.qclose s).2 ≠ some QErr.buffer)
    (hQ : ∀ t n, Q t → Q (ER.uread t n).1 ∧ (ER.uread t n).2.2 ≠ some QErr.buffer)
    (hqcR : ∀ s, (ER.qclose s).2 ≠ some QErr.buffer) :
    (∀ (fuel : Nat) (z : Writer σ τ) (pIn : List Byte) (r : Writer σ τ × Nat × GoErr),
      z.err ≠ some QErr.buffer → P z.w →
      Writer.write EW fuel z pIn = some r → r.2.2 ≠ some QErr.buffer) ∧
    (∀ (fuel : Nat) (z : Writer σ τ) (r : Writer σ τ × GoErr),
      z.err ≠ some QErr.buffer → P z.w →
      Writer.close EW fuel z = some r → r.2 ≠ some QErr.buffer) ∧
    (∀ (fuel pf pLen : Nat) (z : Reader σ' τ') (r : Reader σ' τ' × Nat × List Byte × GoErr),
      z.err ≠ some QErr.buffer → Q z.r →
      Reader.read ER fuel pf z pLen = some r → r.2.2.2 ≠ some QErr.buffer) :=
  ⟨fun fuel z pIn r hz hw h => write_nb EW fuel z pIn r P hP hz hw h,
   fun fuel z r hz hw h => close_nb EW fuel z r P hP hqcW hz hw h,
   fun fuel pf pLen z r hz hq h => read_nb ER Q hQ hqcR fuel pf pLen z r hz hq h⟩

set_option maxRecDepth 8192 in
/-- C5 witness: concrete runs whose scripts begin with
insufficient-buffer responses still finish without ever surfacing
`ErrBuffer`. -/
theorem C5_errbuffer_never_returned_witness :
    c5wrun.2.2 ≠ some QErr.buffer ∧ c5crun.2 ≠ some QErr.buffer ∧
    c5rrun.2.2.2 ≠ some QErr.buffer := by
  obtain ⟨H1, H2, H3⟩ := C5_errbuffer_never_returned oracleWEnv oracleREnv SinkOK UpOK
    oracleSink_hP (fun s => by simp [oracleWEnv]) oracleUp_hQ (fun s => by simp [oracleREnv])
  refine ⟨H1 10 c5zw (List.replicate 513 7) c5wrun (by decide) ?_ rfl,
    H2 10 c5zc c5crun (by decide) ?_ rfl,
    H3 10 10 3 c5zr c5rrun (by decide) ?_ rfl⟩
  · intro x hx
    rw [show c5zw.w.script = [] from rfl] at hx
    simp at hx
  · intro x hx
    rw [show c5zc.w.script = [] from rfl] at hx
    simp at hx
  · intro x hx e hxe
    rw [show c5zr.r.script = [UResp.chunk [3, 4]] from rfl] at hx
    simp at hx
    subst hx
    simp at hxe


theorem c7reset : Reader.reset oracleREnv c7zr c7zr.r = (c7z0, none) := rfl

theorem c7ur : oracleREnv.uread c7z0.r (c7z0.inputLen - c7z0.inputRead) =
    (⟨[]⟩, List.replicate 134217728 7, none) := by
  rw [show oracleREnv.uread = oracleURead from rfl]
  rw [show c7z0.inputLen - c7z0.inputRead = 134217728 - 0 from rfl, Nat.sub_zero]
  rw [show c7z0.r = (⟨[UResp.chunk (List.replicate 134217728 7)]⟩ : OUp) from rfl]
  unfold oracleURead
  dsimp only
  rw [List.take_replicate, min_self]

/-- `pullGrow` on a full input buffer: new length is old length plus
twice the read position. -/
theorem pullGrow_eq (z : Reader σ τ) (h : z.inputLen ≤ z.inputRead) :
    pullGrow z = { z with inputLen := z.inputLen + 2 * z.inputRead } := by
  rw [pullGrow, if_pos h]

/-- `pullGrow` on a buffer that is not full: no change. -/
theorem pullGrow_ne (z : Reader σ τ) (h : ¬ z.inputLen ≤ z.inputRead) :
    pullGrow z = z := by
  rw [pullGrow, if_neg h]

/-- One transfer-loop iteration with a successful upstream chunk. -/
theorem pullLoop_chunk (E : REnv σ τ) (n : Nat) (z : Reader σ τ) (t : τ) (b : List Byte)
    (hsd : z.streamDone = false)
    (hu : E.uread z.r (z.inputLen - z.inputRead) = (t, b, none)) :
    pullLoop E (n + 1) z = pullLoop E n (pullGrow { z with
      r := t
      inputData := z.inputData ++ b
      inputRead := z.inputRead + b.length }) := by
  rw [pullLoop, if_neg (by simp [hsd])]
  dsimp only
  rw [hu]

/-- One transfer-loop iteration where upstream reports end-of-file. -/
theorem pullLoop_eof (E : REnv σ τ) (n : Nat) (z : Reader σ τ) (t : τ) (b : List Byte)
    (hsd : z.streamDone = false)
    (hu : E.uread z.r (z.inputLen - z.inputRead) = (t, b, some QErr.eof)) :
    pullLoop E (n + 1) z = pullLoop E n { pullGrow { z with
      r := t
      inputData := z.inputData ++ b
      inputRead := z.inputRead + b.length } with streamDone := true } := by
  rw [pullLoop, if_neg (by simp [hsd])]
  dsimp only
  rw [hu]
  dsimp only
  rw [if_pos rfl]

/-- Transfer loop exits immediately once `streamDone` is set. -/
theorem pullLoop_done (E : REnv σ τ) (n : Nat) (z : Reader σ τ)
    (hsd : z.streamDone = true) :
    pullLoop E (n + 1) z = some (z, none) := by
  rw [pullLoop, if_pos hsd]

theorem c7grow : pullGrow { c7z0 with
      r := (⟨[]⟩ : OUp)
      inputData := c7z0.inputData ++ List.replicate 134217728 7
      inputRead := c7z0.inputRead + (List.replicate 134217728 7).length } = c7z1 := by
  rw [List.length_replicate,
    show c7z0.inputData = ([] : List Byte) from rfl,
    List.nil_append,
    show c7z0.inputRead = 0 from rfl,
    Nat.zero_add]
  rw [show ({ c7z0 with
      r := (⟨[]⟩ : OUp)
      inputData := List.replicate 134217728 7
      inputRead := 134217728 } : Reader OEngine OUp) = c7zMid from rfl]
  rw [pullGrow_eq c7zMid (Nat.le_refl 134217728 :
    c7zMid.inputLen ≤ c7zMid.inputRead)]
  rw [show c7zMid.inputLen = 134217728 from rfl,
    show c7zMid.inputRead = 134217728 from rfl,
    show (134217728 : Nat) + 2 * 134217728 = 402653184 from by norm_num]
  rfl

theorem c7p1 (n : Nat) : pullLoop oracleREnv (n + 1) c7z0 = pullLoop oracleREnv n c7z1 := by
  rw [pullLoop_chunk oracleREnv n c7z0 ⟨[]⟩ (List.replicate 134217728 7) rfl c7ur]
  rw [c7grow]

theorem c7g2 : ({ pullGrow { c7z1 with
      r := (⟨[]⟩ : OUp)
      inputData := c7z1.inputData ++ ([] : List Byte)
      inputRead := c7z1.inputRead + ([] : List Byte).length } with
      streamDone := true } : Reader OEngine OUp) = c7z2 := by
  rw [List.append_nil,
    show ([] : List Byte).length = 0 from rfl,
    Nat.add_zero]
  rw [show ({ c7z1 with
      r := (⟨[]⟩ : OUp)
      inputData := c7z1.inputData
      inputRead := c7z1.inputRead } : Reader OEngine OUp) = c7z1 from rfl]
  rw [pullGrow_ne c7z1 (by
    rw [show c7z1.inputLen = 402653184 from rfl,
      show c7z1.inputRead = 134217728 from rfl]
    norm_num)]
  rfl

theorem c7p2 (n : Nat) : pullLoop oracleREnv (n + 1) c7z1 = pullLoop oracleREnv n c7z2 := by
  rw [pullLoop_eof oracleREnv n c7z1 ⟨[]⟩ [] rfl rfl]
  rw [c7g2]

theorem c7p3 (n : Nat) : pullLoop oracleREnv (n + 1) c7z2 = some (c7z2, none) :=
  pullLoop_done oracleREnv n c7z2 rfl

theorem c7pull (k : Nat) : pullLoop oracleREnv (k + 1 + 1 + 1) c7z0 = some (c7z2, none) := by
  rw [c7p1, c7p2, c7p3]

/-- A scripted engine answering an error pops it from the script and
logs the call. -/
theorem oracleCall_err (s : OEngine) (rs : List EResp) (e : QErr)
    (inp : List Byte) (outCap : Nat)
    (hs : s.script = .err e :: rs) :
    oracleCall s inp outCap =
      ({ script := rs, log := s.log ++ [⟨inp, 0, some e⟩] }, 0, [], some e) := by
  rw [oracleCall, hs]

/-- `QzBinding.Decompress` on nonempty input goes to the engine. -/
theorem qzDecompress_ne (E : REnv σ τ) (s : σ) (inp : List Byte) (outCap : Nat)
    (h : ¬ inp.length = 0) :
    qzDecompress E s inp outCap = E.decompress s inp outCap := by
  rw [qzDecompress, if_neg h]

/-- One `Reader.Read` loop iteration that pulls input and then fails
the decompress call with a non-`ErrBuffer` error. -/
theorem readIter_pull_err (E : REnv σ τ) (pf pLen : Nat) (z z1 : Reader σ τ)
    (produced : Nat) (acc : List Byte) (s1 : σ) (inN : Nat) (outB : List Byte) (e : QErr)
    (hp : ¬ pLen - produced = 0)
    (ho : ¬ 0 < z.outLeft)
    (hlt : ¬ z.inputRead < z.inputOfs)
    (hir : z.inputRead - z.inputOfs = 0)
    (hsd : z.streamDone = false)
    (hpl : pullLoop E pf z = some (z1, none))
    (hd : qzDecompress E z1.q (z1.inputData.drop z1.inputOfs) z1.outLen =
      (s1, inN, outB, some e))
    (hne : ¬ e = QErr.buffer) :
    readIter E pf pLen z produced acc =
      some (.done { { z1 with q := s1 } with err := some e } produced acc (some e)) := by
  rw [readIter, if_neg hp, if_neg ho, if_neg hlt]
  dsimp only
  rw [if_pos hir, if_neg (by simp [hsd]), if_neg (by simp [hsd]), hpl]
  dsimp only
  rw [hd]
  dsimp only
  split
  · next he => exact absurd (by injection he) hne
  · next e' he =>
    injection he with he
    subst he
    rfl
  · next he => exact absurd he (by simp)

/-- `Reader.Read`'s main loop stops when an iteration reports `done`. -/
theorem readLoop_done (E : REnv σ τ) (pf pLen fuel : Nat) (z z1 : Reader σ τ)
    (produced n : Nat) (acc acc1 : List Byte) (e : GoErr)
    (h : readIter E pf pLen z produced acc = some (.done z1 n acc1 e)) :
    readLoop E pf pLen (fuel + 1) z produced acc = some (z1, n, acc1, e) := by
  rw [readLoop, h]

/-- `Reader.Read` without a session and with a clean sticky error:
auto-reset, then the main loop from the reset state. -/
theorem read_fresh (E : REnv σ τ) (fuel pf : Nat) (z z0 : Reader σ τ) (pLen : Nat)
    (he : z.err = none) (hs : z.hasSession = false)
    (hr : Reader.reset E z z.r = (z0, none)) :
    Reader.read E fuel pf z pLen = readLoop E pf pLen fuel z0 0 [] := by
  rw [Reader.read, if_neg (by simp [he])]
  dsimp only
  rw [hs, if_neg Bool.false_ne_true, hr]
  dsimp only
  rw [if_neg (by simp)]

theorem c7dec : qzDecompress oracleREnv c7z2.q (c7z2.inputData.drop c7z2.inputOfs) c7z2.outLen =
    ((⟨[], [⟨List.replicate 134217728 7, 0, some QErr.dataCorrupt⟩]⟩ : OEngine),
      0, [], some QErr.dataCorrupt) := by
  rw [show c7z2.inputData = List.replicate 134217728 7 from rfl,
    show c7z2.inputOfs = 0 from rfl, List.drop_zero]
  rw [qzDecompress_ne oracleREnv c7z2.q (List.replicate 134217728 7) c7z2.outLen
    (by rw [List.length_replicate]; norm_num)]
  rw [show oracleREnv.decompress c7z2.q (List.replicate 134217728 7) c7z2.outLen =
      oracleCall c7z2.q (List.replicate 134217728 7) c7z2.outLen from rfl]
  rw [oracleCall_err c7z2.q [] QErr.dataCorrupt (List.replicate 134217728 7) c7z2.outLen rfl]
  rw [show c7z2.q.log = ([] : List CallRec) from rfl, List.nil_append]

theorem c7iter (k : Nat) : readIter oracleREnv (k + 1 + 1 + 1) 1 c7z0 0 [] =
    some (.done c7z3 0 [] (some QErr.dataCorrupt)) := by
  rw [readIter_pull_err oracleREnv (k + 1 + 1 + 1) 1 c7z0 c7z2 0 []
      (⟨[], [⟨List.replicate 134217728 7, 0, some QErr.dataCorrupt⟩]⟩ : OEngine)
      0 [] QErr.dataCorrupt
      (by norm_num) (by decide) (by decide) (by decide) rfl (c7pull k) c7dec (by decide)]
  rfl

theorem c7read (m k : Nat) :
    Reader.read oracleREnv (m + 1) (k + 1 + 1 + 1) c7zr 1 =
      some (c7z3, 0, [], some QErr.dataCorrupt) := by
  rw [read_fresh oracleREnv (m + 1) (k + 1 + 1 + 1) c7zr c7z0 1 rfl rfl c7reset]
  exact readLoop_done oracleREnv (k + 1 + 1 + 1) 1 m c7z0 c7z3 0 0 [] []
    (some QErr.dataCorrupt) (c7iter k)

/-- C7, counterexample: a Reader whose upstream delivers one chunk that
exactly fills the default 128 MiB input buffer.  After one `Read` call
the input buffer length is 402653184 = 3 × 134217728, not twice the old
length: the source appends `inputBufRead*2` bytes to the existing
buffer instead of doubling it. -/
theorem C7_growth_counterexample :
    ((Reader.read oracleREnv 1 3 c7zr 1).map fun r => (r.1.inputLen, r.1.inputRead)) =
        some (402653184, 134217728) ∧
      c7z0.inputLen = 134217728 ∧
      402653184 = 3 * 134217728 ∧ ¬ 402653184 = 2 * 134217728 := by
  refine ⟨?_, rfl, by norm_num, by norm_num⟩
  have h := c7read 0 0
  rw [show (0 : Nat) + 1 + 1 + 1 = 3 from by norm_num,
    show (0 : Nat) + 1 = 1 from rfl] at h
  rw [h]
  rfl

/-- C7 (amended): in `Reader.Read`'s transfer loop, after a successful
upstream read the input buffer grows exactly when it has filled
(`inputBufRead ≥ len(inputBuf)`), and its new length is the old length
plus twice the new read position (`append(inputBuf, make([]byte,
inputBufRead*2)...)`) — three times the old length when the read exactly
fills the buffer — otherwise it is unchanged; the loop keeps pulling
until the upstream reports end-of-stream. -/
theorem C7_input_growth (E : REnv σ τ) (n : Nat) (z : Reader σ τ) (t : τ) (b : List Byte)
    (hsd : z.streamDone = false)
    (hu : E.uread z.r (z.inputLen - z.inputRead) = (t, b, none)) :
    pullLoop E (n + 1) z = pullLoop E n { z with
      r := t
      inputData := z.inputData ++ b
      inputRead := z.inputRead + b.length
      inputLen := if z.inputLen ≤ z.inputRead + b.length
        then z.inputLen + 2 * (z.inputRead + b.length) else z.inputLen } := by
  rw [pullLoop_chunk E n z t b hsd hu, pullGrow]
  dsimp only
  by_cases hf : z.inputLen ≤ z.inputRead + b.length
  · rw [if_pos hf, if_pos hf]
  · rw [if_neg hf, if_neg hf]

theorem C7_input_growth_witness :
    pullLoop oracleREnv 1 c7w = pullLoop oracleREnv 0 { c7w with
      r := (⟨[]⟩ : OUp)
      inputData := c7w.inputData ++ [5, 5]
      inputRead := c7w.inputRead + [5, 5].length
      inputLen := if c7w.inputLen ≤ c7w.inputRead + [5, 5].length
        then c7w.inputLen + 2 * (c7w.inputRead + [5, 5].length) else c7w.inputLen } :=
  C7_input_growth oracleREnv 0 c7w ⟨[]⟩ [5, 5] rfl rfl

/-- A scripted engine success pops the response and clamps consumed and
produced to the engine contract. -/
theorem oracleCall_ok (s : OEngine) (rs : List EResp) (inN outN : Nat)
    (inp : List Byte) (outCap : Nat)
    (hs : s.script = .ok inN outN :: rs) :
    oracleCall s inp outCap =
      ({ script := rs, log := s.log ++ [⟨inp, min inN inp.length, none⟩] },
        min inN inp.length, List.replicate (min outN outCap) 0, none) := by
  rw [oracleCall, hs]

/-- A scripted insufficient-buffer answer pops the response. -/
theorem oracleCall_buf (s : OEngine) (rs : List EResp)
    (inp : List Byte) (outCap : Nat)
    (hs : s.script = .buf :: rs) :
    oracleCall s inp outCap =
      ({ script := rs, log := s.log ++ [⟨inp, 0, some QErr.buffer⟩] },
        0, [], some QErr.buffer) := by
  rw [oracleCall, hs]

/-- An exhausted engine script answers `ErrFail`. -/
theorem oracleCall_fail (s : OEngine) (inp : List Byte) (outCap : Nat)
    (hs : s.script = []) :
    oracleCall s inp outCap =
      ({ s with log := s.log ++ [⟨inp, 0, some QErr.fail⟩] }, 0, [], some QErr.fail) := by
  rw [oracleCall, hs]

/-- One `Reader.Read` loop iteration that only drains the output
window: no upstream pull, no engine call. -/
theorem readIter_drain (E : REnv σ τ) (pf pLen : Nat) (z : Reader σ τ)
    (produced : Nat) (acc : List Byte)
    (hp : ¬ pLen - produced = 0) (ho : 0 < z.outLeft) :
    readIter E pf pLen z produced acc =
      some (.next { z with
          outOfs := z.outOfs + min (pLen - produced) z.outLeft
          outLeft := z.outLeft - min (pLen - produced) z.outLeft }
        (produced + min (pLen - produced) z.outLeft)
        (acc ++ ((z.window.drop z.outOfs).take (min (pLen - produced) z.outLeft)))) := by
  rw [readIter, if_neg hp, if_pos ho]

/-- One `Reader.Read` loop iteration that pulls input and then
decompresses successfully. -/
theorem readIter_pull_ok (E : REnv σ τ) (pf pLen : Nat) (z z1 : Reader σ τ)
    (produced : Nat) (acc : List Byte) (s1 : σ) (inN : Nat) (outB : List Byte)
    (hp : ¬ pLen - produced = 0)
    (ho : ¬ 0 < z.outLeft)
    (hlt : ¬ z.inputRead < z.inputOfs)
    (hir : z.inputRead - z.inputOfs = 0)
    (hsd : z.streamDone = false)
    (hpl : pullLoop E pf z = some (z1, none))
    (hd : qzDecompress E z1.q (z1.inputData.drop z1.inputOfs) z1.outLen =
      (s1, inN, outB, none)) :
    readIter E pf pLen z produced acc =
      some (.next { z1 with
        q := s1
        perf := bumpBytes inN outB.length z1.perf
        inputOfs := z1.inputOfs + inN
        outOfs := 0
        outLeft := outB.length
        window := outB } produced acc) := by
  rw [readIter, if_neg hp, if_neg ho, if_neg hlt]
  dsimp only
  rw [if_pos hir, if_neg (by simp [hsd]), if_neg (by simp [hsd]), hpl]
  dsimp only
  rw [hd]

/-- One `Reader.Read` loop iteration with pending input already in the
accumulator whose decompress call reports `ErrBuffer`: the output
buffer is reallocated with length `remainder + growth` while the stale
output offset is left untouched. -/
theorem readIter_nopull_buf (E : REnv σ τ) (pf pLen : Nat) (z : Reader σ τ)
    (produced : Nat) (acc : List Byte) (s1 : σ) (inN : Nat) (outB : List Byte)
    (hp : ¬ pLen - produced = 0)
    (ho : ¬ 0 < z.outLeft)
    (hlt : ¬ z.inputRead < z.inputOfs)
    (hgap : ¬ z.inputRead - z.inputOfs = 0)
    (hd : qzDecompress E z.q (z.inputData.drop z.inputOfs) z.outLen =
      (s1, inN, outB, some QErr.buffer)) :
    readIter E pf pLen z produced acc =
      some (.next { z with
        q := s1
        growth := z.growth * 2
        outLen := (pLen - produced) + z.growth * 2
        window := [] } produced acc) := by
  rw [readIter, if_neg hp, if_neg ho, if_neg hlt]
  dsimp only
  rw [if_neg hgap, if_neg (by simp [hgap])]
  dsimp only
  rw [hd]

/-- One `Reader.Read` loop iteration with pending input whose
decompress call fails with a non-`ErrBuffer` error. -/
theorem readIter_nopull_err (E : REnv σ τ) (pf pLen : Nat) (z : Reader σ τ)
    (produced : Nat) (acc : List Byte) (s1 : σ) (inN : Nat) (outB : List Byte) (e : QErr)
    (hp : ¬ pLen - produced = 0)
    (ho : ¬ 0 < z.outLeft)
    (hlt : ¬ z.inputRead < z.inputOfs)
    (hgap : ¬ z.inputRead - z.inputOfs = 0)
    (hd : qzDecompress E z.q (z.inputData.drop z.inputOfs) z.outLen =
      (s1, inN, outB, some e))
    (hne : ¬ e = QErr.buffer) :
    readIter E pf pLen z produced acc =
      some (.done { { z with q := s1 } with err := some e } produced acc (some e)) := by
  rw [readIter, if_neg hp, if_neg ho, if_neg hlt]
  dsimp only
  rw [if_neg hgap, if_neg (by simp [hgap])]
  dsimp only
  rw [hd]
  dsimp only
  split
  · next he => exact absurd (by injection he) hne
  · next e' he =>
    injection he with he
    subst he
    rfl
  · next he => exact absurd he (by simp)

/-- `Reader.Read`'s main loop steps to the continuation state on a
`next` iteration. -/
theorem readLoop_next (E : REnv σ τ) (pf pLen fuel : Nat) (z z1 : Reader σ τ)
    (produced p1 : Nat) (acc a1 : List Byte)
    (h : readIter E pf pLen z produced acc = some (.next z1 p1 a1)) :
    readLoop E pf pLen (fuel + 1) z produced acc = readLoop E pf pLen fuel z1 p1 a1 := by
  rw [readLoop, h]

theorem c9reset : Reader.reset oracleREnv c9zr c9zr.r = (c9z0, none) := rfl

theorem c9u1 : oracleREnv.uread c9z0.r (c9z0.inputLen - c9z0.inputRead) =
    ((⟨[]⟩ : OUp), [7, 7, 7, 7], none) := rfl

theorem c9p1 (n : Nat) : pullLoop oracleREnv (n + 1) c9z0 = pullLoop oracleREnv n c9zA := by
  rw [pullLoop_chunk oracleREnv n c9z0 ⟨[]⟩ [7, 7, 7, 7] rfl c9u1]
  rw [show pullGrow { c9z0 with
      r := (⟨[]⟩ : OUp)
      inputData := c9z0.inputData ++ [7, 7, 7, 7]
      inputRead := c9z0.inputRead + ([7, 7, 7, 7] : List Byte).length } = c9zA from rfl]

theorem c9p2 (n : Nat) : pullLoop oracleREnv (n + 1) c9zA = pullLoop oracleREnv n c9zB := by
  rw [pullLoop_eof oracleREnv n c9zA ⟨[]⟩ [] rfl rfl]
  rw [show ({ pullGrow { c9zA with
      r := (⟨[]⟩ : OUp)
      inputData := c9zA.inputData ++ ([] : List Byte)
      inputRead := c9zA.inputRead + ([] : List Byte).length } with
      streamDone := true } : Reader OEngine OUp) = c9zB from rfl]

theorem c9pull (k : Nat) : pullLoop oracleREnv (k + 1 + 1 + 1) c9z0 = some (c9zB, none) := by
  rw [c9p1, c9p2, pullLoop_done oracleREnv k c9zB rfl]

theorem c9d1 : qzDecompress oracleREnv c9zB.q (c9zB.inputData.drop c9zB.inputOfs) c9zB.outLen =
    ((⟨[.buf], [⟨[7, 7, 7, 7], 2, none⟩]⟩ : OEngine), 2, List.replicate 2097154 0, none) := by
  rw [show c9zB.inputData.drop c9zB.inputOfs = [7, 7, 7, 7] from rfl]
  rw [qzDecompress_ne oracleREnv c9zB.q [7, 7, 7, 7] c9zB.outLen (by norm_num)]
  rw [show oracleREnv.decompress c9zB.q [7, 7, 7, 7] c9zB.outLen =
      oracleCall c9zB.q [7, 7, 7, 7] c9zB.outLen from rfl]
  rw [oracleCall_ok c9zB.q [.buf] 2 2097154 [7, 7, 7, 7] c9zB.outLen rfl]
  rw [show c9zB.outLen = 134217728 from rfl,
    min_eq_left (by norm_num : (2097154 : Nat) ≤ 134217728)]
  rfl

theorem c9i1 (k : Nat) : readIter oracleREnv (k + 1 + 1 + 1) 2097155 c9z0 0 [] =
    some (.next c9z1 0 []) := by
  rw [readIter_pull_ok oracleREnv (k + 1 + 1 + 1) 2097155 c9z0 c9zB 0 []
      (⟨[.buf], [⟨[7, 7, 7, 7], 2, none⟩]⟩ : OEngine) 2 (List.replicate 2097154 0)
      (by norm_num) (by decide) (by decide) (by decide) rfl (c9pull k) c9d1]
  rw [List.length_replicate]
  rfl

theorem c9i2 (pf : Nat) : readIter oracleREnv pf 2097155 c9z1 0 [] =
    some (.next c9z2 2097154 (List.replicate 2097154 0)) := by
  rw [readIter_drain oracleREnv pf 2097155 c9z1 0 [] (by norm_num) (by decide)]
  rw [show (2097155 : Nat) - 0 = 2097155 from rfl,
    show c9z1.outLeft = 2097154 from rfl,
    min_eq_right (by norm_num : (2097154 : Nat) ≤ 2097155),
    show c9z1.outOfs = 0 from rfl,
    Nat.zero_add, Nat.sub_self,
    show c9z1.window = List.replicate 2097154 0 from rfl,
    List.drop_zero, List.take_replicate, min_self, List.nil_append]
  rfl

theorem c9d3 : qzDecompress oracleREnv c9z2.q (c9z2.inputData.drop c9z2.inputOfs) c9z2.outLen =
    ((⟨[], [⟨[7, 7, 7, 7], 2, none⟩, ⟨[7, 7], 0, some QErr.buffer⟩]⟩ : OEngine),
      0, [], some QErr.buffer) := by
  rw [show c9z2.inputData.drop c9z2.inputOfs = [7, 7] from rfl]
  rw [qzDecompress_ne oracleREnv c9z2.q [7, 7] c9z2.outLen (by norm_num)]
  rw [show oracleREnv.decompress c9z2.q [7, 7] c9z2.outLen =
      oracleCall c9z2.q [7, 7] c9z2.outLen from rfl]
  rw [oracleCall_buf c9z2.q [] [7, 7] c9z2.outLen rfl]
  rfl

theorem c9i3 (pf : Nat) : readIter oracleREnv pf 2097155 c9z2 2097154 (List.replicate 2097154 0) =
    some (.next c9z3 2097154 (List.replicate 2097154 0)) := by
  rw [readIter_nopull_buf oracleREnv pf 2097155 c9z2 2097154 (List.replicate 2097154 0)
      (⟨[], [⟨[7, 7, 7, 7], 2, none⟩, ⟨[7, 7], 0, some QErr.buffer⟩]⟩ : OEngine) 0 []
      (by norm_num) (by decide) (by decide) (by decide) c9d3]
  rw [show c9z2.growth = 1048576 from rfl,
    show (1048576 : Nat) * 2 = 2097152 from by norm_num,
    show (2097155 : Nat) - 2097154 + 2097152 = 2097153 from by norm_num]
  rfl

theorem c9d4 : qzDecompress oracleREnv c9z3.q (c9z3.inputData.drop c9z3.inputOfs) c9z3.outLen =
    ((⟨[], [⟨[7, 7, 7, 7], 2, none⟩, ⟨[7, 7], 0, some QErr.buffer⟩,
      ⟨[7, 7], 0, some QErr.fail⟩]⟩ : OEngine), 0, [], some QErr.fail) := by
  rw [show c9z3.inputData.drop c9z3.inputOfs = [7, 7] from rfl]
  rw [qzDecompress_ne oracleREnv c9z3.q [7, 7] c9z3.outLen (by norm_num)]
  rw [show oracleREnv.decompress c9z3.q [7, 7] c9z3.outLen =
      oracleCall c9z3.q [7, 7] c9z3.outLen from rfl]
  rw [oracleCall_fail c9z3.q [7, 7] c9z3.outLen rfl]
  rfl

theorem c9i4 (pf : Nat) : readIter oracleREnv pf 2097155 c9z3 2097154 (List.replicate 2097154 0) =
    some (.done c9z4 2097154 (List.replicate 2097154 0) (some QErr.fail)) := by
  rw [readIter_nopull_err oracleREnv pf 2097155 c9z3 2097154 (List.replicate 2097154 0)
      (⟨[], [⟨[7, 7, 7, 7], 2, none⟩, ⟨[7, 7], 0, some QErr.buffer⟩,
        ⟨[7, 7], 0, some QErr.fail⟩]⟩ : OEngine) 0 [] QErr.fail
      (by norm_num) (by decide) (by decide) (by decide) c9d4 (by decide)]
  rfl

theorem c9read (m k : Nat) :
    Reader.read oracleREnv (m + 1 + 1 + 1 + 1) (k + 1 + 1 + 1) c9zr 2097155 =
      some (c9z4, 2097154, List.replicate 2097154 0, some QErr.fail) := by
  rw [read_fresh oracleREnv (m + 1 + 1 + 1 + 1) (k + 1 + 1 + 1) c9zr c9z0 2097155 rfl rfl c9reset]
  rw [readLoop_next oracleREnv (k + 1 + 1 + 1) 2097155 (m + 1 + 1 + 1) c9z0 c9z1 0 0 [] []
      (c9i1 k)]
  rw [readLoop_next oracleREnv (k + 1 + 1 + 1) 2097155 (m + 1 + 1) c9z1 c9z2 0 2097154 []
      (List.replicate 2097154 0) (c9i2 (k + 1 + 1 + 1))]
  rw [readLoop_next oracleREnv (k + 1 + 1 + 1) 2097155 (m + 1) c9z2 c9z3 2097154 2097154
      (List.replicate 2097154 0) (List.replicate 2097154 0) (c9i3 (k + 1 + 1 + 1))]
  exact readLoop_done oracleREnv (k + 1 + 1 + 1) 2097155 m c9z3 c9z4 2097154 2097154
    (List.replicate 2097154 0) (List.replicate 2097154 0) (some QErr.fail) (c9i4 (k + 1 + 1 + 1))

/-- C9, counterexample: after a decompress producing 2097154 bytes that
are fully drained (leaving the output offset at 2097154), an
`ErrBuffer` retry reallocates the output buffer to `remainder +
growth` = 2097153 bytes without resetting the stale offset, so the
reachable post-`Read` state violates `offset + left ≤ len(outputBuf)`. -/
theorem C9_window_counterexample :
    ((Reader.read oracleREnv 4 3 c9zr 2097155).map fun r =>
        (r.1.outOfs, r.1.outLeft, r.1.outLen)) = some (2097154, 0, 2097153) ∧
      ¬ (2097154 + 0 ≤ 2097153) := by
  refine ⟨?_, by norm_num⟩
  have h := c9read 0 0
  rw [show (0 : Nat) + 1 + 1 + 1 + 1 = 4 from by norm_num,
    show (0 : Nat) + 1 + 1 + 1 = 3 from by norm_num] at h
  rw [h]
  rfl

/-- The transfer loop's buffer growth touches only the input buffer:
all output-window fields survive `pullGrow`. -/
theorem pullGrow_out {σ τ : Type} (z : Reader σ τ) :
    (pullGrow z).outOfs = z.outOfs ∧ (pullGrow z).outLeft = z.outLeft ∧
    (pullGrow z).outLen = z.outLen ∧ (pullGrow z).window = z.window := by
  unfold pullGrow; split <;> exact ⟨rfl, rfl, rfl, rfl⟩

/-- The transfer loop never touches the output window. -/
theorem pullLoop_out {σ τ : Type} (E : REnv σ τ) :
    ∀ (fuel : Nat) (z z1 : Reader σ τ) (e : GoErr),
      pullLoop E fuel z = some (z1, e) →
      z1.outOfs = z.outOfs ∧ z1.outLeft = z.outLeft ∧
      z1.outLen = z.outLen ∧ z1.window = z.window := by
  intro fuel
  induction fuel with
  | zero => intro z z1 e h; simp [pullLoop] at h
  | succ n ih =>
    intro z z1 e h
    rw [pullLoop] at h
    split at h
    · injection h with h
      injection h with h1 h2
      subst h1
      exact ⟨rfl, rfl, rfl, rfl⟩
    · dsimp only at h
      split at h
      · split at h
        · have hx := ih _ _ _ h
          simpa [pullGrow_out] using hx
        · injection h with h
          injection h with h1 h2
          subst h1
          simpa [pullGrow_out] using And.intro rfl (And.intro rfl (And.intro rfl rfl))
      · have hx := ih _ _ _ h
        simpa [pullGrow_out] using hx

/-- Decompress results respect the output capacity (engine contract
§6; the zero-length-input refusal produces no bytes at all). -/
theorem qzDecompress_len {σ τ : Type} (E : REnv σ τ)
    (hM : ∀ s inp cap, (E.decompress s inp cap).2.2.1.length ≤ cap)
    (s : σ) (inp : List Byte) (cap : Nat) :
    (qzDecompress E s inp cap).2.2.1.length ≤ cap := by
  rw [qzDecompress]
  split
  · simp
  · exact hM s inp cap

/-- The scripted oracle engine obeys the §6 output clamp. -/
theorem oracleCall_len (s : OEngine) (inp : List Byte) (cap : Nat) :
    (oracleCall s inp cap).2.2.1.length ≤ cap := by
  rw [oracleCall]
  split
  · simp
  · split
    · simp [List.length_replicate]
    · simp
    · simp

/-- C9 (amended): provided the engine respects the output-capacity
contract, each iteration of `Reader.Read`'s main loop preserves the
output-window invariant restricted to a nonempty window — whenever
undelivered bytes remain (`0 < outLeft`), `outOfs + outLeft ≤
len(outputBuf)` and the window lies inside the bytes produced by the
last decompress — and whenever the window is nonempty the iteration
only drains it into the caller's buffer, issuing no engine call (the
stale-offset states after an `ErrBuffer` reallocation all have
`outLeft = 0`, where the unrestricted `outOfs + outLeft ≤ outLen` of
the original claim fails). -/
theorem C9_window_invariant {σ τ : Type} (E : REnv σ τ)
    (hM : ∀ s inp cap, (E.decompress s inp cap).2.2.1.length ≤ cap)
    (pf pLen produced : Nat) (z : Reader σ τ) (acc : List Byte) (st : RStep σ τ)
    (h : readIter E pf pLen z produced acc = some st) (hz : WinInv z) :
    (∀ z' n acc' e, st = RStep.done z' n acc' e → WinInv z') ∧
    (∀ z' p' a', st = RStep.next z' p' a' → WinInv z') ∧
    (0 < z.outLeft → ¬ pLen - produced = 0 →
      st = RStep.next { z with
          outOfs := z.outOfs + min (pLen - produced) z.outLeft
          outLeft := z.outLeft - min (pLen - produced) z.outLeft }
        (produced + min (pLen - produced) z.outLeft)
        (acc ++ ((z.window.drop z.outOfs).take (min (pLen - produced) z.outLeft)))) := by
  unfold readIter at h
  split at h
  · rename_i h0
    injection h with h
    subst h
    refine ⟨?_, ?_, ?_⟩
    · intro z' n acc' e he; cases he; exact hz
    · intro z' p' a' he; cases he
    · intro _ hne; exact absurd h0 hne
  · split at h
    · rename_i h0 hpos
      injection h with h
      subst h
      refine ⟨?_, ?_, ?_⟩
      · intro z' n acc' e he; cases he
      · intro z' p' a' he
        cases he
        intro hlt2
        have hb := hz hpos
        have hmin : min (pLen - produced) z.outLeft ≤ z.outLeft := Nat.min_le_right _ _
        exact ⟨by dsimp only; omega, by dsimp only; omega⟩
      · intro _ _; rfl
    · rename_i h0 hno
      split at h
      · injection h with h
        subst h
        refine ⟨?_, ?_, ?_⟩
        · intro z' n acc' e he
          cases he
          intro hl
          exact hz hl
        · intro z' p' a' he; cases he
        · intro hpos _; exact absurd hpos hno
      · dsimp only at h
        split at h
        · injection h with h
          subst h
          refine ⟨?_, ?_, ?_⟩
          · intro z' n acc' e he; cases he; exact hz
          · intro z' p' a' he; cases he
          · intro hpos _; exact absurd hpos hno
        · split at h
          · exact absurd h (by simp)
          · rename_i z1 e heq
            injection h with h
            subst h
            have hw1 : WinInv z1 := by
              by_cases hgap : z.inputRead - z.inputOfs = 0
              · rw [if_pos hgap] at heq
                by_cases hsd : z.streamDone = true
                · rw [if_pos hsd] at heq; exact absurd heq (by simp)
                · rw [if_neg hsd] at heq
                  have ho := pullLoop_out E pf z z1 _ heq
                  intro hpos1
                  rw [ho.1, ho.2.1, ho.2.2.1, ho.2.2.2]
                  exact hz (ho.2.1 ▸ hpos1)
              · rw [if_neg hgap] at heq
                simp at heq
            refine ⟨?_, ?_, ?_⟩
            · intro z' n acc' e' he
              cases he
              intro hl
              exact hw1 hl
            · intro z' p' a' he; cases he
            · intro hpos _; exact absurd hpos hno
          · rename_i z1 heq
            have hkey : z1.outLeft = z.outLeft ∧ WinInv z1 := by
              by_cases hgap : z.inputRead - z.inputOfs = 0
              · rw [if_pos hgap] at heq
                by_cases hsd : z.streamDone = true
                · rw [if_pos hsd] at heq; exact absurd heq (by simp)
                · rw [if_neg hsd] at heq
                  have ho := pullLoop_out E pf z z1 _ heq
                  refine ⟨ho.2.1, ?_⟩
                  intro hpos1
                  rw [ho.1, ho.2.1, ho.2.2.1, ho.2.2.2]
                  exact hz (ho.2.1 ▸ hpos1)
              · rw [if_neg hgap] at heq
                simp only [Option.some.injEq, Prod.mk.injEq] at heq
                obtain ⟨heq1, -⟩ := heq
                subst heq1
                exact ⟨rfl, hz⟩
            split at h
            · injection h with h
              subst h
              refine ⟨?_, ?_, ?_⟩
              · intro z' n acc' e he; cases he
              · intro z' p' a' he
                cases he
                intro hpos1
                have hcon : 0 < z1.outLeft := hpos1
                rw [hkey.1] at hcon
                exact absurd hcon hno
              · intro hpos _; exact absurd hpos hno
            · rename_i e heqd hne
              injection h with h
              subst h
              refine ⟨?_, ?_, ?_⟩
              · intro z' n acc' e' he
                cases he
                intro hl
                exact hkey.2 hl
              · intro z' p' a' he; cases he
              · intro hpos _; exact absurd hpos hno
            · injection h with h
              subst h
              refine ⟨?_, ?_, ?_⟩
              · intro z' n acc' e he; cases he
              · intro z' p' a' he
                cases he
                intro hpos1
                have hlen := qzDecompress_len E hM z1.q (z1.inputData.drop z1.inputOfs) z1.outLen
                exact ⟨by dsimp only; omega, by dsimp only; omega⟩
              · intro hpos _; exact absurd hpos hno

theorem C9_window_invariant_witness :
    RStep.next ({ c9w with outOfs := 1, outLeft := 0 } : Reader OEngine OUp) 1 [9] =
      RStep.next { c9w with
          outOfs := c9w.outOfs + min (1 - 0) c9w.outLeft
          outLeft := c9w.outLeft - min (1 - 0) c9w.outLeft }
        (0 + min (1 - 0) c9w.outLeft)
        ([] ++ ((c9w.window.drop c9w.outOfs).take (min (1 - 0) c9w.outLeft))) :=
  (C9_window_invariant oracleREnv (fun s inp cap => oracleCall_len s inp cap) 0 1 0 c9w []
      (RStep.next ({ c9w with outOfs := 1, outLeft := 0 } : Reader OEngine OUp) 1 [9]) rfl
      (fun _ => ⟨by decide, by decide⟩)).2.2 (by decide) (by decide)

/-- The spec-engine compress call succeeds when the output capacity
meets the engine's need, consuming the whole input. -/
theorem qzCompress_spec_ok (G : EngineSpec) (u : Unit) (l : Bool) (inp : List Byte) (cap : Nat)
    (hinp : ¬ inp.length = 0) (hcap : ¬ cap < G.need inp) :
    qzCompress (specWEnv G) u l inp cap = ((), inp.length, G.enc inp l, none) := by
  rw [qzCompress, if_neg hinp]
  dsimp only [specWEnv]
  rw [if_neg hcap]

/-- The spec-engine compress call reports `InsufficientBuffer` while
the output capacity is below the engine's need. -/
theorem qzCompress_spec_buf (G : EngineSpec) (u : Unit) (l : Bool) (inp : List Byte) (cap : Nat)
    (hinp : ¬ inp.length = 0) (hcap : cap < G.need inp) :
    qzCompress (specWEnv G) u l inp cap = ((), 0, [], some QErr.buffer) := by
  rw [qzCompress, if_neg hinp]
  dsimp only [specWEnv]
  rw [if_pos hcap]

/-- One retry-loop iteration is insensitive to the `SetLast`
normalisation: running from `z` equals running from the
mode-normalised state. -/
theorem cwLoop_last_norm (E : WEnv σ τ) (p : List Byte) (f c : Nat) (z : Writer σ τ)
    (hrem : ¬ p.length - c = 0) :
    cwLoop E p (f + 1) z c =
      cwLoop E p (f + 1)
        (if z.p.inputBufferMode = .last then { z with lastFlag := true } else z) c := by
  by_cases hm : z.p.inputBufferMode = .last
  · rw [if_pos hm]
    rw [cwLoop, cwLoop, if_neg hrem, if_neg hrem]
    dsimp only
    rw [if_pos hm, if_pos (show ({ z with lastFlag := true } : Writer σ τ).p.inputBufferMode
      = .last from hm)]
  · rw [if_neg hm]

/-- The retry loop on a whole nonempty chunk whose need is already met:
one successful compress, one sink write, done.  `hl` says the `Last`
input-buffer mode finds the last-flag already set, so the state is
stable under the loop's `SetLast` step. -/
theorem cwLoop_ok (G : EngineSpec) (chunk : List Byte) (hc : chunk ≠ [])
    (f : Nat) (Z : Writer Unit (List Byte))
    (hcap : ¬ Z.outLen < G.need chunk)
    (hl : Z.p.inputBufferMode = .last → Z.lastFlag = true) :
    cwLoop (specWEnv G) chunk (f + 1 + 1) Z 0 =
      some ({ Z with
        q := ()
        wroteHeader := true
        perf := bumpBytes chunk.length (G.enc chunk Z.lastFlag).length Z.perf
        w := Z.w ++ G.enc chunk Z.lastFlag }, chunk.length, none) := by
  have hrem : ¬ chunk.length - 0 = 0 := by
    simpa using fun h => hc (List.length_eq_zero.mp h)
  have hfix : (if Z.p.inputBufferMode = .last then { Z with lastFlag := true } else Z) = Z := by
    split
    · next hm => rw [← hl hm]
    · rfl
  rw [cwLoop, if_neg hrem]
  dsimp only
  rw [hfix, List.drop_zero]
  rw [qzCompress_spec_ok G Z.q Z.lastFlag chunk Z.outLen (by simpa using hrem) hcap]
  dsimp only
  rw [if_pos (List.length_pos.mpr (G.enc_ne chunk Z.lastFlag hc))]
  dsimp only [specWEnv]
  rw [cwLoop, if_pos (by omega : chunk.length - (0 + chunk.length) = 0)]
  rw [Nat.zero_add]

/-- The full retry loop: doubling the growth eventually satisfies the
engine's need, so a nonempty chunk is fully compressed and written
after at most `k` `ErrBuffer` retries. -/
theorem cwLoop_spec (G : EngineSpec) (chunk : List Byte) (hc : chunk ≠ []) :
    ∀ (k : Nat) (Z : Writer Unit (List Byte)),
      (G.need chunk ≤ chunk.length + Z.growth * 2 ^ k ∨ G.need chunk ≤ Z.outLen) →
      (Z.p.inputBufferMode = .last → Z.lastFlag = true) →
      ∃ g o, Z.growth ≤ g ∧
        cwLoop (specWEnv G) chunk (k + 1 + 1 + 1) Z 0 =
          some ({ Z with
            q := ()
            wroteHeader := true
            perf := bumpBytes chunk.length (G.enc chunk Z.lastFlag).length Z.perf
            growth := g
            outLen := o
            w := Z.w ++ G.enc chunk Z.lastFlag }, chunk.length, none) := by
  have hrem : ¬ chunk.length - 0 = 0 := by
    simpa using fun h => hc (List.length_eq_zero.mp h)
  intro k
  induction k with
  | zero =>
    intro Z hb hl
    by_cases hcap : Z.outLen < G.need chunk
    · -- one retry, then success
      have hb1 : G.need chunk ≤ chunk.length + Z.growth := by
        rcases hb with hb | hb
        · simpa using hb
        · omega
      have hfix : (if Z.p.inputBufferMode = .last then { Z with lastFlag := true } else Z)
          = Z := by
        split
        · next hm => rw [← hl hm]
        · rfl
      rw [cwLoop, if_neg hrem]
      dsimp only
      rw [hfix, List.drop_zero]
      rw [qzCompress_spec_buf G Z.q Z.lastFlag chunk Z.outLen (by simpa using hrem) hcap]
      dsimp only
      refine ⟨Z.growth * 2, chunk.length - 0 + Z.growth * 2, by omega, ?_⟩
      rw [cwLoop_ok G chunk hc 0
        ({ Z with
          growth := Z.growth * 2
          outLen := chunk.length - 0 + Z.growth * 2 })
        (by dsimp only; omega) (by dsimp only; exact hl)]
    · refine ⟨Z.growth, Z.outLen, le_refl _, ?_⟩
      rw [cwLoop_ok G chunk hc 1 Z hcap hl]
  | succ j ih =>
    intro Z hb hl
    by_cases hcap : Z.outLen < G.need chunk
    · have hb1 : G.need chunk ≤ chunk.length + Z.growth * 2 ^ (j + 1) := by
        rcases hb with hb | hb
        · exact hb
        · omega
      have hfix : (if Z.p.inputBufferMode = .last then { Z with lastFlag := true } else Z)
          = Z := by
        split
        · next hm => rw [← hl hm]
        · rfl
      rw [cwLoop, if_neg hrem]
      dsimp only
      rw [hfix, List.drop_zero]
      rw [qzCompress_spec_buf G Z.q Z.lastFlag chunk Z.outLen (by simpa using hrem) hcap]
      dsimp only
      have hb2 : G.need chunk ≤ chunk.length +
          ({ Z with
            growth := Z.growth * 2
            outLen := chunk.length - 0 + Z.growth * 2 } : Writer Unit (List Byte)).growth
            * 2 ^ j ∨
          G.need chunk ≤ ({ Z with
            growth := Z.growth * 2
            outLen := chunk.length - 0 + Z.growth * 2 } : Writer Unit (List Byte)).outLen := by
        left
        dsimp only
        have : Z.growth * 2 * 2 ^ j = Z.growth * 2 ^ (j + 1) := by ring
        omega
      obtain ⟨g, o, hg, hrun⟩ := ih
        ({ Z with
          growth := Z.growth * 2
          outLen := chunk.length - 0 + Z.growth * 2 })
        hb2 (by dsimp only; exact hl)
      refine ⟨g, o, ?_, hrun⟩
      dsimp only at hg
      omega
    · refine ⟨Z.growth, Z.outLen, le_refl _, ?_⟩
      rw [cwLoop_ok G chunk hc (j + 2) Z hcap hl]

/-- `compressWrite` on a nonempty chunk: success with the whole chunk
consumed, the frame appended to the sink, and the last-flag set
according to the `Last` input-buffer-mode policy. -/
theorem compressWrite_spec (G : EngineSpec) (chunk : List Byte) (hc : chunk ≠ [])
    (k : Nat) (Z : Writer Unit (List Byte)) (he : Z.err = none)
    (hb : G.need chunk ≤ chunk.length + Z.growth * 2 ^ k ∨ G.need chunk ≤ Z.outLen) :
    ∃ g o, Z.growth ≤ g ∧
      Writer.compressWrite (specWEnv G) (k + 1 + 1 + 1) Z chunk =
        some ({ Z with
          q := ()
          wroteHeader := true
          lastFlag := if Z.p.inputBufferMode = .last then true else Z.lastFlag
          perf := bumpBytes chunk.length
            (G.enc chunk (if Z.p.inputBufferMode = .last then true else Z.lastFlag)).length
            Z.perf
          growth := g
          outLen := o
          w := Z.w ++ G.enc chunk
            (if Z.p.inputBufferMode = .last then true else Z.lastFlag) },
          chunk.length, none) := by
  have hrem : ¬ chunk.length - 0 = 0 := by
    simpa using fun h => hc (List.length_eq_zero.mp h)
  by_cases hm : Z.p.inputBufferMode = .last
  · simp only [if_pos hm]
    obtain ⟨g, o, hg, hrun⟩ := cwLoop_spec G chunk hc k ({ Z with lastFlag := true })
      (by exact hb) (fun _ => rfl)
    refine ⟨g, o, hg, ?_⟩
    rw [Writer.compressWrite, if_neg (by simp [he])]
    rw [cwLoop_last_norm (specWEnv G) chunk (k + 1 + 1) 0 Z hrem]
    simp only [if_pos hm]
    rw [hrun]
    dsimp only
    rw [if_pos rfl]
  · simp only [if_neg hm]
    obtain ⟨g, o, hg, hrun⟩ := cwLoop_spec G chunk hc k Z (by exact hb)
      (fun hcon => absurd hcon hm)
    refine ⟨g, o, hg, ?_⟩
    rw [Writer.compressWrite, if_neg (by simp [he])]
    rw [hrun]
    dsimp only
    rw [if_pos rfl]

/-- `compressWrite` on an empty input consumes nothing and calls
nothing. -/
theorem compressWrite_nil (E : WEnv σ τ) (f : Nat) (z : Writer σ τ) (he : z.err = none) :
    Writer.compressWrite E (f + 1) z [] = some (z, 0, none) := by
  rw [Writer.compressWrite, if_neg (by simp [he])]
  rw [cwLoop, if_pos (by simp)]
  dsimp only
  rw [if_pos rfl]

/-- Flushing an empty bounce buffer only truncates it. -/
theorem flushBounce_nil (E : WEnv σ τ) (f : Nat) (z : Writer σ τ) (hb : z.bounceBuf = []) :
    Writer.flushBounceBuffer E f z = some ({ z with bounceBuf := [] }, none) := by
  rw [Writer.flushBounceBuffer, if_neg (by simp [hb])]

/-- Flushing a nonempty bounce buffer compresses it fully and empties
it. -/
theorem flushBounce_spec (G : EngineSpec) (k : Nat) (Z : Writer Unit (List Byte))
    (hc : Z.bounceBuf ≠ []) (he : Z.err = none)
    (hb : G.need Z.bounceBuf ≤ Z.bounceBuf.length + Z.growth * 2 ^ k ∨
      G.need Z.bounceBuf ≤ Z.outLen) :
    ∃ g o, Z.growth ≤ g ∧
      Writer.flushBounceBuffer (specWEnv G) (k + 1 + 1 + 1) Z =
        some ({ Z with
          q := ()
          wroteHeader := true
          lastFlag := if Z.p.inputBufferMode = .last then true else Z.lastFlag
          perf := bumpBytes Z.bounceBuf.length
            (G.enc Z.bounceBuf (if Z.p.inputBufferMode = .last then true else Z.lastFlag)).length
            Z.perf
          growth := g
          outLen := o
          bounceBuf := []
          w := Z.w ++ G.enc Z.bounceBuf
            (if Z.p.inputBufferMode = .last then true else Z.lastFlag) }, none) := by
  obtain ⟨g, o, hg, hrun⟩ := compressWrite_spec G Z.bounceBuf hc k Z he hb
  refine ⟨g, o, hg, ?_⟩
  rw [Writer.flushBounceBuffer, if_pos (List.length_pos.mpr hc), hrun]
  dsimp only
  rw [if_neg (by simp), if_neg (by omega)]

/-- `Close`'s tail with an empty bounce buffer: mark closed, set the
last flag, close the binding cleanly. -/
theorem closeFinish_nilBounce (G : EngineSpec) (f : Nat) (z : Writer Unit (List Byte))
    (hb : z.bounceBuf = []) :
    Writer.closeFinish (specWEnv G) f z =
      some ({ z with closed := true, lastFlag := true, bounceBuf := [], err := none, q := () },
        none) := by
  rw [Writer.closeFinish]
  dsimp only
  rw [flushBounce_nil (specWEnv G) f _ (by simpa using hb)]
  dsimp only
  rw [if_neg (by simp)]
  rfl

/-- `Close`'s tail with a nonempty bounce buffer: the held bytes are
compressed with the last flag set and appended to the sink. -/
theorem closeFinish_spec (G : EngineSpec) (k : Nat) (z : Writer Unit (List Byte))
    (hc : z.bounceBuf ≠ []) (he : z.err = none)
    (hb : G.need z.bounceBuf ≤ z.bounceBuf.length + z.growth * 2 ^ k ∨
      G.need z.bounceBuf ≤ z.outLen) :
    ∃ g o,
      Writer.closeFinish (specWEnv G) (k + 1 + 1 + 1) z =
        some ({ z with
          closed := true
          lastFlag := true
          q := ()
          wroteHeader := true
          perf := bumpBytes z.bounceBuf.length (G.enc z.bounceBuf true).length z.perf
          growth := g
          outLen := o
          bounceBuf := []
          err := none
          w := z.w ++ G.enc z.bounceBuf true }, none) := by
  obtain ⟨g, o, hg, hrun⟩ := flushBounce_spec G k ({ z with closed := true, lastFlag := true })
    (by simpa using hc) (by simpa using he) (by simpa using hb)
  refine ⟨g, o, ?_⟩
  rw [Writer.closeFinish]
  dsimp only
  rw [hrun]
  dsimp only
  rw [if_neg (by simp)]
  dsimp only [specWEnv]
  split
  · next hm => rfl
  · rfl

/-- `Close` with held bounced bytes: the placeholder branch is skipped
and the bytes are flushed as a final frame. -/
theorem close_spec (G : EngineSpec) (k : Nat) (z : Writer Unit (List Byte))
    (hcl : z.closed = false) (he : z.err = none) (hc : z.bounceBuf ≠ [])
    (hb : G.need z.bounceBuf ≤ z.bounceBuf.length + z.growth * 2 ^ k ∨
      G.need z.bounceBuf ≤ z.outLen) :
    ∃ g o,
      Writer.close (specWEnv G) (k + 1 + 1 + 1) z =
        some ({ z with
          closed := true
          lastFlag := true
          q := ()
          wroteHeader := true
          perf := bumpBytes z.bounceBuf.length (G.enc z.bounceBuf true).length z.perf
          growth := g
          outLen := o
          bounceBuf := []
          err := none
          w := z.w ++ G.enc z.bounceBuf true }, none) := by
  obtain ⟨g, o, hrun⟩ := closeFinish_spec G k z hc he hb
  refine ⟨g, o, ?_⟩
  rw [Writer.close, if_neg (by simp [hcl]), if_neg (by simp [he])]
  dsimp only
  rw [if_neg (show ¬(¬z.wroteHeader = true ∧ z.perfBytesIn = 0 ∧ z.bounceBuf.length = 0) from
    fun hcon => hc (List.length_eq_zero.mp hcon.2.2))]
  rw [if_neg (by simp [he]), hrun]

/-- `Close` on a session that compressed data and holds nothing: no
placeholder, no frame, clean close. -/
theorem close_done (G : EngineSpec) (f : Nat) (z : Writer Unit (List Byte))
    (hcl : z.closed = false) (he : z.err = none)
    (hw : z.wroteHeader = true) (hb : z.bounceBuf = []) :
    Writer.close (specWEnv G) f z =
      some ({ z with closed := true, lastFlag := true, bounceBuf := [], err := none, q := () },
        none) := by
  rw [Writer.close, if_neg (by simp [hcl]), if_neg (by simp [he])]
  dsimp only
  rw [if_neg (show ¬(¬z.wroteHeader = true ∧ z.perfBytesIn = 0 ∧ z.bounceBuf.length = 0) from
    fun hcon => absurd hw (by simpa using hcon.1))]
  rw [if_neg (by simp [he])]
  exact closeFinish_nilBounce G f z hb

/-- `Close` on a session that never produced bytes: the empty-payload
placeholder for the configured algorithm is written to the sink, then
the writer closes cleanly. -/
theorem close_placeholder (G : EngineSpec) (f : Nat) (z : Writer Unit (List Byte))
    (hcl : z.closed = false) (he : z.err = none) (hb : z.bounceBuf = [])
    (hw : z.wroteHeader = false) (hp : z.perfBytesIn = 0) :
    Writer.close (specWEnv G) f z =
      some ({ z with
        closed := true
        lastFlag := true
        wroteHeader := true
        bounceBuf := []
        err := none
        q := ()
        w := z.w ++ emptyBufferBytes z.p.algorithm z.p.level }, none) := by
  rw [Writer.close, if_neg (by simp [hcl]), if_neg (by simp [he])]
  dsimp only
  rw [if_pos (show ¬z.wroteHeader = true ∧ z.perfBytesIn = 0 ∧ z.bounceBuf.length = 0 from
    ⟨by simp [hw], hp, by simp [hb]⟩)]
  rw [Writer.writeEmptyBuffer]
  dsimp only
  rw [show (specWEnv G).swrite z.w (emptyBufferBytes z.p.algorithm z.p.level) =
      (z.w ++ emptyBufferBytes z.p.algorithm z.p.level,
        (emptyBufferBytes z.p.algorithm z.p.level).length, none) from rfl]
  dsimp only
  rw [if_neg (by simp)]
  rw [closeFinish_nilBounce G f _ (by simpa using hb)]

/-- `Reset` of a still-closed Writer: the close result is discarded and
a fresh open session is installed. -/
theorem reset_fresh (G : EngineSpec) (f : Nat) (z : Writer Unit (List Byte))
    (hcl : z.closed = true) :
    Writer.reset (specWEnv G) f z id =
      some ({ z with
        outLen := z.p.outputBufLength
        closed := false
        err := none
        wroteHeader := false
        growth := z.p.bufferGrowth
        bounceBuf := []
        perf := some zeroPerf
        hasSession := true
        lastFlag := false }, none) := by
  rw [Writer.reset, Writer.close, if_pos hcl]
  dsimp only
  rfl

/-- `Write` on a fresh writer in a holding mode (`Bounce`, or any mode
other than `NoLast` with input no longer than the bounce length): the
whole input is held in the bounce buffer and reported written. -/
theorem write_hold (G : EngineSpec) (f : Nat) (a : Alg) (m : IBMode) (s : List Byte)
    (hm : ¬ m = .noLast) (hsz : m = .bounce ∨ s.length ≤ 512) :
    Writer.write (specWEnv G) f (wInit a m) s =
      some ({ wStart a m with bounceBuf := s }, s.length, none) := by
  rw [Writer.write, if_neg (by rw [show (wInit a m).err = none from rfl]; simp)]
  rw [show (wInit a m).hasSession = false from rfl, if_neg Bool.false_ne_true]
  rw [reset_fresh G f (wInit a m) rfl]
  dsimp only
  rw [if_neg (by simp)]
  rw [flushBounce_nil (specWEnv G) f _ rfl]
  dsimp only
  rw [if_neg (by simp)]
  rw [show (wInit a m).p.inputBufferMode = m from rfl,
    show (wInit a m).p.bounceBufferLength = 512 from rfl]
  rw [if_pos (show m ≠ IBMode.noLast ∧ (m = IBMode.bounce ∨ s.length ≤ 512) from ⟨hm, hsz⟩)]
  rfl

/-- Doubling growth overtakes any engine need within `n` retries. -/
theorem needBound (n L g : Nat) (hg : 1 ≤ g) : n ≤ L + g * 2 ^ n := by
  have h := Nat.lt_two_pow n
  have h2 : 2 ^ n ≤ g * 2 ^ n := Nat.le_mul_of_pos_left _ hg
  omega

theorem wStart_eq (a : Alg) (m : IBMode) :
    ({ closed := false, wroteHeader := false, hasSession := true, lastFlag := false,
       err := none, bounceBuf := [], outLen := (wInit a m).p.outputBufLength,
       growth := (wInit a m).p.bufferGrowth, p := (wInit a m).p, perf := some zeroPerf,
       q := (wInit a m).q, w := (wInit a m).w } : Writer Unit (List Byte)) = wStart a m := rfl

/-- `Write` in `NoLast` mode: the whole input is compressed immediately
as a non-final frame. -/
theorem write_noLast (G : EngineSpec) (a : Alg) (s : List Byte) (hs : s ≠ []) :
    ∃ g o, 1 ≤ g ∧
      Writer.write (specWEnv G) (G.need s + 1 + 1 + 1) (wInit a .noLast) s =
        some ({ wStart a IBMode.noLast with
          q := ()
          wroteHeader := true
          lastFlag := false
          perf := bumpBytes s.length (G.enc s false).length (some zeroPerf)
          growth := g
          outLen := o
          w := G.enc s false }, s.length, none) := by
  obtain ⟨g, o, hg, hrun⟩ := compressWrite_spec G s hs (G.need s) (wStart a IBMode.noLast) rfl
    (Or.inl (needBound (G.need s) s.length (wStart a IBMode.noLast).growth
      (by rw [show (wStart a IBMode.noLast).growth = 1024 * 1024 from rfl]; norm_num)))
  refine ⟨g, o, by rw [show (wStart a IBMode.noLast).growth = 1024 * 1024 from rfl] at hg; omega, ?_⟩
  rw [Writer.write, if_neg (by rw [show (wInit a .noLast).err = none from rfl]; simp)]
  rw [show (wInit a .noLast).hasSession = false from rfl, if_neg Bool.false_ne_true]
  rw [reset_fresh G (G.need s + 1 + 1 + 1) (wInit a .noLast) rfl]
  dsimp only
  rw [if_neg (by simp)]
  rw [flushBounce_nil (specWEnv G) (G.need s + 1 + 1 + 1) _ rfl]
  dsimp only
  rw [if_neg (by simp)]
  rw [show (wInit a .noLast).p.inputBufferMode = IBMode.noLast from rfl]
  rw [if_neg (by simp)]
  simp only [if_neg (show ¬ (IBMode.noLast = IBMode.reserve) from by decide)]
  rw [wStart_eq, hrun]
  dsimp only
  rw [show (wStart a IBMode.noLast).p.inputBufferMode = IBMode.noLast from rfl]
  simp only [if_neg (show ¬ (IBMode.noLast = IBMode.last) from by decide)]
  rw [show (wStart a IBMode.noLast).w = ([] : List Byte) from rfl, List.nil_append,
    Nat.add_zero]
  rfl

/-- `Write` of an empty slice in `NoLast` mode: nothing to compress. -/
theorem write_noLast_nil (G : EngineSpec) (f : Nat) (a : Alg) :
    Writer.write (specWEnv G) (f + 1) (wInit a .noLast) [] =
      some (wStart a IBMode.noLast, 0, none) := by
  rw [Writer.write, if_neg (by rw [show (wInit a .noLast).err = none from rfl]; simp)]
  rw [show (wInit a .noLast).hasSession = false from rfl, if_neg Bool.false_ne_true]
  rw [reset_fresh G (f + 1) (wInit a .noLast) rfl]
  dsimp only
  rw [if_neg (by simp)]
  rw [flushBounce_nil (specWEnv G) (f + 1) _ rfl]
  dsimp only
  rw [if_neg (by simp)]
  rw [show (wInit a .noLast).p.inputBufferMode = IBMode.noLast from rfl]
  rw [if_neg (by simp)]
  simp only [if_neg (show ¬ (IBMode.noLast = IBMode.reserve) from by decide)]
  rw [wStart_eq]
  rw [compressWrite_nil (specWEnv G) f (wStart a IBMode.noLast) rfl]

/-- `Write` in `Last` mode of an input longer than the bounce buffer:
the whole input is compressed immediately with the last flag set. -/
theorem write_last (G : EngineSpec) (a : Alg) (s : List Byte) (hs : s ≠ [])
    (hsz : ¬ s.length ≤ 512) :
    ∃ g o, 1 ≤ g ∧
      Writer.write (specWEnv G) (G.need s + 1 + 1 + 1) (wInit a .last) s =
        some ({ wStart a IBMode.last with
          q := ()
          wroteHeader := true
          lastFlag := true
          perf := bumpBytes s.length (G.enc s true).length (some zeroPerf)
          growth := g
          outLen := o
          w := G.enc s true }, s.length, none) := by
  obtain ⟨g, o, hg, hrun⟩ := compressWrite_spec G s hs (G.need s) (wStart a IBMode.last) rfl
    (Or.inl (needBound (G.need s) s.length (wStart a IBMode.last).growth
      (by rw [show (wStart a IBMode.last).growth = 1024 * 1024 from rfl]; norm_num)))
  refine ⟨g, o, by rw [show (wStart a IBMode.last).growth = 1024 * 1024 from rfl] at hg; omega, ?_⟩
  rw [Writer.write, if_neg (by rw [show (wInit a .last).err = none from rfl]; simp)]
  rw [show (wInit a .last).hasSession = false from rfl, if_neg Bool.false_ne_true]
  rw [reset_fresh G (G.need s + 1 + 1 + 1) (wInit a .last) rfl]
  dsimp only
  rw [if_neg (by simp)]
  rw [flushBounce_nil (specWEnv G) (G.need s + 1 + 1 + 1) _ rfl]
  dsimp only
  rw [if_neg (by simp)]
  rw [show (wInit a .last).p.inputBufferMode = IBMode.last from rfl,
    show (wInit a .last).p.bounceBufferLength = 512 from rfl]
  rw [if_neg (by
    intro hcon
    rcases hcon.2 with h | h
    · exact absurd h (by decide)
    · exact hsz h)]
  simp only [if_neg (show ¬ (IBMode.last = IBMode.reserve) from by decide)]
  rw [wStart_eq, hrun]
  dsimp only
  rw [show (wStart a IBMode.last).p.inputBufferMode = IBMode.last from rfl]
  simp only [if_pos (show IBMode.last = IBMode.last from rfl)]
  rw [show (wStart a IBMode.last).w = ([] : List Byte) from rfl, List.nil_append,
    Nat.add_zero]
  rfl

theorem wStartR_eq (a : Alg) (bb : List Byte) :
    ({ closed := false, wroteHeader := false, hasSession := true, lastFlag := false,
       err := none, bounceBuf := bb, outLen := (wInit a .reserve).p.outputBufLength,
       growth := (wInit a .reserve).p.bufferGrowth, p := (wInit a .reserve).p,
       perf := some zeroPerf, q := (wInit a .reserve).q,
       w := (wInit a .reserve).w } : Writer Unit (List Byte)) =
    { wStart a IBMode.reserve with bounceBuf := bb } := rfl

/-- `Write` in `Reserve` mode of an input longer than the bounce
buffer: hold the 512-byte tail, compress the prefix as a non-final
frame, report the whole input written. -/
theorem write_reserve (G : EngineSpec) (a : Alg) (s : List Byte)
    (hsz : ¬ s.length ≤ 512) :
    ∃ g o, 1 ≤ g ∧
      Writer.write (specWEnv G) (G.need (s.take (s.length - 512)) + 1 + 1 + 1)
          (wInit a .reserve) s =
        some ({ wStart a IBMode.reserve with
          q := ()
          wroteHeader := true
          lastFlag := false
          bounceBuf := s.drop (s.length - 512)
          perf := bumpBytes (s.take (s.length - 512)).length
            (G.enc (s.take (s.length - 512)) false).length (some zeroPerf)
          growth := g
          outLen := o
          w := G.enc (s.take (s.length - 512)) false }, s.length, none) := by
  have hbne : s.take (s.length - 512) ≠ [] := by
    intro hcon
    have := congrArg List.length hcon
    simp [List.length_take] at this
    omega
  obtain ⟨g, o, hg, hrun⟩ := compressWrite_spec G (s.take (s.length - 512)) hbne
    (G.need (s.take (s.length - 512)))
    ({ wStart a IBMode.reserve with bounceBuf := List.drop (s.length - 512) s }) rfl
    (Or.inl (needBound _ _
      ({ wStart a IBMode.reserve with
        bounceBuf := List.drop (s.length - 512) s } : Writer Unit (List Byte)).growth
      (by rw [show ({ wStart a IBMode.reserve with
        bounceBuf := List.drop (s.length - 512) s } : Writer Unit (List Byte)).growth
          = 1024 * 1024 from rfl]
          norm_num)))
  refine ⟨g, o, by
    rw [show ({ wStart a IBMode.reserve with
      bounceBuf := List.drop (s.length - 512) s } : Writer Unit (List Byte)).growth
        = 1024 * 1024 from rfl] at hg
    omega, ?_⟩
  rw [Writer.write, if_neg (by rw [show (wInit a .reserve).err = none from rfl]; simp)]
  rw [show (wInit a .reserve).hasSession = false from rfl, if_neg Bool.false_ne_true]
  rw [reset_fresh G (G.need (s.take (s.length - 512)) + 1 + 1 + 1) (wInit a .reserve) rfl]
  dsimp only
  rw [if_neg (by simp)]
  rw [flushBounce_nil (specWEnv G) (G.need (s.take (s.length - 512)) + 1 + 1 + 1) _ rfl]
  dsimp only
  rw [if_neg (by simp)]
  rw [show (wInit a .reserve).p.inputBufferMode = IBMode.reserve from rfl,
    show (wInit a .reserve).p.bounceBufferLength = 512 from rfl]
  rw [if_neg (by
    intro hcon
    rcases hcon.2 with h | h
    · exact absurd h (by decide)
    · exact hsz h)]
  simp only [if_pos (show IBMode.reserve = IBMode.reserve from rfl), if_true]
  rw [wStartR_eq]
  rw [hrun]
  dsimp only
  rw [show ({ wStart a IBMode.reserve with
    bounceBuf := List.drop (s.length - 512) s } : Writer Unit (List Byte)).p.inputBufferMode
      = IBMode.reserve from rfl]
  simp only [if_neg (show ¬ (IBMode.reserve = IBMode.last) from by decide)]
  rw [show ({ wStart a IBMode.reserve with
    bounceBuf := List.drop (s.length - 512) s } : Writer Unit (List Byte)).w
      = ([] : List Byte) from rfl, List.nil_append]
  rw [show (s.take (s.length - 512)).length + (s.drop (s.length - 512)).length = s.length
    from by rw [← List.length_append, List.take_append_drop]]
  rfl

/-- Spec-engine decompression parses the first frame when the output
buffer is large enough. -/
theorem qzDecompress_spec_dec (G : EngineSpec) (u : Unit) (inp : List Byte) (cap : Nat)
    (c : List Byte) (k : Nat)
    (hinp : ¬ inp.length = 0)
    (hdec : G.dec inp = some (c, k)) (hcap : ¬ cap < c.length) :
    qzDecompress (specREnv G) u inp cap = ((), k, c, none) := by
  rw [qzDecompress, if_neg hinp]
  dsimp only [specREnv]
  rw [hdec]
  dsimp only
  rw [if_neg hcap]

/-- Spec-engine decompression reports `InsufficientBuffer` while the
output buffer is smaller than the decoded chunk. -/
theorem qzDecompress_spec_buf (G : EngineSpec) (u : Unit) (inp : List Byte) (cap : Nat)
    (c : List Byte) (k : Nat)
    (hinp : ¬ inp.length = 0)
    (hdec : G.dec inp = some (c, k)) (hcap : cap < c.length) :
    qzDecompress (specREnv G) u inp cap = ((), 0, [], some QErr.buffer) := by
  rw [qzDecompress, if_neg hinp]
  dsimp only [specREnv]
  rw [hdec]
  dsimp only
  rw [if_pos hcap]

/-- `pullGrow` only ever changes the input-buffer length. -/
theorem pullGrow_shape {σ τ : Type} (z : Reader σ τ) :
    pullGrow z = { z with inputLen := (pullGrow z).inputLen } := by
  unfold pullGrow
  split <;> rfl

/-- The transfer loop over a `bytes.Buffer` upstream drains it
completely (growing the input buffer as needed) and then sets
`streamDone` on the terminating `io.EOF`. -/
theorem pullLoop_spec (G : EngineSpec) :
    ∀ (fuel : Nat) (t : List Byte) (z : Reader Unit (List Byte)),
      z.r = t → z.streamDone = false → z.inputRead < z.inputLen →
      t.length + 2 ≤ fuel →
      ∃ len1, pullLoop (specREnv G) fuel z =
        some ({ z with
          streamDone := true
          inputLen := len1
          inputRead := z.inputRead + t.length
          inputData := z.inputData ++ t
          r := [] }, none) ∧ z.inputRead + t.length < len1 := by
  intro fuel
  induction fuel with
  | zero => intro t z _ _ _ hf; omega
  | succ f ih =>
    intro t z hr hsd hlt hf
    rcases t with _ | ⟨b, t'⟩
    · -- upstream exhausted: EOF
      have hu : (specREnv G).uread z.r (z.inputLen - z.inputRead) =
          (([] : List Byte), ([] : List Byte), some QErr.eof) := by
        rw [hr]
        dsimp only [specREnv]
        rw [if_pos (by simp)]
      rw [pullLoop_eof (specREnv G) f z [] [] hsd hu]
      rw [pullGrow_ne _ (by
        dsimp only
        simp only [List.length_nil]
        omega)]
      obtain ⟨f', rfl⟩ : ∃ f', f = f' + 1 := ⟨f - 1, by omega⟩
      rw [pullLoop_done (specREnv G) f' _ rfl]
      refine ⟨z.inputLen, ?_, by simpa using hlt⟩
      simp only [List.append_nil, List.length_nil, Nat.add_zero]
    · -- a chunk is available
      have hne : ¬ (b :: t').length = 0 := by simp
      have hu : (specREnv G).uread z.r (z.inputLen - z.inputRead) =
          ((b :: t').drop (z.inputLen - z.inputRead),
            (b :: t').take (z.inputLen - z.inputRead), none) := by
        rw [hr]
        dsimp only [specREnv]
        rw [if_neg hne]
      rw [pullLoop_chunk (specREnv G) f z _ _ hsd hu]
      rw [pullGrow_shape]
      have hsp : 0 < z.inputLen - z.inputRead := by omega
      have htk : ((b :: t').take (z.inputLen - z.inputRead)).length =
          min (z.inputLen - z.inputRead) (b :: t').length := List.length_take _ _
      obtain ⟨len1, hrun, hbnd⟩ := ih ((b :: t').drop (z.inputLen - z.inputRead))
        ({ { z with
            r := (b :: t').drop (z.inputLen - z.inputRead)
            inputData := z.inputData ++ (b :: t').take (z.inputLen - z.inputRead)
            inputRead := z.inputRead + ((b :: t').take (z.inputLen - z.inputRead)).length }
          with inputLen := (pullGrow { z with
            r := (b :: t').drop (z.inputLen - z.inputRead)
            inputData := z.inputData ++ (b :: t').take (z.inputLen - z.inputRead)
            inputRead := z.inputRead + ((b :: t').take (z.inputLen - z.inputRead)).length
            }).inputLen })
        rfl hsd
        (by
          dsimp only
          rw [pullGrow]
          split
          · next hg =>
            dsimp only
            dsimp only at hg
            omega
          · next hg =>
            dsimp only
            dsimp only at hg
            omega)
        (by
          simp only [List.length_drop]
          omega)
      rw [hrun]
      refine ⟨len1, ?_, ?_⟩
      · dsimp only
        simp only [Option.some.injEq, Prod.mk.injEq, Reader.mk.injEq, eq_self_iff_true,
          true_and, and_true]
        constructor
        · simp only [List.length_take, List.length_drop]
          omega
        · simp only [List.append_assoc, List.take_append_drop]
      · simp only [List.length_take, List.length_drop] at hbnd
        omega

/-- One `Reader.Read` loop iteration with pending input whose
decompress call succeeds. -/
theorem readIter_nopull_ok (E : REnv σ τ) (pf pLen : Nat) (z : Reader σ τ)
    (produced : Nat) (acc : List Byte) (s1 : σ) (inN : Nat) (outB : List Byte)
    (hp : ¬ pLen - produced = 0)
    (ho : ¬ 0 < z.outLeft)
    (hlt : ¬ z.inputRead < z.inputOfs)
    (hgap : ¬ z.inputRead - z.inputOfs = 0)
    (hd : qzDecompress E z.q (z.inputData.drop z.inputOfs) z.outLen =
      (s1, inN, outB, none)) :
    readIter E pf pLen z produced acc =
      some (.next { z with
        q := s1
        perf := bumpBytes inN outB.length z.perf
        inputOfs := z.inputOfs + inN
        outOfs := 0
        outLeft := outB.length
        window := outB } produced acc) := by
  rw [readIter, if_neg hp, if_neg ho, if_neg hlt]
  dsimp only
  rw [if_neg hgap, if_neg (by simp [hgap])]
  dsimp only
  rw [hd]

/-- One `Reader.Read` loop iteration at an exhausted stream with an
empty window: deliver what was produced and report `io.EOF`. -/
theorem readIter_eof (E : REnv σ τ) (pf pLen : Nat) (z : Reader σ τ)
    (produced : Nat) (acc : List Byte)
    (hp : ¬ pLen - produced = 0)
    (ho : ¬ 0 < z.outLeft)
    (hlt : ¬ z.inputRead < z.inputOfs)
    (hgap : z.inputRead - z.inputOfs = 0)
    (hsd : z.streamDone = true) :
    readIter E pf pLen z produced acc = some (.done z produced acc (some QErr.eof)) := by
  rw [readIter, if_neg hp, if_neg ho, if_neg hlt]
  dsimp only
  rw [if_pos (⟨hgap, hsd⟩ : z.inputRead - z.inputOfs = 0 ∧ z.streamDone = true)]

/-- Consuming one frame: decompress the leading frame of the pending
input, then drain the resulting window fully into the caller's buffer
(two loop iterations, no buffer growth needed). -/
theorem readFrameStep (G : EngineSpec) (pf pLen : Nat) (z : Reader Unit (List Byte))
    (produced : Nat) (acc : List Byte) (c : List Byte) (l : Bool) (rest : List Byte)
    (f : Nat)
    (hc : c ≠ [])
    (hstream : z.inputData.drop z.inputOfs = G.enc c l ++ rest)
    (hir : z.inputRead = z.inputData.length)
    (hofs : z.inputOfs ≤ z.inputData.length)
    (ho : z.outLeft = 0)
    (hcap : ¬ z.outLen < c.length)
    (hp : produced + c.length < pLen) :
    readLoop (specREnv G) pf pLen (f + 1 + 1) z produced acc =
      readLoop (specREnv G) pf pLen f
        { z with
          q := ()
          perf := bumpBytes (G.enc c l).length c.length z.perf
          inputOfs := z.inputOfs + (G.enc c l).length
          outOfs := c.length
          outLeft := 0
          window := c } (produced + c.length) (acc ++ c) := by
  have henc : G.enc c l ≠ [] := G.enc_ne c l hc
  have hinp : ¬ (z.inputData.drop z.inputOfs).length = 0 := by
    rw [hstream]
    simp only [List.length_append]
    intro hcon
    exact henc (List.length_eq_zero.mp (by omega))
  have hdl : (z.inputData.drop z.inputOfs).length = z.inputData.length - z.inputOfs :=
    List.length_drop _ _
  have hgap : ¬ z.inputRead - z.inputOfs = 0 := by
    rw [hir]
    omega
  have hd : qzDecompress (specREnv G) z.q (z.inputData.drop z.inputOfs) z.outLen =
      ((), (G.enc c l).length, c, none) := by
    refine qzDecompress_spec_dec G z.q _ _ c (G.enc c l).length hinp ?_ hcap
    rw [hstream]
    exact G.dec_enc c l rest hc
  rw [readLoop_next (specREnv G) pf pLen (f + 1) z _ produced produced acc acc
    (readIter_nopull_ok (specREnv G) pf pLen z produced acc () (G.enc c l).length c
      (by omega) (by simp [ho]) (by omega) hgap hd)]
  rw [readLoop_next (specREnv G) pf pLen f _ _ produced _ acc _
    (readIter_drain (specREnv G) pf pLen _ produced acc (by omega)
      (by dsimp only; exact List.length_pos.mpr hc))]
  dsimp only
  rw [min_eq_right (by omega : c.length ≤ pLen - produced)]
  rw [Nat.zero_add, Nat.sub_self, List.drop_zero, List.take_length]

/-- `Reader.Read`'s main loop consumes a fully pulled multi-frame
stream frame by frame (with at most one `ErrBuffer` retry per frame)
and finally reports `io.EOF` with the concatenated payload. -/
theorem readLoop_frames (G : EngineSpec) (pf pLen : Nat) :
    ∀ (fr : List (List Byte × Bool)) (fuel : Nat) (z : Reader Unit (List Byte))
      (produced : Nat) (acc : List Byte),
      (∀ p ∈ fr, p.1 ≠ []) →
      z.inputData.drop z.inputOfs = frameBytes G fr →
      z.inputRead = z.inputData.length →
      z.inputOfs ≤ z.inputData.length →
      z.streamDone = true →
      z.outLeft = 0 →
      produced + (chunksBytes fr).length < pLen →
      3 * fr.length + 1 ≤ fuel →
      ∃ zf, readLoop (specREnv G) pf pLen fuel z produced acc =
        some (zf, produced + (chunksBytes fr).length, acc ++ chunksBytes fr,
          some QErr.eof) := by
  intro fr
  induction fr with
  | nil =>
    intro fuel z produced acc _ hstream hir hofs hsd ho hp hfuel
    obtain ⟨f, rfl⟩ : ∃ f, fuel = f + 1 := ⟨fuel - 1, by omega⟩
    have hnil : z.inputData.length ≤ z.inputOfs := by
      rw [← List.drop_eq_nil_iff_le]
      rw [hstream]
      rfl
    refine ⟨z, ?_⟩
    rw [readLoop_done (specREnv G) pf pLen f z z produced produced acc acc (some QErr.eof)
      (readIter_eof (specREnv G) pf pLen z produced acc
        (by
          rw [show (chunksBytes []).length = 0 from rfl] at hp
          omega)
        (by simp [ho]) (by omega) (by omega) hsd)]
    rw [show chunksBytes [] = ([] : List Byte) from rfl, List.append_nil,
      List.length_nil, Nat.add_zero]
  | cons p fr ih =>
    obtain ⟨c, l⟩ := p
    intro fuel z produced acc hfr hstream hir hofs hsd ho hp hfuel
    have hc : c ≠ [] := hfr (c, l) (by simp)
    have henc : G.enc c l ≠ [] := G.enc_ne c l hc
    have hfl : ((c, l) :: fr).length = fr.length + 1 := rfl
    have hchunks : chunksBytes ((c, l) :: fr) = c ++ chunksBytes fr := rfl
    have hcl : (chunksBytes ((c, l) :: fr)).length = c.length + (chunksBytes fr).length := by
      rw [hchunks, List.length_append]
    have hdl : (z.inputData.drop z.inputOfs).length = z.inputData.length - z.inputOfs :=
      List.length_drop _ _
    have hfb : z.inputData.drop z.inputOfs = G.enc c l ++ frameBytes G fr := by
      rw [hstream]; rfl
    have hofs2 : z.inputOfs + (G.enc c l).length ≤ z.inputData.length := by
      have := congrArg List.length hfb
      rw [List.length_append] at this
      omega
    have hstream2 : ∀ (z1 : Reader Unit (List Byte)),
        z1.inputData = z.inputData → z1.inputOfs = z.inputOfs + (G.enc c l).length →
        z1.inputData.drop z1.inputOfs = frameBytes G fr := by
      intro z1 hd1 ho1
      rw [hd1, ho1, ← List.drop_drop, hfb, List.drop_left]
    by_cases hcap : z.outLen < c.length
    · -- one ErrBuffer retry reallocating the output buffer, then the frame
      obtain ⟨f, rfl⟩ : ∃ f, fuel = f + 1 + 1 + 1 := ⟨fuel - 3, by omega⟩
      have hinp : ¬ (z.inputData.drop z.inputOfs).length = 0 := by
        rw [hfb]
        simp only [List.length_append]
        intro hcon
        exact henc (List.length_eq_zero.mp (by omega))
      have hd : qzDecompress (specREnv G) z.q (z.inputData.drop z.inputOfs) z.outLen =
          ((), 0, [], some QErr.buffer) := by
        refine qzDecompress_spec_buf G z.q _ _ c (G.enc c l).length hinp ?_ hcap
        rw [hfb]
        exact G.dec_enc c l _ hc
      rw [readLoop_next (specREnv G) pf pLen (f + 1 + 1) z _ produced _ acc _
        (readIter_nopull_buf (specREnv G) pf pLen z produced acc () 0 []
          (by omega) (by simp [ho]) (by omega) (by rw [hir]; omega) hd)]
      rw [readFrameStep G pf pLen
        ({ z with
          q := ()
          growth := z.growth * 2
          outLen := (pLen - produced) + z.growth * 2
          window := ([] : List Byte) })
        produced acc c l (frameBytes G fr) f hc
        (by dsimp only; exact hfb) (by dsimp only; exact hir) (by dsimp only; exact hofs)
        (by dsimp only; exact ho) (by dsimp only; have := hcl; omega)
        (by have := hcl; omega)]
      obtain ⟨zf, hrun⟩ := ih f
        ({ { z with
            q := ()
            growth := z.growth * 2
            outLen := (pLen - produced) + z.growth * 2
            window := ([] : List Byte) } with
          q := ()
          perf := bumpBytes (G.enc c l).length c.length ({ z with
            q := ()
            growth := z.growth * 2
            outLen := (pLen - produced) + z.growth * 2
            window := ([] : List Byte) } : Reader Unit (List Byte)).perf
          inputOfs := z.inputOfs + (G.enc c l).length
          outOfs := c.length
          outLeft := 0
          window := c })
        (produced + c.length) (acc ++ c)
        (fun q hq => hfr q (by simp [hq]))
        (hstream2 _ rfl rfl) hir (by dsimp only; omega) hsd rfl (by have := hcl; omega)
        (by have := hfl; omega)
      refine ⟨zf, ?_⟩
      rw [hrun]
      rw [hcl, List.append_assoc, ← hchunks]
      rw [show produced + c.length + (chunksBytes fr).length =
        produced + (c.length + (chunksBytes fr).length) from by omega]
    · -- the default output buffer is already large enough
      obtain ⟨f, rfl⟩ : ∃ f, fuel = f + 1 + 1 := ⟨fuel - 2, by omega⟩
      rw [readFrameStep G pf pLen z produced acc c l (frameBytes G fr) f hc
        hfb hir hofs ho hcap (by have := hcl; omega)]
      obtain ⟨zf, hrun⟩ := ih f
        ({ z with
          q := ()
          perf := bumpBytes (G.enc c l).length c.length z.perf
          inputOfs := z.inputOfs + (G.enc c l).length
          outOfs := c.length
          outLeft := 0
          window := c })
        (produced + c.length) (acc ++ c)
        (fun q hq => hfr q (by simp [hq]))
        (hstream2 _ rfl rfl) hir (by dsimp only; omega) hsd rfl (by have := hcl; omega)
        (by have := hfl; omega)
      refine ⟨zf, ?_⟩
      rw [hrun]
      rw [hcl, List.append_assoc, ← hchunks]
      rw [show produced + c.length + (chunksBytes fr).length =
        produced + (c.length + (chunksBytes fr).length) from by omega]

theorem rStart_reset (G : EngineSpec) (a : Alg) (m : IBMode) (cs : List Byte) :
    Reader.reset (specREnv G) (rInit a m cs) (rInit a m cs).r =
      (rStart a m cs, none) := rfl

/-- When the transfer loop leaves a state whose pending input is
nonempty, the combined pull-and-decompress iteration coincides with the
iteration of the pulled state. -/
theorem readLoop_pull_switch (E : REnv σ τ) (pf pLen f : Nat) (z z1 : Reader σ τ)
    (produced : Nat) (acc : List Byte)
    (hp : ¬ pLen - produced = 0)
    (ho : ¬ 0 < z.outLeft)
    (hlt : ¬ z.inputRead < z.inputOfs)
    (hgap : z.inputRead - z.inputOfs = 0)
    (hsd : z.streamDone = false)
    (hpl : pullLoop E pf z = some (z1, none))
    (ho1 : ¬ 0 < z1.outLeft)
    (hlt1 : ¬ z1.inputRead < z1.inputOfs)
    (hgap1 : ¬ z1.inputRead - z1.inputOfs = 0) :
    readLoop E pf pLen (f + 1) z produced acc =
      readLoop E pf pLen (f + 1) z1 produced acc := by
  have hiter : readIter E pf pLen z produced acc = readIter E pf pLen z1 produced acc := by
    rw [readIter, if_neg hp, if_neg ho, if_neg hlt]
    dsimp only
    rw [if_pos hgap, if_neg (by simp [hsd]), if_neg (by simp [hsd]), hpl]
    rw [readIter, if_neg hp, if_neg ho1, if_neg hlt1]
    dsimp only
    rw [if_neg hgap1, if_neg (by simp [hgap1])]
  rw [readLoop, readLoop, hiter]

/-- A full `Read` call over a multi-frame stream: auto-reset, drain the
upstream, then consume the frames and report `io.EOF` with the whole
payload. -/
theorem read_frames (G : EngineSpec) (a : Alg) (m : IBMode) (cs : List Byte)
    (fr : List (List Byte × Bool)) (pLen : Nat)
    (hcs : cs = frameBytes G fr) (hne : cs ≠ [])
    (hfr : ∀ p ∈ fr, p.1 ≠ [])
    (hp : (chunksBytes fr).length < pLen) :
    ∃ zf, Reader.read (specREnv G) (3 * fr.length + 1) (cs.length + 1 + 1)
        (rInit a m cs) pLen =
      some (zf, (chunksBytes fr).length, chunksBytes fr, some QErr.eof) := by
  obtain ⟨len1, hpull, hbnd⟩ := pullLoop_spec G (cs.length + 1 + 1) cs (rStart a m cs)
    rfl rfl
    (by
      rw [show (rStart a m cs).inputRead = 0 from rfl,
        show (rStart a m cs).inputLen = 128 * 1024 * 1024 from rfl]
      norm_num)
    (by omega)
  have hlen : cs.length ≠ 0 := fun hcon => hne (List.length_eq_zero.mp hcon)
  rw [read_fresh (specREnv G) (3 * fr.length + 1) (cs.length + 1 + 1) (rInit a m cs)
    (rStart a m cs) pLen rfl rfl (rStart_reset G a m cs)]
  rw [readLoop_pull_switch (specREnv G) (cs.length + 1 + 1) pLen (3 * fr.length)
    (rStart a m cs)
    ({ rStart a m cs with
      streamDone := true
      inputLen := len1
      inputRead := (rStart a m cs).inputRead + cs.length
      inputData := (rStart a m cs).inputData ++ cs
      r := [] })
    0 []
    (by omega)
    (by rw [show (rStart a m cs).outLeft = 0 from rfl]; omega)
    (by rw [show (rStart a m cs).inputRead = 0 from rfl,
      show (rStart a m cs).inputOfs = 0 from rfl]; omega)
    (by rw [show (rStart a m cs).inputRead = 0 from rfl,
      show (rStart a m cs).inputOfs = 0 from rfl])
    rfl hpull
    (by
      dsimp only
      rw [show (rStart a m cs).outLeft = 0 from rfl]
      omega)
    (by
      dsimp only
      rw [show (rStart a m cs).inputRead = 0 from rfl,
        show (rStart a m cs).inputOfs = 0 from rfl]
      omega)
    (by
      dsimp only
      rw [show (rStart a m cs).inputRead = 0 from rfl,
        show (rStart a m cs).inputOfs = 0 from rfl]
      omega)]
  obtain ⟨zf, hrun⟩ := readLoop_frames G (cs.length + 1 + 1) pLen fr (3 * fr.length + 1)
    ({ rStart a m cs with
      streamDone := true
      inputLen := len1
      inputRead := (rStart a m cs).inputRead + cs.length
      inputData := (rStart a m cs).inputData ++ cs
      r := [] })
    0 [] hfr
    (by
      dsimp only
      rw [show (rStart a m cs).inputData = ([] : List Byte) from rfl,
        show (rStart a m cs).inputOfs = 0 from rfl,
        List.nil_append, List.drop_zero]
      exact hcs)
    (by
      dsimp only
      rw [show (rStart a m cs).inputData = ([] : List Byte) from rfl,
        show (rStart a m cs).inputRead = 0 from rfl,
        List.nil_append, Nat.zero_add])
    (by
      dsimp only
      rw [show (rStart a m cs).inputData = ([] : List Byte) from rfl,
        show (rStart a m cs).inputOfs = 0 from rfl]
      omega)
    rfl rfl (by omega) (by omega)
  refine ⟨zf, ?_⟩
  rw [hrun]
  rw [Nat.zero_add, List.nil_append]

/-- A full `Read` call over a stream holding only an empty-payload
placeholder frame: the engine decodes it to zero bytes and the call
reports `io.EOF` with no payload. -/
theorem read_placeholder (G : EngineSpec) (a : Alg) (m : IBMode) (pb : List Byte)
    (pLen : Nat)
    (hne : pb ≠ [])
    (hdec : G.dec pb = some ([], pb.length)) (hp : 0 < pLen) :
    ∃ zf, Reader.read (specREnv G) 2 (pb.length + 1 + 1) (rInit a m pb) pLen =
      some (zf, 0, [], some QErr.eof) := by
  obtain ⟨len1, hpull, hbnd⟩ := pullLoop_spec G (pb.length + 1 + 1) pb (rStart a m pb)
    rfl rfl
    (by
      rw [show (rStart a m pb).inputRead = 0 from rfl,
        show (rStart a m pb).inputLen = 128 * 1024 * 1024 from rfl]
      norm_num)
    (by omega)
  have hlen : pb.length ≠ 0 := fun hcon => hne (List.length_eq_zero.mp hcon)
  rw [read_fresh (specREnv G) 2 (pb.length + 1 + 1) (rInit a m pb)
    (rStart a m pb) pLen rfl rfl (rStart_reset G a m pb)]
  rw [readLoop_pull_switch (specREnv G) (pb.length + 1 + 1) pLen 1
    (rStart a m pb)
    ({ rStart a m pb with
      streamDone := true
      inputLen := len1
      inputRead := (rStart a m pb).inputRead + pb.length
      inputData := (rStart a m pb).inputData ++ pb
      r := [] })
    0 []
    (by omega)
    (by rw [show (rStart a m pb).outLeft = 0 from rfl]; omega)
    (by rw [show (rStart a m pb).inputRead = 0 from rfl,
      show (rStart a m pb).inputOfs = 0 from rfl]; omega)
    (by rw [show (rStart a m pb).inputRead = 0 from rfl,
      show (rStart a m pb).inputOfs = 0 from rfl])
    rfl hpull
    (by
      dsimp only
      rw [show (rStart a m pb).outLeft = 0 from rfl]
      omega)
    (by
      dsimp only
      rw [show (rStart a m pb).inputRead = 0 from rfl,
        show (rStart a m pb).inputOfs = 0 from rfl]
      omega)
    (by
      dsimp only
      rw [show (rStart a m pb).inputRead = 0 from rfl,
        show (rStart a m pb).inputOfs = 0 from rfl]
      omega)]
  have hstream : ({ rStart a m pb with
      streamDone := true
      inputLen := len1
      inputRead := (rStart a m pb).inputRead + pb.length
      inputData := (rStart a m pb).inputData ++ pb
      r := ([] : List Byte) } : Reader Unit (List Byte)).inputData.drop
        ({ rStart a m pb with
          streamDone := true
          inputLen := len1
          inputRead := (rStart a m pb).inputRead + pb.length
          inputData := (rStart a m pb).inputData ++ pb
          r := ([] : List Byte) } : Reader Unit (List Byte)).inputOfs = pb := by
    dsimp only
    rw [show (rStart a m pb).inputData = ([] : List Byte) from rfl,
      show (rStart a m pb).inputOfs = 0 from rfl,
      List.nil_append, List.drop_zero]
  rw [readLoop_next (specREnv G) (pb.length + 1 + 1) pLen 1 _ _ 0 _ [] _
    (readIter_nopull_ok (specREnv G) (pb.length + 1 + 1) pLen _ 0 [] () pb.length []
      (by omega)
      (by
        dsimp only
        rw [show (rStart a m pb).outLeft = 0 from rfl]
        omega)
      (by
        dsimp only
        rw [show (rStart a m pb).inputRead = 0 from rfl,
          show (rStart a m pb).inputOfs = 0 from rfl]
        omega)
      (by
        dsimp only
        rw [show (rStart a m pb).inputRead = 0 from rfl,
          show (rStart a m pb).inputOfs = 0 from rfl]
        omega)
      (by
        rw [hstream]
        exact qzDecompress_spec_dec G _ pb _ [] pb.length
          (by simpa using hlen) hdec (by simp)))]
  rw [readLoop_done (specREnv G) (pb.length + 1 + 1) pLen 0 _ _ 0 0 [] [] (some QErr.eof)
    (readIter_eof (specREnv G) (pb.length + 1 + 1) pLen _ 0 []
      (by omega)
      (by dsimp only; simp)
      (by
        dsimp only
        rw [show (rStart a m pb).inputRead = 0 from rfl,
          show (rStart a m pb).inputOfs = 0 from rfl]
        omega)
      (by
        dsimp only
        rw [show (rStart a m pb).inputRead = 0 from rfl,
          show (rStart a m pb).inputOfs = 0 from rfl]
        omega)
      rfl)]
  exact ⟨_, rfl⟩

/-- C1, counterexample: with the ZSTD algorithm and the empty byte
sequence, `writeEmptyBuffer` discards the result of
`zstd.Compress(buf, buf)` and writes zero bytes, so the Writer emits an
empty stream; reading it back fails with `ErrEmptyBuffer` instead of
delivering the empty sequence with a clean `io.EOF`. -/
theorem C1_roundtrip_counterexample :
    ((Writer.write (specWEnv uCodec) 1 (wInit .zstd .reserve) []).bind
        fun r => (Writer.close (specWEnv uCodec) 1 r.1).map fun cr => (cr.1.w, cr.2)) =
      some (([] : List Byte), none) ∧
    ((Reader.read (specREnv uCodec) 2 2 (rInit .zstd .reserve []) 1).map
        fun r => (r.2.1, r.2.2.1, r.2.2.2)) = some (0, ([] : List Byte), some QErr.emptyBuffer) ∧
    ¬ (some QErr.emptyBuffer = some QErr.eof) := by
  refine ⟨rfl, rfl, by decide⟩

theorem frameBytes_nil (G : EngineSpec) : frameBytes G [] = [] := rfl

theorem frameBytes_cons (G : EngineSpec) (c : List Byte) (l : Bool)
    (fr : List (List Byte × Bool)) :
    frameBytes G ((c, l) :: fr) = G.enc c l ++ frameBytes G fr := rfl

theorem chunksBytes_nil : chunksBytes [] = [] := rfl

theorem chunksBytes_cons (c : List Byte) (l : Bool) (fr : List (List Byte × Bool)) :
    chunksBytes ((c, l) :: fr) = c ++ chunksBytes fr := rfl

theorem frameBytes_one (G : EngineSpec) (c : List Byte) (l : Bool) :
    frameBytes G [(c, l)] = G.enc c l := by
  rw [frameBytes_cons, frameBytes_nil, List.append_nil]

theorem chunksBytes_one (c : List Byte) (l : Bool) : chunksBytes [(c, l)] = c := by
  rw [chunksBytes_cons, chunksBytes_nil, List.append_nil]

theorem frameBytes_append (G : EngineSpec) (f1 f2 : List (List Byte × Bool)) :
    frameBytes G (f1 ++ f2) = frameBytes G f1 ++ frameBytes G f2 := by
  induction f1 with
  | nil => rw [frameBytes_nil, List.nil_append, List.nil_append]
  | cons p f1 ih =>
    obtain ⟨c, l⟩ := p
    rw [List.cons_append, frameBytes_cons, frameBytes_cons, ih, List.append_assoc]

theorem chunksBytes_append (f1 f2 : List (List Byte × Bool)) :
    chunksBytes (f1 ++ f2) = chunksBytes f1 ++ chunksBytes f2 := by
  induction f1 with
  | nil => rw [chunksBytes_nil, List.nil_append, List.nil_append]
  | cons p f1 ih =>
    obtain ⟨c, l⟩ := p
    rw [List.cons_append, chunksBytes_cons, chunksBytes_cons, ih, List.append_assoc]

/-- Close-then-read for an empty payload on a non-ZSTD algorithm: the
placeholder frame round-trips to zero bytes. -/
theorem roundtrip_empty (G : EngineSpec) (a : Alg) (m : IBMode)
    (zw : Writer Unit (List Byte))
    (hcl : zw.closed = false) (he : zw.err = none) (hb : zw.bounceBuf = [])
    (hw : zw.wroteHeader = false) (hperf : zw.perfBytesIn = 0)
    (hww : zw.w = []) (halg : zw.p.algorithm = a) (hlvl : zw.p.level = 1)
    (hpbne : emptyBufferBytes a 1 ≠ [])
    (hpb : G.dec (emptyBufferBytes a 1) = some ([], (emptyBufferBytes a 1).length)) :
    ∃ zc zr,
      Writer.close (specWEnv G) 1 zw = some (zc, none) ∧
      Reader.read (specREnv G) 2 ((emptyBufferBytes a 1).length + 1 + 1)
        (rInit a m zc.w) 1 = some (zr, 0, [], some QErr.eof) := by
  have hc2 := close_placeholder G 1 zw hcl he hb hw hperf
  rw [hww, List.nil_append, halg, hlvl] at hc2
  obtain ⟨zf, hread⟩ := read_placeholder G a m (emptyBufferBytes a 1) 1 hpbne hpb
    (by norm_num)
  refine ⟨_, zf, hc2, ?_⟩
  dsimp only
  exact hread

/-- Close-then-read when the writer already emitted the single frame
and holds nothing. -/
theorem roundtrip_done (G : EngineSpec) (a : Alg) (m : IBMode) (s : List Byte) (l : Bool)
    (hs : s ≠ [])
    (zw : Writer Unit (List Byte))
    (hcl : zw.closed = false) (he : zw.err = none) (hb : zw.bounceBuf = [])
    (hw : zw.wroteHeader = true) (hww : zw.w = G.enc s l) :
    ∃ zc zr,
      Writer.close (specWEnv G) 1 zw = some (zc, none) ∧
      Reader.read (specREnv G) 4 ((G.enc s l).length + 1 + 1) (rInit a m zc.w)
        (s.length + 1) = some (zr, s.length, s, some QErr.eof) := by
  have hc2 := close_done G 1 zw hcl he hw hb
  obtain ⟨zf, hread⟩ := read_frames G a m (G.enc s l) [(s, l)] (s.length + 1)
    (frameBytes_one G s l).symm (G.enc_ne s l hs)
    (by
      intro p hp
      rw [List.mem_singleton] at hp
      subst hp
      exact hs)
    (by rw [chunksBytes_one]; omega)
  rw [chunksBytes_one] at hread
  rw [show 3 * ([(s, l)] : List (List Byte × Bool)).length + 1 = 4 from rfl] at hread
  refine ⟨_, zf, hc2, ?_⟩
  dsimp only
  rw [hww]
  exact hread

/-- Close-then-read when the writer still holds bounced bytes: the
final frame is flushed with the last flag and the stream round-trips. -/
theorem roundtrip_flush (G : EngineSpec) (a : Alg) (m : IBMode) (s pre tail : List Byte)
    (zw : Writer Unit (List Byte))
    (hcl : zw.closed = false) (he : zw.err = none)
    (hbb : zw.bounceBuf = tail) (htail : tail ≠ [])
    (hww : zw.w = pre)
    (hg : 1 ≤ zw.growth)
    (fr0 : List (List Byte × Bool))
    (hpre : pre = frameBytes G fr0)
    (hfr0 : ∀ p ∈ fr0, p.1 ≠ [])
    (hs : chunksBytes fr0 ++ tail = s) :
    ∃ zc zr,
      Writer.close (specWEnv G) (G.need tail + 1 + 1 + 1) zw = some (zc, none) ∧
      Reader.read (specREnv G) (3 * (fr0.length + 1) + 1)
        ((pre ++ G.enc tail true).length + 1 + 1) (rInit a m zc.w)
        (s.length + 1) = some (zr, s.length, s, some QErr.eof) := by
  obtain ⟨g, o, hc2⟩ := close_spec G (G.need tail) zw hcl he
    (by rw [hbb]; exact htail)
    (by
      rw [hbb]
      exact Or.inl (needBound _ _ _ hg))
  rw [hbb, hww] at hc2
  obtain ⟨zf, hread⟩ := read_frames G a m (pre ++ G.enc tail true) (fr0 ++ [(tail, true)])
    (s.length + 1)
    (by rw [frameBytes_append, hpre, frameBytes_one])
    (by
      intro hcon
      have := congrArg List.length hcon
      simp only [List.length_append, List.length_nil] at this
      exact G.enc_ne tail true htail (List.length_eq_zero.mp (by omega)))
    (by
      intro p hp
      rw [List.mem_append] at hp
      rcases hp with hp | hp
      · exact hfr0 p hp
      · rw [List.mem_singleton] at hp
        subst hp
        exact htail)
    (by
      rw [chunksBytes_append, chunksBytes_one, hs]
      omega)
  rw [chunksBytes_append, chunksBytes_one, hs] at hread
  rw [show (fr0 ++ [(tail, true)]).length = fr0.length + 1 from by
    rw [List.length_append, List.length_cons, List.length_nil]] at hread
  refine ⟨_, zf, hc2, ?_⟩
  dsimp only
  exact hread

set_option maxRecDepth 4096 in
/-- C1 (amended): for every algorithm, every input-buffer mode and
every byte sequence `s` — except ZSTD with the empty sequence, where
the Writer emits zero bytes and the Reader fails with
`ErrEmptyBuffer` — writing `s` through a Writer and closing it, then
reading the produced stream to completion through a Reader with
matching options, delivers exactly `s` followed by `io.EOF`.  The
engine is any codec satisfying the §6 contract whose decoder inverts
its encoder frame by frame and (for the empty-payload case) decodes the
fixed DEFLATE/LZ4 placeholder frame to zero bytes, as QATzip does. -/
theorem C1_round_trip (G : EngineSpec) (a : Alg) (m : IBMode) (s : List Byte)
    (hnz : ¬ (a = Alg.zstd ∧ s = []))
    (hph : s = [] → G.dec (emptyBufferBytes a 1) =
      some ([], (emptyBufferBytes a 1).length)) :
    ∃ (fw fc fr pf : Nat) (zw zc : Writer Unit (List Byte)) (zr : Reader Unit (List Byte)),
      Writer.write (specWEnv G) fw (wInit a m) s = some (zw, s.length, none) ∧
      Writer.close (specWEnv G) fc zw = some (zc, none) ∧
      Reader.read (specREnv G) fr pf (rInit a m zc.w) (s.length + 1) =
        some (zr, s.length, s, some QErr.eof) := by
  rcases eq_or_ne s [] with hs | hs
  · subst hs
    have hzne : ¬ a = Alg.zstd := fun hcon => hnz ⟨hcon, rfl⟩
    have hpbne : emptyBufferBytes a 1 ≠ [] := by
      cases a
      · decide
      · decide
      · exact absurd rfl hzne
    have hpb := hph rfl
    by_cases hm : m = IBMode.noLast
    · subst hm
      obtain ⟨zc, zr, hclose, hread⟩ := roundtrip_empty G a IBMode.noLast
        (wStart a IBMode.noLast) rfl rfl rfl rfl rfl rfl rfl rfl hpbne hpb
      exact ⟨1, 1, 2, (emptyBufferBytes a 1).length + 1 + 1, _, zc, zr,
        write_noLast_nil G 0 a, hclose, hread⟩
    · obtain ⟨zc, zr, hclose, hread⟩ := roundtrip_empty G a m
        ({ wStart a m with bounceBuf := ([] : List Byte) }) rfl rfl rfl rfl rfl rfl rfl rfl
        hpbne hpb
      exact ⟨1, 1, 2, (emptyBufferBytes a 1).length + 1 + 1, _, zc, zr,
        write_hold G 1 a m [] hm (Or.inr (by simp)), hclose, hread⟩
  · by_cases hm : m = IBMode.noLast
    · subst hm
      obtain ⟨g, o, hg1, hwrite⟩ := write_noLast G a s hs
      obtain ⟨zc, zr, hclose, hread⟩ := roundtrip_done G a IBMode.noLast s false hs
        ({ wStart a IBMode.noLast with
          q := ()
          wroteHeader := true
          lastFlag := false
          perf := bumpBytes s.length (G.enc s false).length (some zeroPerf)
          growth := g
          outLen := o
          w := G.enc s false })
        rfl rfl rfl rfl rfl
      exact ⟨_, _, _, _, _, zc, zr, hwrite, hclose, hread⟩
    · by_cases hsz : m = IBMode.bounce ∨ s.length ≤ 512
      · obtain ⟨zc, zr, hclose, hread⟩ := roundtrip_flush G a m s [] s
          ({ wStart a m with bounceBuf := s })
          rfl rfl rfl hs rfl
          (by rw [show ({ wStart a m with bounceBuf := s } :
            Writer Unit (List Byte)).growth = 1024 * 1024 from rfl]; norm_num)
          [] rfl (by intro p hp; simp at hp)
          (by rw [chunksBytes_nil, List.nil_append])
        exact ⟨_, _, _, _, _, zc, zr, write_hold G 1 a m s hm hsz, hclose, hread⟩
      · rw [not_or] at hsz
        obtain ⟨hmb, hlen⟩ := hsz
        cases m with
        | noLast => exact absurd rfl hm
        | bounce => exact absurd rfl hmb
        | last =>
          obtain ⟨g, o, hg1, hwrite⟩ := write_last G a s hs hlen
          obtain ⟨zc, zr, hclose, hread⟩ := roundtrip_done G a IBMode.last s true hs
            ({ wStart a IBMode.last with
              q := ()
              wroteHeader := true
              lastFlag := true
              perf := bumpBytes s.length (G.enc s true).length (some zeroPerf)
              growth := g
              outLen := o
              w := G.enc s true })
            rfl rfl rfl rfl rfl
          exact ⟨_, _, _, _, _, zc, zr, hwrite, hclose, hread⟩
        | reserve =>
          obtain ⟨g, o, hg1, hwrite⟩ := write_reserve G a s hlen
          have htail : s.drop (s.length - 512) ≠ [] := by
            intro hcon
            have := congrArg List.length hcon
            simp only [List.length_drop, List.length_nil] at this
            omega
          have htake : s.take (s.length - 512) ≠ [] := by
            intro hcon
            have := congrArg List.length hcon
            simp only [List.length_take, List.length_nil] at this
            omega
          obtain ⟨zc, zr, hclose, hread⟩ := roundtrip_flush G a IBMode.reserve s
            (G.enc (s.take (s.length - 512)) false) (s.drop (s.length - 512))
            ({ wStart a IBMode.reserve with
              q := ()
              wroteHeader := true
              lastFlag := false
              bounceBuf := s.drop (s.length - 512)
              perf := bumpBytes (s.take (s.length - 512)).length
                (G.enc (s.take (s.length - 512)) false).length (some zeroPerf)
              growth := g
              outLen := o
              w := G.enc (s.take (s.length - 512)) false })
            rfl rfl rfl htail rfl (by dsimp only; exact hg1)
            [(s.take (s.length - 512), false)]
            (frameBytes_one G (s.take (s.length - 512)) false).symm
            (by
              intro p hp
              rw [List.mem_singleton] at hp
              subst hp
              exact htake)
            (by rw [chunksBytes_one, List.take_append_drop])
          exact ⟨_, _, _, _, _, zc, zr, hwrite, hclose, hread⟩

theorem C1_round_trip_witness :
    ∃ (fw fc fr pf : Nat) (zw zc : Writer Unit (List Byte)) (zr : Reader Unit (List Byte)),
      Writer.write (specWEnv uCodec) fw (wInit .deflate .noLast) [1] =
        some (zw, [1].length, none) ∧
      Writer.close (specWEnv uCodec) fc zw = some (zc, none) ∧
      Reader.read (specREnv uCodec) fr pf (rInit .deflate .noLast zc.w) ([1].length + 1) =
        some (zr, [1].length, [1], some QErr.eof) :=
  C1_round_trip uCodec .deflate .noLast [1] (by decide)
    (fun h => absurd h (by decide))

end QatGo
